import Mathlib

/-!
# BTreeVI: multi-version B+-tree leaf operations

A shallow embedding of `backend/leanstore/storage/btree/BTreeVI.cpp`.

* Bytes, identifiers, timestamps and lengths are natural numbers; where the
  C++ code computes in a fixed width (u16 lengths, u32 byte counters, u64
  counters) the reduction modulo the width is written out.
* One call of an operation runs to completion without interleaving; the restart
  of a latch-validation failure (jumpmu) is not part of the model, except for
  the fast path of `todo`, whose failure leads to the keyed path.
* The content of the tree is the key-ordered sequence of the slots of its
  leaves; splitting and merging regroup slots and do not change that sequence.
* Types, constants and helper routines that live in other files of the
  repository are fields of `Env`, parameters of the definition that uses them,
  or definitions whose comment says so (it starts with "Modelled from the
  spec:" where the spec describes them).
-/

namespace BTreeVI

/-! ## Machine widths and results -/

/-- Number of values of the C++ type u16. -/
def U16 : Nat := 65536

/-- Number of values of the C++ type u32. -/
def U32 : Nat := 4294967296

/-- Number of values of the C++ type u64. -/
def U64 : Nat := 18446744073709551616

/-- The closed set of operation results (`leanstore::OP_RESULT`). -/
inductive OP_RESULT where
  | OK
  | NOT_FOUND
  | DUPLICATE
  | ABORT_TX
  | NOT_ENOUGH_SPACE
  | OTHER
deriving DecidableEq, Repr

/-- How a call ends. `ret a`: the call returns `a`. `ensure_failed`: an
`ensure(...)` did not hold (spec: invariant violations trap immediately, no
result). `sigtrap`: `raise(SIGTRAP)` was reached. `undefined`: the code writes
past the end of a buffer whose u16 length computation wrapped around.
`out_of_fuel`: the bounded unrolling of a `while (true)` loop was too short
(an artefact of the embedding, not a behaviour of the program). -/
inductive Exec (α : Type) where
  | ret (a : α)
  | ensure_failed
  | sigtrap
  | undefined
  | out_of_fuel
deriving DecidableEq, Repr

/-! ## Tuple codec -/

/-- One (offset, length) slice of an update descriptor. -/
structure UpdateSlot where
  offset : Nat
  length : Nat
deriving DecidableEq, Repr

/-- Modelled from the spec: `UpdateSameSizeInPlaceDescriptor` (declared outside
this file) is the ordered list of (offset, length) slices over the value
payload that the update modifies. -/
abbrev UpdateSameSizeInPlaceDescriptor := List UpdateSlot

/-- Modelled from the spec: `diffLength()`, the number of bytes the slices of
the descriptor enumerate. -/
def diffLength : UpdateSameSizeInPlaceDescriptor → Nat
  | [] => 0
  | s :: d => s.length + diffLength d

/-- Position `p` of the value lies in slice `s`. -/
def UpdateSlot.covers (s : UpdateSlot) (p : Nat) : Prop :=
  s.offset ≤ p ∧ p < s.offset + s.length

/-- Position `p` of the value lies in one of the slices of `d`. -/
def covered (d : UpdateSameSizeInPlaceDescriptor) (p : Nat) : Prop :=
  ∃ s ∈ d, s.covers p

/-- Every slice of `d` lies inside a value of `n` bytes. -/
def slicesInside (d : UpdateSameSizeInPlaceDescriptor) (n : Nat) : Prop :=
  ∀ s ∈ d, s.offset + s.length ≤ n

instance (s : UpdateSlot) (p : Nat) : Decidable (s.covers p) :=
  inferInstanceAs (Decidable (s.offset ≤ p ∧ p < s.offset + s.length))

instance (d : UpdateSameSizeInPlaceDescriptor) (p : Nat) : Decidable (covered d p) :=
  inferInstanceAs (Decidable (∃ s ∈ d, s.covers p))

instance (d : UpdateSameSizeInPlaceDescriptor) (n : Nat) : Decidable (slicesInside d n) :=
  inferInstanceAs (Decidable (∀ s ∈ d, s.offset + s.length ≤ n))

/-- No byte position lies in two slices of `d`. -/
def slicesDisjoint (d : UpdateSameSizeInPlaceDescriptor) : Prop :=
  d.Pairwise (fun a b => ∀ p, ¬ (a.covers p ∧ b.covers p))

/-- Offset, inside the diff bytes, of the first byte of slice number `j`. -/
def diffOffset (d : UpdateSameSizeInPlaceDescriptor) (j : Nat) : Nat :=
  diffLength (d.take j)

/-- Byte-wise combination of `bytes` into the buffer `dst` starting at offset
`off`: position `off + i` of `dst` becomes `f dst[off + i] bytes[i]`. Positions
past the end of `dst` do not exist in the model. -/
def patch (f : Nat → Nat → Nat) : List Nat → Nat → List Nat → List Nat
  | [], _, _ => []
  | x :: dst, 0, [] => x :: dst
  | x :: dst, 0, b :: bs => f x b :: patch f dst 0 bs
  | x :: dst, off + 1, bs => x :: patch f dst off bs

/-- The `memcpy(dst + off, bytes, bytes.length)` of the C++ code. -/
def memcpyAt (dst : List Nat) (off : Nat) (bytes : List Nat) : List Nat :=
  patch (fun _ b => b) dst off bytes

/-- The byte loop `dst[off + i] ^= bytes[i]`. -/
def xorAt (dst : List Nat) (off : Nat) (bytes : List Nat) : List Nat :=
  patch (fun x b => x ^^^ b) dst off bytes

/-- The bytes `src[s.offset .. s.offset + s.length)`. -/
def sliceOf (src : List Nat) (s : UpdateSlot) : List Nat :=
  (src.drop s.offset).take s.length

/-- Modelled from the spec: `BTreeLL::generateDiff(desc, dst, src)` (defined
outside this file). Diffs are position-correct byte spans enumerated by the
descriptor: the forward diff written to `dst` is the bytes of `src` in each
slice, slice after slice. -/
def generateDiff : UpdateSameSizeInPlaceDescriptor → List Nat → List Nat
  | [], _ => []
  | s :: d, src => sliceOf src s ++ generateDiff d src

/-- Modelled from the spec: `BTreeLL::generateXORDiff(desc, dst, src)` (defined
outside this file) overwrites the forward-diff bytes in `dst` with their XOR
with the bytes of `src` in the same slices. -/
def generateXORDiff : UpdateSameSizeInPlaceDescriptor → List Nat → List Nat → List Nat
  | [], dst, _ => dst
  | s :: d, dst, src =>
    xorAt (dst.take s.length) 0 (sliceOf src s) ++ generateXORDiff d (dst.drop s.length) src

/-- Modelled from the spec: `BTreeLL::applyDiff(desc, dst, src)` (defined
outside this file) copies the diff bytes `src`, slice after slice, to the
slice positions of the buffer `dst`. -/
def applyDiff : UpdateSameSizeInPlaceDescriptor → List Nat → List Nat → List Nat
  | [], dst, _ => dst
  | s :: d, dst, src => applyDiff d (memcpyAt dst s.offset (src.take s.length)) (src.drop s.length)

/-- Modelled from the spec: `BTreeLL::applyXORDiff(desc, dst, src)` (defined
outside this file) XORs the stored diff bytes `src`, slice after slice, into
the slice positions of the buffer `dst`. -/
def applyXORDiff : UpdateSameSizeInPlaceDescriptor → List Nat → List Nat → List Nat
  | [], dst, _ => dst
  | s :: d, dst, src => applyXORDiff d (xorAt dst s.offset (src.take s.length)) (src.drop s.length)

/-- The user callback of `updateSameSizeInPlace` receives the in-place payload
and its size: what it writes lands in that buffer, whose size is fixed. -/
def runCallback (callback : List Nat → List Nat) (value : List Nat) : List Nat :=
  memcpyAt value 0 (callback value)

/-! ## Data model -/

/-- The two primary formats of the spec (format ∈ {Chained, Fat}). -/
inductive TupleFormat where
  | CHAINED
  | FAT_TUPLE_DIFFERENT_ATTRIBUTES
deriving DecidableEq, Repr

/-- Modelled from the spec: the primary tuple stored as the leaf value of a
key (`Tuple` / `ChainedTuple`, declared outside this file): format, identity
of the last writer, command id, write-lock and tombstone bits, the SSI
bookkeeping fields, and the value bytes that follow the header. -/
structure Tuple where
  tuple_format : TupleFormat
  worker_id : Nat
  tx_id : Nat
  command_id : Nat
  write_locked : Bool
  is_removed : Bool
  read_ts : Nat
  read_lock_counter : Nat
  payload : List Nat
deriving DecidableEq, Repr

/-- Modelled from the spec: the constructor `ChainedTuple(worker_id, tx_id)`
(declared outside this file) yields a fresh Chained primary with the writer's
identity, command id 0, not locked, not removed, empty SSI bookkeeping. The
value bytes are whatever the slot holds after the header. -/
def ChainedTuple (worker_id tx_id : Nat) (payload : List Nat) : Tuple :=
  { tuple_format := TupleFormat.CHAINED, worker_id := worker_id, tx_id := tx_id,
    command_id := 0, write_locked := false, is_removed := false,
    read_ts := 0, read_lock_counter := 0, payload := payload }

/-- Modelled from the spec: the secondary version record (`ChainedTupleVersion`,
declared outside this file). Its payload is the descriptor followed by the diff
bytes when `is_delta`, else the full value; `descriptor` and `data` are these
two parts. -/
structure ChainedTupleVersion where
  worker_id : Nat
  tx_id : Nat
  command_id : Nat
  is_removed : Bool
  is_delta : Bool
  committed_before_txid : Nat
  gc_trigger : Nat
  descriptor : UpdateSameSizeInPlaceDescriptor
  data : List Nat
deriving DecidableEq, Repr

/-- Modelled from the spec: the constructor
`ChainedTupleVersion(worker_id, tx_id, is_removed, is_delta, gc_trigger)`;
the command id and `committed_before_txid` are assigned by the caller
afterwards and start at 0 here, the payload is filled in by the caller. -/
def ChainedTupleVersion.new (worker_id tx_id : Nat) (is_removed is_delta : Bool)
    (gc_trigger : Nat) : ChainedTupleVersion :=
  { worker_id := worker_id, tx_id := tx_id, command_id := 0, is_removed := is_removed,
    is_delta := is_delta, committed_before_txid := 0, gc_trigger := gc_trigger,
    descriptor := [], data := [] }

/-- One record of the versions store: the key (tx-id, command-id) it was
appended under, the size that was reserved for it, and the record. -/
structure VersionEntry where
  tx_id : Nat
  command_id : Nat
  length : Nat
  version : ChainedTupleVersion
deriving DecidableEq, Repr

/-- Modelled from the spec: `insertVersion(tx_id, tree_id, command_id, size,
writer_cb)` of the versions store (outside this file) appends the record built
by the callback under the key (tx-id, command-id); one tree is modelled, so the
tree id is left out. -/
def insertVersion (space : List VersionEntry) (tx_id command_id size : Nat)
    (version : ChainedTupleVersion) : List VersionEntry :=
  { tx_id := tx_id, command_id := command_id, length := size, version := version } :: space

/-- Modelled from the spec: `retrieveVersion(tx_id, tree_id, command_id,
reader_cb)` hands the stored record and its length to the callback if a record
is present under the key, and reports whether one was. -/
def retrieveVersion : List VersionEntry → Nat → Nat → Option VersionEntry
  | [], _, _ => none
  | e :: space, tx_id, command_id =>
    if e.tx_id = tx_id ∧ e.command_id = command_id then some e
    else retrieveVersion space tx_id command_id

/-- WAL record of an insert: key and value. -/
structure WALInsert where
  key_length : Nat
  value_length : Nat
  key : List Nat
  value : List Nat
deriving DecidableEq, Repr

/-- WAL record of a same-size in-place update: key, descriptor and XOR diff,
with the writer identity before and after. -/
structure WALUpdateSSIP where
  key_length : Nat
  delta_length : Nat
  before_worker_id : Nat
  before_tx_id : Nat
  before_command_id : Nat
  after_worker_id : Nat
  after_tx_id : Nat
  after_command_id : Nat
  key : List Nat
  descriptor : UpdateSameSizeInPlaceDescriptor
  diff : List Nat
deriving DecidableEq, Repr

/-- WAL record of a remove: key and value pre-image with the writer identity
before the remove. -/
structure WALRemove where
  key_length : Nat
  value_length : Nat
  before_worker_id : Nat
  before_tx_id : Nat
  before_command_id : Nat
  key : List Nat
  value : List Nat
deriving DecidableEq, Repr

/-- A WAL record, by `WAL_LOG_TYPE`; `other` stands for every type `undo` has
no case for. -/
inductive WALEntry where
  | WALInsert (e : WALInsert)
  | WALUpdate (e : WALUpdateSSIP)
  | WALRemove (e : WALRemove)
  | other
deriving DecidableEq, Repr

/-- The optimistic locator staged by `remove`: expected latch version and
leaf slot index (one leaf is modelled, so the buffer frame is left out). -/
structure DanglingPointer where
  latch_version_should_be : Nat
  head_slot : Nat
deriving DecidableEq, Repr

/-- A staged point TODO: the key and the dangling pointer, together with the
(worker id, tx-id) it was staged for. -/
structure TODOPoint where
  version_worker_id : Nat
  version_tts : Nat
  key_length : Nat
  key : List Nat
  dangling_pointer : DanglingPointer
deriving DecidableEq, Repr

/-- A leaf slot: the key and the primary tuple stored as its payload. -/
structure Slot where
  key : List Nat
  tuple : Tuple
deriving DecidableEq, Repr

/-- The leaf page: its slots in key order, the garbage estimate, the dirty mark,
the page sequence number and the latch version. -/
structure Leaf where
  slots : List Slot
  gc_space_used : Nat
  dirty : Bool
  gsn : Nat
  latch_version : Nat
deriving DecidableEq, Repr

/-- The shared state: the leaf and the versions store. -/
structure State where
  leaf : Leaf
  versions_space : List VersionEntry
deriving DecidableEq, Repr

/-- The calling worker (`cr::Worker::my()`) and its active transaction
(`cr::activeTX()`): identity, command counter, what it knows of the other
workers, the properties of the transaction, its private WAL stream (newest
record first), its staged TODOs and the number of `commitTX` calls. -/
structure Worker where
  workerID : Nat
  command_id : Nat
  workers_count : Nat
  global_workers_in_progress_txid : List Nat
  global_snapshot_lwm : Nat
  TTS : Nat
  isSerializable : Bool
  isSingleStatement : Bool
  atLeastSI : Bool
  wal : List WALEntry
  todo : List TODOPoint
  commits : Nat
deriving DecidableEq, Repr

/-- Configuration switches, layout constants and routines of the repository
that are declared outside this file and enter the code as parameters. -/
structure Env where
  FLAGS_mv : Bool
  FLAGS_vi_update_version_elision : Bool
  FLAGS_vi_fupdate_chained : Bool
  FLAGS_vi_fremove : Bool
  FLAGS_vi_rtodo : Bool
  FLAGS_vi_dangling_pointer : Bool
  FLAGS_2pl : Bool
  FLAGS_vi_max_chain_length : Nat
  /-- The value of `sizeof(ChainedTuple)`. -/
  sizeofChainedTuple : Nat
  /-- The value of `sizeof(ChainedTupleVersion)`. -/
  sizeofChainedTupleVersion : Nat
  /-- The method `update_descriptor.size()`: bytes of the serialized descriptor. -/
  descriptorSize : UpdateSameSizeInPlaceDescriptor → Nat
  /-- The method `ChainedTuple::isFinal()`. -/
  isFinal : Tuple → Bool
  /-- The `ChainSN` read from the last `sizeof(ChainSN)` bytes of a key. -/
  chainSN : List Nat → Nat
  /-- The slot payload read as a `ChainedTupleVersion` (reinterpret_cast). -/
  asVersion : Tuple → ChainedTupleVersion
  /-- The method `getKVConsumedSpace(slot)` of the leaf. -/
  getKVConsumedSpace : Slot → Nat
  /-- The method `FatTupleDifferentAttributes::update`: success flag and the
  tuple it leaves. -/
  fatUpdate : Tuple → (List Nat → List Nat) → UpdateSameSizeInPlaceDescriptor → Bool × Tuple
  /-- The method `FatTupleDifferentAttributes::undoLastUpdate`. -/
  fatUndoLastUpdate : Tuple → Tuple
  /-- The fat-tuple branch of `reconstructTuple`: result, versions visited and
  the value handed to the callback. -/
  fatReconstruct : Tuple → OP_RESULT × Nat × Option (List Nat)

/-- The visibility oracle `isVisibleForMe(worker_id, tx_id, to_write)` of the
calling transaction (outside this file). -/
abbrev Visibility := Nat → Nat → Bool → Bool

/-! ## Leaf access (generic B+-tree iterator) -/

/-- Byte-wise lexicographic order of keys. -/
def keyLt : List Nat → List Nat → Bool
  | _, [] => false
  | [], _ :: _ => true
  | a :: as, b :: bs => decide (a < b) || (decide (a = b) && keyLt as bs)

/-- Modelled from the spec: `seekExact(key)` of the iterator (outside this
file) locates the key: the slot index (`iterator.cur`) and the slot, if a slot
with that key exists. -/
def seekExact : List Slot → List Nat → Option (Nat × Slot)
  | [], _ => none
  | s :: rest, key =>
    if s.key = key then some (0, s)
    else (seekExact rest key).map (fun r => (r.1 + 1, r.2))

/-- Modelled from the spec: the position at which `seekToInsert(key)` leaves
the iterator when the key is absent: in front of the first slot whose key is
not smaller. -/
def lowerBound : List Slot → List Nat → Nat
  | [], _ => 0
  | s :: rest, key => if keyLt s.key key then lowerBound rest key + 1 else 0

/-- Modelled from the spec: `insertInCurrentNode(key, payload_length)` opens a
slot for the key at the iterator position. -/
def insertInCurrentNode (slots : List Slot) (pos : Nat) (slot : Slot) : List Slot :=
  slots.take pos ++ slot :: slots.drop pos

/-- Writing through `iterator.mutableValue()`: the tuple of slot `cur` is
replaced. -/
def setTuple (slots : List Slot) (cur : Nat) (slot : Slot) (tuple : Tuple) : List Slot :=
  slots.set cur { slot with tuple := tuple }

/-- The call `iterator.markAsDirty()`. -/
def Leaf.markAsDirty (leaf : Leaf) : Leaf := { leaf with dirty := true }

/-- The statement `if (isSingleStatement()) commitTX()`. -/
def Worker.commitIfSingleStatement (w : Worker) : Worker :=
  if w.isSingleStatement then { w with commits := w.commits + 1 } else w

/-! ## Policy checks shared by the mutators -/

/-- The C++ compound assignment `b &= x` for a `bool b` and a u64 `x`: both are
converted to u64, AND-ed bitwise, and the result is converted back to bool. -/
def boolAndAssign (b : Bool) (x : Nat) : Bool :=
  decide ((b.toNat &&& x) ≠ 0)

/-- The loop over `global_workers_in_progress_txid` in
`updateSameSizeInPlace`; the first argument is the number of workers still to
visit, the second the index `w_i`. -/
def elisionLoop (txids : List Nat) : Nat → Nat → Bool → Bool
  | 0, _, u => u
  | n + 1, w_i, u =>
    if u then elisionLoop txids n (w_i + 1) (boolAndAssign u (txids.getD w_i 0 &&& 2 ^ 63))
    else u

/-- The value of `update_without_versioning` when the Chained branch of
`updateSameSizeInPlace` consults it. -/
def update_without_versioning (env : Env) (w : Worker) : Bool :=
  let u := env.FLAGS_vi_update_version_elision || !env.FLAGS_mv || env.FLAGS_vi_fupdate_chained
  if u && !env.FLAGS_vi_fupdate_chained && env.FLAGS_vi_update_version_elision then
    elisionLoop w.global_workers_in_progress_txid w.workers_count 0 (u && w.isSingleStatement)
  else u

/-- The test `isWriteLocked() || !isVisibleForMe(worker_id, tx_id, true)` of
insert, update and remove. -/
def writeConflict (vis : Visibility) (tuple : Tuple) : Bool :=
  tuple.write_locked || !vis tuple.worker_id tuple.tx_id true

/-- The value `1ull << workerID()`. -/
def workerBit (w : Worker) : Nat := (1 <<< w.workerID) % U64

/-- The SSI test of update and remove: under a serializable transaction, with
2PL `read_lock_counter > 0 && read_lock_counter != (1ull << workerID())`,
without 2PL `read_ts > TTS()`. -/
def ssiConflict (env : Env) (w : Worker) (tuple : Tuple) : Bool :=
  if w.isSerializable then
    if env.FLAGS_2pl then
      decide (tuple.read_lock_counter > 0) && decide (tuple.read_lock_counter ≠ workerBit w)
    else decide (tuple.read_ts > w.TTS)
  else false

/-- The SSI bookkeeping a writer leaves on the primary: under a serializable
transaction its own bit (2PL) or its own timestamp. -/
def stampSSI (env : Env) (w : Worker) (tuple : Tuple) : Tuple :=
  if w.isSerializable then
    if env.FLAGS_2pl then { tuple with read_lock_counter := workerBit w }
    else { tuple with read_ts := w.TTS }
  else tuple

/-! ## insert -/

/-- The WALInsert record `insert` submits: key and value. -/
def insertWALEntry (o_key value : List Nat) : WALInsert :=
  { key_length := o_key.length, value_length := value.length, key := o_key, value := value }

/-- The branch `ret == OP_RESULT::DUPLICATE` of `insert`: ABORT_TX when the
existing primary is write-locked or not visible to the writer, else
`ensure(false)` ("Not implemented: maybe it has been removed but no GCed"). -/
def insertDuplicate (vis : Visibility) (w : Worker) (st : State) (slot : Slot) :
    Exec (OP_RESULT × Worker × State) :=
  if writeConflict vis slot.tuple then Exec.ret (OP_RESULT.ABORT_TX, w, st)
  else Exec.ensure_failed

/-- The part of `insert` after the space check succeeded: WAL record,
`insertInCurrentNode` with the u16 `payload_length`, construction of the
primary and copy of the value. The slot has `payload_length` bytes; when that
u16 wrapped around, header and value do not fit into it. -/
def insertIntoLeaf (env : Env) (w : Worker) (st : State) (o_key value : List Nat) :
    Exec (OP_RESULT × Worker × State) :=
  let payload_length := (value.length + env.sizeofChainedTuple) % U16
  let wal_entry := insertWALEntry o_key value
  if payload_length < env.sizeofChainedTuple + value.length then Exec.undefined
  else
    let primary_version := ChainedTuple w.workerID w.TTS
      (memcpyAt (List.replicate (payload_length - env.sizeofChainedTuple) 0) 0 value)
    let slots := insertInCurrentNode st.leaf.slots (lowerBound st.leaf.slots o_key)
      { key := o_key, tuple := primary_version }
    Exec.ret (OP_RESULT.OK,
      { w with wal := WALEntry.WALInsert wal_entry :: w.wal }.commitIfSingleStatement,
      { st with leaf := { st.leaf with slots := slots } })

/-- `BTreeVI::insert(o_key, o_key_length, value, value_length)`. The first
argument is the number of times `enoughSpaceInCurrentNode` answers
NOT_ENOUGH_SPACE (each followed by `splitForKey` and a new round of the
`while (true)` loop) before the leaf has room. The `assert` on read-only
transactions and the WAL space reservation have no effect on the state. -/
def insert (env : Env) (vis : Visibility) : Nat → Worker → State → List Nat → List Nat →
    Exec (OP_RESULT × Worker × State)
  | n + 1, w, st, o_key, value =>
    match seekExact st.leaf.slots o_key with
    | some (_, slot) => insertDuplicate vis w st slot
    | none => insert env vis n w st o_key value
  | 0, w, st, o_key, value =>
    match seekExact st.leaf.slots o_key with
    | some (_, slot) => insertDuplicate vis w st slot
    | none => insertIntoLeaf env w st o_key value

/-! ## updateSameSizeInPlace -/

/-- The secondary version `updateSameSizeInPlace` writes in its
`insertVersion` callback. -/
def updateVersion (w : Worker) (tuple_head : Tuple)
    (update_descriptor : UpdateSameSizeInPlaceDescriptor) : ChainedTupleVersion :=
  { ChainedTupleVersion.new tuple_head.worker_id tuple_head.tx_id false true w.TTS with
    descriptor := update_descriptor
    data := generateDiff update_descriptor tuple_head.payload
    command_id := tuple_head.command_id
    committed_before_txid :=
      if tuple_head.worker_id = w.workerID ∧ tuple_head.tx_id = w.TTS then U64 - 1 else w.TTS }

/-- The WALUpdateSSIP record `updateSameSizeInPlace` submits: the forward diff
of the old payload is written first, the callback runs, and the diff bytes are
then XOR-ed with the updated payload. -/
def updateWALEntry (w : Worker) (o_key : List Nat) (tuple_head : Tuple)
    (update_descriptor : UpdateSameSizeInPlaceDescriptor)
    (delta_and_descriptor_size command_id : Nat) (updated_payload : List Nat) : WALUpdateSSIP :=
  { key_length := o_key.length
    delta_length := delta_and_descriptor_size
    before_worker_id := tuple_head.worker_id
    before_tx_id := tuple_head.tx_id
    before_command_id := tuple_head.command_id
    after_worker_id := w.workerID
    after_tx_id := w.TTS
    after_command_id := command_id
    key := o_key
    descriptor := update_descriptor
    diff := generateXORDiff update_descriptor
      (generateDiff update_descriptor tuple_head.payload) updated_payload }

/-- The primary `updateSameSizeInPlace` leaves: the payload as the callback
updated it, the identity of the writer with the newly allocated command id, the
SSI bookkeeping set to the writer, and the write lock released. -/
def updatedPrimary (env : Env) (w : Worker) (tuple_head : Tuple) (command_id : Nat)
    (updated_payload : List Nat) : Tuple :=
  { stampSSI env w
      { tuple_head with
        payload := updated_payload, worker_id := w.workerID, tx_id := w.TTS,
        command_id := command_id } with
    write_locked := false }

/-- The Chained branch of `updateSameSizeInPlace` ("Update in chained mode"),
entered with the primary write-locked at slot `cur`. -/
def updateChained (env : Env) (w : Worker) (st : State) (o_key : List Nat) (cur : Nat)
    (slot : Slot) (callback : List Nat → List Nat)
    (update_descriptor : UpdateSameSizeInPlaceDescriptor) : Exec (OP_RESULT × Worker × State) :=
  let tuple_head := slot.tuple
  let delta_and_descriptor_size :=
    (env.descriptorSize update_descriptor + diffLength update_descriptor) % U16
  let secondary_payload_length := (delta_and_descriptor_size + env.sizeofChainedTupleVersion) % U16
  let command_id := w.command_id
  let w1 := { w with command_id := (w.command_id + 1) % U64 }
  if !update_without_versioning env w ∧ secondary_payload_length <
      env.sizeofChainedTupleVersion + env.descriptorSize update_descriptor
        + diffLength update_descriptor then Exec.undefined
  else
    let versions_space :=
      if update_without_versioning env w then st.versions_space
      else insertVersion st.versions_space w.TTS command_id secondary_payload_length
        (updateVersion w tuple_head update_descriptor)
    if delta_and_descriptor_size <
        env.descriptorSize update_descriptor + diffLength update_descriptor then Exec.undefined
    else
      let updated_payload := runCallback callback tuple_head.payload
      let wal_entry := updateWALEntry w o_key tuple_head update_descriptor
        delta_and_descriptor_size command_id updated_payload
      Exec.ret (OP_RESULT.OK,
        { w1 with wal := WALEntry.WALUpdate wal_entry :: w.wal }.commitIfSingleStatement,
        { leaf := { st.leaf.markAsDirty with
            slots := setTuple st.leaf.slots cur slot
              (updatedPrimary env w tuple_head command_id updated_payload) }
          versions_space := versions_space })

/-- `BTreeVI::updateSameSizeInPlace(o_key, o_key_length, callback,
update_descriptor)`. -/
def updateSameSizeInPlace (env : Env) (vis : Visibility) (w : Worker) (st : State)
    (o_key : List Nat) (callback : List Nat → List Nat)
    (update_descriptor : UpdateSameSizeInPlaceDescriptor) : Exec (OP_RESULT × Worker × State) :=
  match seekExact st.leaf.slots o_key with
  | none => Exec.sigtrap
  | some (cur, slot) =>
    if writeConflict vis slot.tuple then Exec.ret (OP_RESULT.ABORT_TX, w, st)
    else if ssiConflict env w slot.tuple then Exec.ret (OP_RESULT.ABORT_TX, w, st)
    else
      match slot.tuple.tuple_format with
      | TupleFormat.FAT_TUPLE_DIFFERENT_ATTRIBUTES =>
        let res := env.fatUpdate { slot.tuple with write_locked := true } callback update_descriptor
        if res.1 then
          Exec.ret (OP_RESULT.OK, w.commitIfSingleStatement,
            { st with leaf := { st.leaf with
                slots := setTuple st.leaf.slots cur slot { res.2 with write_locked := false } } })
        else Exec.ensure_failed
      | TupleFormat.CHAINED => updateChained env w st o_key cur slot callback update_descriptor

/-! ## remove -/

/-- The secondary version `remove` writes in its `insertVersion` callback: the
full prior value, not a delta, with the superseded writer identity. -/
def removeVersion (w : Worker) (tuple_head : Tuple) (value_length : Nat) : ChainedTupleVersion :=
  { ChainedTupleVersion.new tuple_head.worker_id tuple_head.tx_id false false w.TTS with
    worker_id := tuple_head.worker_id
    tx_id := tuple_head.tx_id
    command_id := tuple_head.command_id
    data := tuple_head.payload.take value_length }

/-- The WALRemove record `remove` submits. -/
def removeWALEntry (o_key : List Nat) (tuple_head : Tuple) (value_length : Nat) : WALRemove :=
  { key_length := o_key.length
    value_length := value_length
    before_worker_id := tuple_head.worker_id
    before_tx_id := tuple_head.tx_id
    before_command_id := tuple_head.command_id
    key := o_key
    value := tuple_head.payload.take value_length }

/-- The statement `if (rtodo) stageTODO(...)` of `remove`. -/
def stageTODO (env : Env) (w : Worker) (o_key : List Nat) (dangling_pointer : DanglingPointer) :
    Worker :=
  if env.FLAGS_vi_rtodo then
    { w with todo :=
        { version_worker_id := w.workerID, version_tts := w.TTS, key_length := o_key.length,
          key := o_key, dangling_pointer := dangling_pointer } :: w.todo }
  else w

/-- The primary `remove` leaves: shortened to the header when the value has
more than one byte (`if (payload.length() - sizeof(ChainedTuple) > 1)`), marked
removed, with the identity of the remover and the newly allocated command id,
the SSI bookkeeping set to the remover, and the write lock released. -/
def removedPrimary (env : Env) (w : Worker) (tuple_head : Tuple) (command_id : Nat) : Tuple :=
  { stampSSI env w
      { tuple_head with
        payload := if tuple_head.payload.length > 1 then [] else tuple_head.payload
        is_removed := true, worker_id := w.workerID, tx_id := w.TTS,
        command_id := command_id } with
    write_locked := false }

/-- `BTreeVI::remove(o_key, o_key_length)`. The value length of the primary is
its payload length minus `sizeof(ChainedTuple)`, which is the length of the
value bytes of the tuple. -/
def remove (env : Env) (vis : Visibility) (w : Worker) (st : State) (o_key : List Nat) :
    Exec (OP_RESULT × Worker × State) :=
  match seekExact st.leaf.slots o_key with
  | none => Exec.ret (OP_RESULT.NOT_FOUND, w, st)
  | some (cur, slot) =>
    if env.FLAGS_vi_fremove then
      Exec.ret (OP_RESULT.OK, w,
        { st with leaf := { st.leaf with slots := st.leaf.slots.eraseIdx cur } })
    else
      let command_id := w.command_id
      let w1 := { w with command_id := (w.command_id + 1) % U64 }
      let tuple_head := slot.tuple
      if tuple_head.tuple_format ≠ TupleFormat.CHAINED then Exec.ensure_failed
      else if writeConflict vis tuple_head then Exec.ret (OP_RESULT.ABORT_TX, w1, st)
      else if ssiConflict env w tuple_head then Exec.ret (OP_RESULT.ABORT_TX, w1, st)
      else if w.atLeastSI ∧ tuple_head.is_removed then Exec.ensure_failed
      else if tuple_head.is_removed then Exec.ret (OP_RESULT.NOT_FOUND, w1, st)
      else
        let value_length := tuple_head.payload.length
        let secondary_payload_length := (env.sizeofChainedTupleVersion + value_length) % U16
        if secondary_payload_length < env.sizeofChainedTupleVersion + value_length then
          Exec.undefined
        else
          let versions_space := insertVersion st.versions_space w.TTS command_id
            secondary_payload_length (removeVersion w tuple_head value_length)
          let dangling_pointer : DanglingPointer :=
            { latch_version_should_be := st.leaf.latch_version, head_slot := cur }
          let wal_entry := removeWALEntry o_key tuple_head value_length
          Exec.ret (OP_RESULT.OK,
            (stageTODO env { w1 with wal := WALEntry.WALRemove wal_entry :: w.wal } o_key
              dangling_pointer).commitIfSingleStatement,
            { leaf := { st.leaf.markAsDirty with
                slots := setTuple st.leaf.slots cur slot
                  (removedPrimary env w tuple_head command_id) }
              versions_space := versions_space })

/-! ## undo -/

/-- Modelled from the spec: `extendPayload(len)` / `shorten(len)` of the
iterator bring the value bytes of the current slot to the given number of
bytes; bytes gained by an extension are unspecified (0 here) until written. -/
def resizePayload (payload : List Nat) (n : Nat) : List Nat :=
  payload.take n ++ List.replicate (n - payload.length) 0

/-- The primary `undo` of a WALRemove record re-constructs in the slot, before
it clears the lock: the slot is resized to `value_length + sizeof(ChainedTuple)`
bytes, a Chained primary with the pre-image writer identity is constructed in
place, the value pre-image is copied in and the command id restored. -/
def restoredPrimary (env : Env) (remove_entry : WALRemove) (old_primary : Tuple) : Tuple :=
  let new_primary_payload_length := (remove_entry.value_length + env.sizeofChainedTuple) % U16
  { ChainedTuple remove_entry.before_worker_id remove_entry.before_tx_id
      (memcpyAt
        (resizePayload old_primary.payload (new_primary_payload_length - env.sizeofChainedTuple))
        0 (remove_entry.value.take remove_entry.value_length)) with
    command_id := remove_entry.before_command_id }

/-- `BTreeVI::undo(btree_object, wal_entry_ptr, tts)`: the inverse mutation of
one WAL record during rollback. -/
def undo (env : Env) (st : State) (entry : WALEntry) : Exec State :=
  match entry with
  | WALEntry.WALInsert insert_entry =>
    match seekExact st.leaf.slots insert_entry.key with
    | none => Exec.ensure_failed
    | some (cur, _) =>
      Exec.ret { st with leaf := { st.leaf with slots := st.leaf.slots.eraseIdx cur }.markAsDirty }
  | WALEntry.WALUpdate update_entry =>
    match seekExact st.leaf.slots update_entry.key with
    | none => Exec.ensure_failed
    | some (cur, slot) =>
      if slot.tuple.write_locked then Exec.ensure_failed
      else
        match slot.tuple.tuple_format with
        | TupleFormat.FAT_TUPLE_DIFFERENT_ATTRIBUTES =>
          Exec.ret { st with leaf := { st.leaf with
            slots := setTuple st.leaf.slots cur slot (env.fatUndoLastUpdate slot.tuple) } }
        | TupleFormat.CHAINED =>
          let chain_head := slot.tuple
          Exec.ret { st with leaf := { st.leaf with
            slots := setTuple st.leaf.slots cur slot
              { chain_head with
                worker_id := update_entry.before_worker_id
                tx_id := update_entry.before_tx_id
                command_id := update_entry.before_command_id
                payload := applyXORDiff update_entry.descriptor chain_head.payload
                  update_entry.diff } } }
  | WALEntry.WALRemove remove_entry =>
    match seekExact st.leaf.slots remove_entry.key with
    | none => Exec.ensure_failed
    | some (cur, slot) =>
      let new_primary_payload_length := (remove_entry.value_length + env.sizeofChainedTuple) % U16
      if new_primary_payload_length < env.sizeofChainedTuple + remove_entry.value_length then
        Exec.undefined
      else
        let primary_version := restoredPrimary env remove_entry slot.tuple
        if primary_version.is_removed then Exec.ensure_failed
        else
          Exec.ret { st with leaf := { st.leaf with
            slots := setTuple st.leaf.slots cur slot
              { primary_version with write_locked := false } }.markAsDirty }
  | WALEntry.other => Exec.ret st

/-! ## Reconstruction and lookup -/

/-- What `reconstructChainedTuple` hands back: the result, the chain length,
and the value passed to the callback when the callback is invoked. -/
abbrev Reconstructed := OP_RESULT × Nat × Option (List Nat)

/-- The `while (true)` loop of `reconstructChainedTuple`; the first argument
bounds the number of rounds. The loop variables are the materialized value,
`next_worker_id`, `next_tx_id`, `next_command_id` and `chain_length` (a u16). -/
def reconstructLoop (env : Env) (vis : Visibility) (versions_space : List VersionEntry) :
    Nat → List Nat → Nat → Nat → Nat → Nat → Exec Reconstructed
  | 0, _, _, _, _, _ => Exec.out_of_fuel
  | fuel + 1, materialized_value, _, next_tx_id, next_command_id, chain_length =>
    match retrieveVersion versions_space next_tx_id next_command_id with
    | none => Exec.ret (OP_RESULT.NOT_FOUND, chain_length, none)
    | some e =>
      let secondary_version := e.version
      let materialized :=
        if secondary_version.is_delta then
          applyDiff secondary_version.descriptor materialized_value secondary_version.data
        else
          secondary_version.data.take
            ((e.length + (U16 - env.sizeofChainedTupleVersion % U16)) % U16)
      if vis secondary_version.worker_id secondary_version.tx_id false then
        if secondary_version.is_removed then Exec.ret (OP_RESULT.NOT_FOUND, chain_length, none)
        else Exec.ret (OP_RESULT.OK, chain_length, some materialized)
      else
        let chain_length := (chain_length + 1) % U16
        if chain_length ≤ env.FLAGS_vi_max_chain_length then
          reconstructLoop env vis versions_space fuel materialized secondary_version.worker_id
            secondary_version.tx_id secondary_version.command_id chain_length
        else Exec.ensure_failed

/-- `BTreeVI::reconstructChainedTuple(iterator, callback)` on the primary the
iterator stands on. -/
def reconstructChainedTuple (env : Env) (vis : Visibility) (versions_space : List VersionEntry)
    (fuel : Nat) (tuple_head : Tuple) : Exec Reconstructed :=
  if vis tuple_head.worker_id tuple_head.tx_id false then
    if tuple_head.is_removed then Exec.ret (OP_RESULT.NOT_FOUND, 1, none)
    else Exec.ret (OP_RESULT.OK, 1, some tuple_head.payload)
  else if env.isFinal tuple_head then Exec.ret (OP_RESULT.NOT_FOUND, 1, none)
  else
    reconstructLoop env vis versions_space fuel tuple_head.payload tuple_head.worker_id
      tuple_head.tx_id tuple_head.command_id 1

/-- Modelled from the spec: `reconstructTuple` (declared outside this file)
calls the Reconstructor for the primary under the iterator: the chained one for
a Chained primary, the fat-tuple one otherwise. -/
def reconstructTuple (env : Env) (vis : Visibility) (versions_space : List VersionEntry)
    (fuel : Nat) (tuple : Tuple) : Exec Reconstructed :=
  match tuple.tuple_format with
  | TupleFormat.CHAINED => reconstructChainedTuple env vis versions_space fuel tuple
  | TupleFormat.FAT_TUPLE_DIFFERENT_ATTRIBUTES => Exec.ret (env.fatReconstruct tuple)

/-- `BTreeVI::lookupPessimistic(key, key_length, payload_callback)`: the result
and the value handed to the callback. -/
def lookupPessimistic (env : Env) (vis : Visibility) (fuel : Nat) (st : State)
    (key : List Nat) : Exec (OP_RESULT × Option (List Nat)) :=
  match seekExact st.leaf.slots key with
  | none => Exec.ret (OP_RESULT.NOT_FOUND, none)
  | some (_, slot) =>
    match reconstructTuple env vis st.versions_space fuel slot.tuple with
    | Exec.ret (ret, _, value) =>
      if ret ≠ OP_RESULT.ABORT_TX ∧ ret ≠ OP_RESULT.OK then Exec.sigtrap
      else Exec.ret (ret, value)
    | Exec.ensure_failed => Exec.ensure_failed
    | Exec.sigtrap => Exec.sigtrap
    | Exec.undefined => Exec.undefined
    | Exec.out_of_fuel => Exec.out_of_fuel

/-- `BTreeVI::lookupOptimistic(key, key_length, payload_callback)`: the offset
of the value inside the slot payload is the header size of the format, so the
callback receives the value bytes of the tuple. -/
def lookupOptimistic (vis : Visibility) (st : State) (key : List Nat) :
    Exec (OP_RESULT × Option (List Nat)) :=
  match seekExact st.leaf.slots key with
  | none => Exec.sigtrap
  | some (_, slot) =>
    if vis slot.tuple.worker_id slot.tuple.tx_id false then
      Exec.ret (OP_RESULT.OK, some slot.tuple.payload)
    else Exec.ret (OP_RESULT.OTHER, none)

/-- `BTreeVI::lookup(o_key, o_key_length, payload_callback)`. -/
def lookup (env : Env) (vis : Visibility) (fuel : Nat) (w : Worker) (st : State)
    (key : List Nat) : Exec (OP_RESULT × Option (List Nat)) :=
  if w.isSerializable then lookupPessimistic env vis fuel st key
  else
    match lookupOptimistic vis st key with
    | Exec.ret (OP_RESULT.OTHER, _) => lookupPessimistic env vis fuel st key
    | r => r

/-! ## Garbage collection -/

/-- The loop variables of `precisePageWiseGarbageCollection` besides the slot
index: the slots of the leaf, `all_tuples_heads_are_invisible`,
`garbage_seen_in_bytes` and `freed_bytes` (both u32). -/
structure GCVars where
  slots : List Slot
  all_tuples_heads_are_invisible : Bool
  garbage_seen_in_bytes : Nat
  freed_bytes : Nat
deriving DecidableEq, Repr

/-- One round of the slot loop of `precisePageWiseGarbageCollection` at slot
`s_i`: the loop variables and the slot index after the round. -/
def gcStep (env : Env) (vis : Visibility) (lwm : Nat) (v : GCVars) (s_i : Nat) (slot : Slot) :
    GCVars × Nat :=
  let size := env.getKVConsumedSpace slot
  if env.chainSN slot.key = 0 then
    match slot.tuple.tuple_format with
    | TupleFormat.CHAINED =>
      if slot.tuple.is_removed then
        let v1 := { v with
          all_tuples_heads_are_invisible :=
            v.all_tuples_heads_are_invisible && vis slot.tuple.worker_id slot.tuple.tx_id false
          garbage_seen_in_bytes := (v.garbage_seen_in_bytes + size) % U32 }
        if slot.tuple.tx_id ≤ lwm then
          ({ v1 with slots := v1.slots.eraseIdx s_i, freed_bytes := (v1.freed_bytes + size) % U32 },
            s_i)
        else (v1, s_i + 1)
      else
        ({ v with all_tuples_heads_are_invisible :=
            v.all_tuples_heads_are_invisible && !vis slot.tuple.worker_id slot.tuple.tx_id false },
          s_i + 1)
    | TupleFormat.FAT_TUPLE_DIFFERENT_ATTRIBUTES =>
      ({ v with all_tuples_heads_are_invisible :=
          v.all_tuples_heads_are_invisible && !vis slot.tuple.worker_id slot.tuple.tx_id false },
        s_i + 1)
  else
    if (env.asVersion slot.tuple).gc_trigger ≤ lwm then
      ({ v with slots := v.slots.eraseIdx s_i, freed_bytes := (v.freed_bytes + size) % U32 }, s_i)
    else ({ v with garbage_seen_in_bytes := (v.garbage_seen_in_bytes + size) % U32 }, s_i + 1)

/-- The slot loop `for (u16 s_i = 0; s_i < count;)` of
`precisePageWiseGarbageCollection`; the first argument bounds the number of
rounds. -/
def gcLoop (env : Env) (vis : Visibility) (lwm : Nat) : Nat → GCVars → Nat → Exec GCVars
  | fuel, v, s_i =>
    match v.slots[s_i]? with
    | none => Exec.ret v
    | some slot =>
      match fuel with
      | 0 => Exec.out_of_fuel
      | fuel + 1 =>
        gcLoop env vis lwm fuel (gcStep env vis lwm v s_i slot).1 (gcStep env vis lwm v s_i slot).2

/-- `BTreeVI::precisePageWiseGarbageCollection(c_guard)`: the returned flag and
the leaf it leaves. Every round either removes a slot or advances the index, so
as many rounds as the leaf has slots are allowed. -/
def precisePageWiseGarbageCollection (env : Env) (vis : Visibility) (w : Worker) (leaf : Leaf) :
    Exec (Bool × Leaf) :=
  match gcLoop env vis w.global_snapshot_lwm leaf.slots.length
      { slots := leaf.slots, all_tuples_heads_are_invisible := true,
        garbage_seen_in_bytes := 0, freed_bytes := 0 } 0 with
  | Exec.ret v =>
    let have_we_modified_the_page := decide (v.freed_bytes > 0) || v.all_tuples_heads_are_invisible
    Exec.ret (v.all_tuples_heads_are_invisible,
      { leaf with
        slots := v.slots
        gc_space_used := v.garbage_seen_in_bytes
        gsn := if have_we_modified_the_page then leaf.gsn + 1 else leaf.gsn })
  | Exec.ensure_failed => Exec.ensure_failed
  | Exec.sigtrap => Exec.sigtrap
  | Exec.undefined => Exec.undefined
  | Exec.out_of_fuel => Exec.out_of_fuel

/-! ## checkSpaceUtilization -/

/-- The result type of the space check, declared outside this file: the two
enumerators `checkSpaceUtilization` names, and the remaining ones. -/
inductive SpaceCheckResult where
  | PICK_ANOTHER_BF
  | RETRY_SAME_BF
  | other (n : Nat)
deriving DecidableEq, Repr

/-- The slot scan `for (u16 s_i = 0; s_i < c_guard->count;)` of
`checkSpaceUtilization`: the body advances `s_i` only in the branch of a Fat
primary; it returns the index at which the loop is left. -/
def checkSpaceUtilizationLoop (slots : List Slot) : Nat → Nat → Exec Nat
  | 0, _ => Exec.out_of_fuel
  | fuel + 1, s_i =>
    if s_i < slots.length % U16 then
      match slots[s_i]? with
      | none => Exec.undefined
      | some slot =>
        if slot.tuple.tuple_format = TupleFormat.FAT_TUPLE_DIFFERENT_ATTRIBUTES then
          checkSpaceUtilizationLoop slots fuel ((s_i + 1) % U16)
        else checkSpaceUtilizationLoop slots fuel s_i
    else Exec.ret s_i

/-- `BTreeVI::checkSpaceUtilization(btree_object, bf)` on the page of the
buffer frame. The flag `is_leaf`, `triggerPageWiseGarbageCollection` and
`BTreeGeneric::checkSpaceUtilization` are declared outside this file and enter
as parameters. -/
def checkSpaceUtilization (is_leaf : Bool) (triggerPageWiseGarbageCollection : Leaf → Bool)
    (genericCheckSpaceUtilization : Leaf → SpaceCheckResult) (fuel : Nat) (leaf : Leaf) :
    Exec SpaceCheckResult :=
  if !is_leaf || !triggerPageWiseGarbageCollection leaf then
    Exec.ret (genericCheckSpaceUtilization leaf)
  else
    let has_removed_anything := false
    match checkSpaceUtilizationLoop leaf.slots fuel 0 with
    | Exec.ret _ =>
      if has_removed_anything then
        let xmerge_ret := genericCheckSpaceUtilization leaf
        if xmerge_ret = SpaceCheckResult.PICK_ANOTHER_BF then
          Exec.ret SpaceCheckResult.PICK_ANOTHER_BF
        else Exec.ret SpaceCheckResult.RETRY_SAME_BF
      else Exec.ret (genericCheckSpaceUtilization leaf)
    | Exec.ensure_failed => Exec.ensure_failed
    | Exec.sigtrap => Exec.sigtrap
    | Exec.undefined => Exec.undefined
    | Exec.out_of_fuel => Exec.out_of_fuel

/-! ## todo -/

/-- The statement `gc_space_used -= getKVConsumedSpace(slot)` of `todo`, an
unsigned subtraction that wraps around. The width of the field is declared
outside this file; it is taken to be that of the u32 counter
`precisePageWiseGarbageCollection` assigns to it. -/
def gcSpaceAfterRemoval (env : Env) (leaf : Leaf) (slot : Slot) : Nat :=
  (leaf.gc_space_used % U32 + (U32 - env.getKVConsumedSpace slot % U32)) % U32

/-- The optimistic fast path of `todo`, entered when the exclusive iterator
could be built on the recorded buffer frame with the recorded latch version. -/
def todoFastPath (env : Env) (st : State) (point_todo : TODOPoint)
    (version_worker_id version_tts : Nat) : Exec State :=
  match st.leaf.slots[point_todo.dangling_pointer.head_slot]? with
  | none => Exec.undefined
  | some slot =>
    let head := slot.tuple
    if ¬(head.tuple_format = TupleFormat.CHAINED ∧ head.write_locked = false) then
      Exec.ensure_failed
    else if ¬(head.worker_id = version_worker_id ∧ head.tx_id = version_tts) then
      Exec.ensure_failed
    else if head.is_removed then
      Exec.ret { st with leaf := { st.leaf with
        gc_space_used := gcSpaceAfterRemoval env st.leaf slot
        slots := st.leaf.slots.eraseIdx point_todo.dangling_pointer.head_slot }.markAsDirty }
    else Exec.ret { st with leaf := st.leaf.markAsDirty }

/-- The keyed path of `todo`: seek the key and remove the primary if it is the
tombstone the entry was staged for. -/
def todoKeyedPath (env : Env) (st : State) (point_todo : TODOPoint)
    (version_worker_id version_tts : Nat) : Exec State :=
  match seekExact st.leaf.slots (point_todo.key.take point_todo.key_length) with
  | none => Exec.ret st
  | some (cur, slot) =>
    if slot.tuple.tuple_format = TupleFormat.FAT_TUPLE_DIFFERENT_ATTRIBUTES then Exec.ret st
    else
      let primary_version := slot.tuple
      if !primary_version.write_locked then
        if primary_version.worker_id = version_worker_id ∧ primary_version.tx_id = version_tts
            ∧ primary_version.is_removed then
          Exec.ret { st with leaf := { st.leaf with
            gc_space_used := gcSpaceAfterRemoval env st.leaf slot
            slots := st.leaf.slots.eraseIdx cur } }
        else Exec.ret st
      else Exec.ret st

/-- `BTreeVI::todo(btree_object, entry_ptr, version_worker_id, version_tts)`.
With `FLAGS_vi_dangling_pointer` the fast path is tried first; building its
iterator jumps when the latch version of the page is not the recorded one, and
the jump is caught and leads to the keyed path. -/
def todo (env : Env) (st : State) (point_todo : TODOPoint)
    (version_worker_id version_tts : Nat) : Exec State :=
  if env.FLAGS_vi_dangling_pointer ∧
      point_todo.dangling_pointer.latch_version_should_be = st.leaf.latch_version then
    todoFastPath env st point_todo version_worker_id version_tts
  else todoKeyedPath env st point_todo version_worker_id version_tts

/-! ## unlock -/

/-- The entry handed to `unlock`, declared outside this file: the key whose
read lock is released. -/
structure UnlockEntry where
  key_length : Nat
  key : List Nat
deriving DecidableEq, Repr

/-- `BTreeVI::unlock(btree_object, entry_ptr)`, called by worker `w`:
`read_lock_counter &= ~(1ull << workerID())` on the primary of the key. -/
def unlock (w : Worker) (st : State) (todo_entry : UnlockEntry) : Exec State :=
  match seekExact st.leaf.slots (todo_entry.key.take todo_entry.key_length) with
  | none => Exec.ensure_failed
  | some (cur, slot) =>
    let primary_version := slot.tuple
    Exec.ret { st with leaf := { st.leaf with
      slots := setTuple st.leaf.slots cur slot
        { primary_version with
          read_lock_counter :=
            primary_version.read_lock_counter &&& (U64 - 1 - workerBit w) } } }

/-! ## Notions used in the statements -/

/-- The mutator writes only inside the slices of `d`: run on `value`, it leaves
every byte outside the slices as it was. -/
def writesOnlyInside (callback : List Nat → List Nat) (d : UpdateSameSizeInPlaceDescriptor)
    (value : List Nat) : Prop :=
  ∀ p, ¬ covered d p → (runCallback callback value).getD p 0 = value.getD p 0

/-- The conflict conditions in the words of the spec: the primary is
write-locked, or it is not visible to the caller with writing = true, or the
transaction is serializable and either (without 2PL) `read_ts` is greater than
the timestamp of the caller or (with 2PL) `read_lock_counter` has a bit set for
some worker other than the caller. -/
def abortCondition (env : Env) (vis : Visibility) (w : Worker) (tuple : Tuple) : Prop :=
  tuple.write_locked = true ∨ vis tuple.worker_id tuple.tx_id true = false ∨
    (w.isSerializable = true ∧
      ((env.FLAGS_2pl = false ∧ tuple.read_ts > w.TTS) ∨
        (env.FLAGS_2pl = true ∧ ∃ j, j ≠ w.workerID ∧ tuple.read_lock_counter.testBit j = true)))

/-- The slots page-wise garbage collection is to remove at low-water mark
`lwm`, in the words of the spec: (a) Chained primaries (chain sequence number
0) with `is_removed = true` and `tx_id ≤ lwm`, and (b) secondary-version slots
(chain sequence number ≠ 0) with `gc_trigger ≤ lwm`. -/
def gcRemoves (env : Env) (lwm : Nat) (slot : Slot) : Bool :=
  (decide (env.chainSN slot.key = 0) && decide (slot.tuple.tuple_format = TupleFormat.CHAINED)
      && slot.tuple.is_removed && decide (slot.tuple.tx_id ≤ lwm))
    || (decide (env.chainSN slot.key ≠ 0) && decide ((env.asVersion slot.tuple).gc_trigger ≤ lwm))

/-- The worker a returning call leaves (the given one if the call does not
return). -/
def workerAfter (x : Exec (OP_RESULT × Worker × State)) (w : Worker) : Worker :=
  match x with
  | Exec.ret (_, w', _) => w'
  | _ => w

/-- The state a returning call leaves (the given one if the call does not
return). -/
def stateAfter (x : Exec (OP_RESULT × Worker × State)) (st : State) : State :=
  match x with
  | Exec.ret (_, _, st') => st'
  | _ => st

/-- One call of `updateSameSizeInPlace` in a history of a key: the worker (and
transaction) that runs it, its visibility oracle, its mutator and its
descriptor. -/
structure UpdateCall where
  worker : Worker
  vis : Visibility
  callback : List Nat → List Nat
  descriptor : UpdateSameSizeInPlaceDescriptor

/-- The updates of a history run one after the other on the key; the final
state, if every one of them returned OK. -/
def runUpdates (env : Env) (key : List Nat) : State → List UpdateCall → Option State
  | st, [] => some st
  | st, u :: us =>
    match updateSameSizeInPlace env u.vis u.worker st key u.callback u.descriptor with
    | Exec.ret (OP_RESULT.OK, _, st') => runUpdates env key st' us
    | _ => none

/-- The value of the key after the mutators of a history ran on `v`. -/
def valueAfter (v : List Nat) : List UpdateCall → List Nat
  | [] => v
  | u :: us => valueAfter (runCallback u.callback v) us

/-- Every descriptor of the history lies inside the value and every mutator
writes only inside the slices of its descriptor, at the value it runs on. -/
def mutatorsInside (v : List Nat) : List UpdateCall → Prop
  | [] => True
  | u :: us =>
    slicesInside u.descriptor v.length ∧ writesOnlyInside u.callback u.descriptor v ∧
      mutatorsInside (runCallback u.callback v) us

/-- The key (tx-id, command-id) under which an update appends its secondary
version. -/
def versionKey (u : UpdateCall) : Nat × Nat := (u.worker.TTS, u.worker.command_id)

/-- The primary a history of successful Chained updates leaves from the
primary `t`. -/
def tupleAfter (env : Env) (t : Tuple) : List UpdateCall → Tuple
  | [] => t
  | u :: us =>
    tupleAfter env
      (updatedPrimary env u.worker t u.worker.command_id (runCallback u.callback t.payload)) us

/-- The versions store a history of successful versioned Chained updates leaves
from the primary `t` and the store `space`. -/
def versionsAfter (env : Env) (t : Tuple) (space : List VersionEntry) :
    List UpdateCall → List VersionEntry
  | [] => space
  | u :: us =>
    versionsAfter env
      (updatedPrimary env u.worker t u.worker.command_id (runCallback u.callback t.payload))
      (insertVersion space u.worker.TTS u.worker.command_id
        (((env.descriptorSize u.descriptor + diffLength u.descriptor) % U16
          + env.sizeofChainedTupleVersion) % U16)
        (updateVersion u.worker t u.descriptor)) us

/-- Starting from the version key (tx_id, command_id), the next `k` versions of
the chain are all in the versions store and none of their superseded writers is
visible: the reader has to fetch more than `k` versions to reach a visible
one. -/
def needsMoreThan (vis : Visibility) (versions_space : List VersionEntry) : Nat → Nat → Nat → Bool
  | 0, _, _ => true
  | k + 1, tx_id, command_id =>
    match retrieveVersion versions_space tx_id command_id with
    | none => false
    | some e =>
      !vis e.version.worker_id e.version.tx_id false
        && needsMoreThan vis versions_space k e.version.tx_id e.version.command_id

/-- The state a returning callback (`undo`, `todo`, `unlock`) leaves (the given
one if the call does not return). -/
def stateOf (x : Exec State) (st : State) : State :=
  match x with
  | Exec.ret st' => st'
  | _ => st

/-- The slot holds what `todo` was staged for under (version_worker_id,
version_tts): a Chained primary that is not write-locked, is marked removed and
was written by that worker in that transaction. -/
def stagedTombstone (slot : Slot) (version_worker_id version_tts : Nat) : Prop :=
  slot.tuple.tuple_format = TupleFormat.CHAINED ∧ slot.tuple.write_locked = false ∧
    slot.tuple.is_removed = true ∧ slot.tuple.worker_id = version_worker_id ∧
    slot.tuple.tx_id = version_tts

instance (slot : Slot) (version_worker_id version_tts : Nat) :
    Decidable (stagedTombstone slot version_worker_id version_tts) := by
  unfold stagedTombstone
  infer_instance

/-- What a call may do to the slots of the leaf: nothing, or take out one slot
that holds the staged tombstone. -/
def removesAtMostStagedTombstone (slots slots' : List Slot)
    (version_worker_id version_tts : Nat) : Prop :=
  slots' = slots ∨
    ∃ i slot, slots[i]? = some slot ∧ slots' = slots.eraseIdx i ∧
      slots'.length + 1 = slots.length ∧ stagedTombstone slot version_worker_id version_tts

/-! ## Concrete states used as witnesses -/

/-- A configuration with versioning on, fast paths off, no 2PL, and a layout
with a 32-byte primary header and a 40-byte version header. `isFinal()` is read
as `command_id == 0`, after the spec: a fresh primary has command_id = 0 and is
final. -/
def exampleEnv : Env :=
  { FLAGS_mv := true
    FLAGS_vi_update_version_elision := false
    FLAGS_vi_fupdate_chained := false
    FLAGS_vi_fremove := false
    FLAGS_vi_rtodo := true
    FLAGS_vi_dangling_pointer := false
    FLAGS_2pl := false
    FLAGS_vi_max_chain_length := 8
    sizeofChainedTuple := 32
    sizeofChainedTupleVersion := 40
    descriptorSize := fun d => 1 + 4 * d.length
    isFinal := fun t => decide (t.command_id = 0)
    chainSN := fun key => key.getLastD 0
    asVersion := fun t => ChainedTupleVersion.new t.worker_id t.tx_id false false t.read_ts
    getKVConsumedSpace := fun s => s.key.length + 32 + s.tuple.payload.length
    fatUpdate := fun t _ _ => (true, t)
    fatUndoLastUpdate := fun t => t
    fatReconstruct := fun t => (OP_RESULT.OK, 1, some t.payload) }

/-- A visibility oracle to which every writer is visible. -/
def visAll : Visibility := fun _ _ _ => true

/-- A visibility oracle to which exactly the transactions up to `snapshot` are
visible. -/
def visUpTo (snapshot : Nat) : Visibility := fun _ tx_id _ => decide (tx_id ≤ snapshot)

/-- Worker 1 in transaction 7 (snapshot isolation, multi-statement), next
command id 1. -/
def exampleWorker : Worker :=
  { workerID := 1, command_id := 1, workers_count := 2
    global_workers_in_progress_txid := [3, 7], global_snapshot_lwm := 3
    TTS := 7, isSerializable := false, isSingleStatement := false, atLeastSI := true
    wal := [], todo := [], commits := 0 }

/-- The same worker in a transaction below snapshot isolation. -/
def exampleWorkerRC : Worker := { exampleWorker with atLeastSI := false }

/-- A live Chained primary written by worker 0 in transaction 3. -/
def examplePrimary : Tuple := { ChainedTuple 0 3 [1, 2] with command_id := 4 }

/-- A Chained tombstone written by worker 0 in transaction 3. -/
def exampleTombstone : Tuple := { ChainedTuple 0 3 [] with command_id := 4, is_removed := true }

/-- A leaf with one live primary under key [5, 0] and one tombstone under
key [6, 0]. -/
def exampleState : State :=
  { leaf :=
      { slots := [{ key := [5, 0], tuple := examplePrimary },
          { key := [6, 0], tuple := exampleTombstone }]
        gc_space_used := 0, dirty := false, gsn := 0, latch_version := 0 }
    versions_space := [] }

/-- A mutator that sets byte 1 of the value to 9. -/
def exampleMutator : List Nat → List Nat := fun v => v.set 1 9

/-- The descriptor of the slice that covers byte 1. -/
def exampleDescriptor : UpdateSameSizeInPlaceDescriptor := [{ offset := 1, length := 1 }]

/-- The example update: worker 1 sets byte 1 of the value of key [5, 0] to 9. -/
def exampleUpdate : Exec (OP_RESULT × Worker × State) :=
  updateSameSizeInPlace exampleEnv visAll exampleWorker exampleState [5, 0] exampleMutator
    exampleDescriptor

/-- A descriptor that names byte 0 twice. -/
def overlappingDescriptor : UpdateSameSizeInPlaceDescriptor :=
  [{ offset := 0, length := 1 }, { offset := 0, length := 1 }]

/-- A mutator that sets byte 0 of the value to 7. -/
def overlappingMutator : List Nat → List Nat := fun v => v.set 0 7

/-- The update of key [5, 0] with the descriptor that names byte 0 twice. -/
def overlappingUpdate : Exec (OP_RESULT × Worker × State) :=
  updateSameSizeInPlace exampleEnv visAll exampleWorker exampleState [5, 0] overlappingMutator
    overlappingDescriptor

/-- The example insert: worker 1 inserts the absent key [4, 0] with value [1],
after one leaf split. -/
def exampleInsert : Exec (OP_RESULT × Worker × State) :=
  insert exampleEnv visAll 1 exampleWorker exampleState [4, 0] [1]

/-- A visibility oracle to which no writer is visible. -/
def visNone : Visibility := fun _ _ _ => false

/-- The example remove: worker 1 removes key [5, 0]. -/
def exampleRemove : Exec (OP_RESULT × Worker × State) :=
  remove exampleEnv visAll exampleWorker exampleState [5, 0]

/-- Worker 0 in transaction 3, the writer of the example primaries. -/
def exampleWorker0 : Worker :=
  { workerID := 0, command_id := 0, workers_count := 2
    global_workers_in_progress_txid := [3, 7], global_snapshot_lwm := 0
    TTS := 3, isSerializable := false, isSingleStatement := false, atLeastSI := true
    wal := [], todo := [], commits := 0 }

/-- The insert of the absent key [4, 0] with value [1, 2] by worker 0 in
transaction 3. -/
def historyInsert (env : Env) : Exec (OP_RESULT × Worker × State) :=
  insert env visAll 0 exampleWorker0 exampleState [4, 0] [1, 2]

/-- Worker 1 in transaction 7 sets byte 1 to 9. -/
def exampleCall1 : UpdateCall :=
  { worker := exampleWorker, vis := visAll, callback := exampleMutator
    descriptor := exampleDescriptor }

/-- Worker 2 in transaction 9 sets byte 0 to 5. -/
def exampleCall2 : UpdateCall :=
  { worker := { exampleWorker with workerID := 2, TTS := 9 }, vis := visAll
    callback := fun v => v.set 0 5, descriptor := [{ offset := 0, length := 1 }] }

/-- The state after the example insert and the two example updates. -/
def exampleHistoryState : State :=
  (runUpdates exampleEnv [4, 0] (stateAfter (historyInsert exampleEnv) exampleState)
    [exampleCall1, exampleCall2]).getD exampleState

/-- The example configuration with a chain limit of 65536. -/
def longEnv : Env := { exampleEnv with FLAGS_vi_max_chain_length := 65536 }

/-- Update number `i` of the long history: worker 1 in transaction 7 with
command id `i + 1` runs a mutator that writes nothing, with an empty
descriptor. -/
def longCall (i : Nat) : UpdateCall :=
  { worker := { exampleWorker with command_id := i + 1 }, vis := visAll
    callback := fun v => v, descriptor := [] }

/-- A history of 65536 updates of one key. -/
def longHistory : List UpdateCall := (List.range 65536).map longCall

/-- The example configuration with a chain limit of 0. -/
def zeroLimitEnv : Env := { exampleEnv with FLAGS_vi_max_chain_length := 0 }

/-- The example configuration with a chain limit of 1. -/
def oneLimitEnv : Env := { exampleEnv with FLAGS_vi_max_chain_length := 1 }

/-- The example configuration with a chain limit of 65535, the largest value of
a u16. -/
def wrapLimitEnv : Env := { exampleEnv with FLAGS_vi_max_chain_length := 65535 }

/-- The primary of key [4, 0] after the example insert and the two example
updates. -/
def exampleHistoryPrimary : Tuple :=
  tupleAfter exampleEnv (ChainedTuple 0 3 [1, 2]) [exampleCall1, exampleCall2]

/-- The example configuration with `FLAGS_vi_update_version_elision` set. -/
def elisionEnv : Env := { exampleEnv with FLAGS_vi_update_version_elision := true }

/-- Worker 0, the only worker, in the single-statement read-committed
transaction 3; its in-progress tx-id has bit 63 set. -/
def elisionWorker : Worker :=
  { workerID := 0, command_id := 1, workers_count := 1
    global_workers_in_progress_txid := [2 ^ 63 + 3], global_snapshot_lwm := 3
    TTS := 3, isSerializable := false, isSingleStatement := true, atLeastSI := false
    wal := [], todo := [], commits := 0 }

/-- The update of key [5, 0] by the single-statement read-committed worker
under version elision. -/
def elisionUpdate : Exec (OP_RESULT × Worker × State) :=
  updateSameSizeInPlace elisionEnv visAll elisionWorker exampleState [5, 0] exampleMutator
    exampleDescriptor

/-- The example configuration with the `mv` switch off. -/
def singleVersionEnv : Env := { exampleEnv with FLAGS_mv := false }

/-- The remove of key [5, 0] by worker 1 under the single-version
configuration. -/
def singleVersionRemove : Exec (OP_RESULT × Worker × State) :=
  remove singleVersionEnv visAll exampleWorker exampleState [5, 0]

/-- The example update under the single-version configuration. -/
def singleVersionUpdate : Exec (OP_RESULT × Worker × State) :=
  updateSameSizeInPlace singleVersionEnv visAll exampleWorker exampleState [5, 0] exampleMutator
    exampleDescriptor

/-- A live Chained primary with the one-byte value [9], written by worker 0 in
transaction 3. -/
def oneBytePrimary : Tuple := { ChainedTuple 0 3 [9] with command_id := 4 }

/-- A leaf whose only slot holds key [5, 0] with the one-byte primary. -/
def oneByteState : State :=
  { leaf :=
      { slots := [{ key := [5, 0], tuple := oneBytePrimary }]
        gc_space_used := 0, dirty := false, gsn := 0, latch_version := 0 }
    versions_space := [] }

/-- The remove of key [5, 0] with the one-byte value by worker 1. -/
def oneByteRemove : Exec (OP_RESULT × Worker × State) :=
  remove exampleEnv visAll exampleWorker oneByteState [5, 0]

/-- The example configuration under 2PL. -/
def twoPLEnv : Env := { exampleEnv with FLAGS_2pl := true }

/-- The example primary, read-locked by worker 1 alone (bit 1 of the
counter). -/
def readLockedPrimary : Tuple := { examplePrimary with read_lock_counter := 2 }

/-- A leaf whose only slot holds key [5, 0] with the read-locked primary. -/
def readLockedState : State :=
  { leaf :=
      { slots := [{ key := [5, 0], tuple := readLockedPrimary }]
        gc_space_used := 0, dirty := false, gsn := 0, latch_version := 0 }
    versions_space := [] }

/-- Worker 2 in the serializable transaction 9. -/
def serializableWorker : Worker :=
  { exampleWorker with workerID := 2, TTS := 9, isSerializable := true }

/-- The unlock of key [5, 0] by worker 1. -/
def exampleUnlock : Exec State := unlock exampleWorker readLockedState ⟨2, [5, 0]⟩

/-- The update of key [4, 0] by the transaction that has just inserted it. -/
def rollbackUpdate : Exec (OP_RESULT × Worker × State) :=
  updateSameSizeInPlace exampleEnv visAll (workerAfter (historyInsert exampleEnv) exampleWorker0)
    (stateAfter (historyInsert exampleEnv) exampleState) [4, 0] exampleMutator exampleDescriptor

/-- The example configuration with the dangling-pointer fast path on. -/
def danglingEnv : Env := { exampleEnv with FLAGS_vi_dangling_pointer := true }

/-- The TODO entry staged for the tombstone of key [6, 0] in the example leaf:
slot 1, latch version 0. -/
def exampleTODO : TODOPoint :=
  { version_worker_id := 0, version_tts := 3, key_length := 2, key := [6, 0]
    dangling_pointer := { latch_version_should_be := 0, head_slot := 1 } }

/-- The remove of key [5, 0] by worker 1, to whom the writer of the primary is
not visible. -/
def conflictingRemove : Exec (OP_RESULT × Worker × State) :=
  remove exampleEnv visNone exampleWorker exampleState [5, 0]

/-- The example update of key [5, 0] by worker 1, to whom the writer of the
primary is not visible. -/
def conflictingUpdate : Exec (OP_RESULT × Worker × State) :=
  updateSameSizeInPlace exampleEnv visNone exampleWorker exampleState [5, 0] exampleMutator
    exampleDescriptor

/-- The empty leaf: no slots, `gc_space_used` = 0, and an empty versions
store. -/
def emptyState : State :=
  { leaf := { slots := [], gc_space_used := 0, dirty := false, gsn := 0, latch_version := 0 }
    versions_space := [] }

/-- Worker 1 in transaction 7 inserts key [5, 0] with value [1, 2] into the
empty leaf. -/
def tombstoneInsert (env : Env) : Exec (OP_RESULT × Worker × State) :=
  insert env visAll 0 exampleWorker emptyState [5, 0] [1, 2]

/-- The same transaction then removes key [5, 0]. -/
def tombstoneRemove (env : Env) : Exec (OP_RESULT × Worker × State) :=
  remove env visAll (workerAfter (tombstoneInsert env) exampleWorker)
    (stateAfter (tombstoneInsert env) emptyState) [5, 0]

/-- The TODO entry that remove stages for the tombstone of key [5, 0]: slot 0,
latch version 0. -/
def tombstoneTODO : TODOPoint :=
  { version_worker_id := 1, version_tts := 7, key_length := 2, key := [5, 0]
    dangling_pointer := { latch_version_should_be := 0, head_slot := 0 } }

/-- The point garbage collection of the staged entry on the leaf the remove
left. -/
def tombstoneCollect (env : Env) : Exec State :=
  todo env (stateAfter (tombstoneRemove env) emptyState) tombstoneTODO 1 7

/-- Worker 1 in transaction 7 with its command-id counter at 0. -/
def finalRemover : Worker := { exampleWorker with command_id := 0 }

/-- The remove of key [5, 0] by the worker whose command-id counter is 0. -/
def finalRemove : Exec (OP_RESULT × Worker × State) :=
  remove exampleEnv visAll finalRemover exampleState [5, 0]

/-- Worker 1 in transaction 7, command-id counter 0, sets byte 1 to 9. -/
def finalCall1 : UpdateCall :=
  { exampleCall1 with worker := { exampleCall1.worker with command_id := 0 } }

/-- Worker 2 in transaction 9, command-id counter 0, sets byte 0 to 5. -/
def finalCall2 : UpdateCall :=
  { exampleCall2 with worker := { exampleCall2.worker with command_id := 0 } }

/-- The state after the example insert and the two updates with command-id 0,
under a chain limit of 1. -/
def finalHistoryState : State :=
  (runUpdates oneLimitEnv [4, 0] (stateAfter (historyInsert oneLimitEnv) exampleState)
    [finalCall1, finalCall2]).getD exampleState

/-- The primary of key [4, 0] after the example insert and the two updates with
command-id 0. -/
def finalHistoryPrimary : Tuple :=
  tupleAfter oneLimitEnv (ChainedTuple 0 3 [1, 2]) [finalCall1, finalCall2]

/-! # Theorems -/

/-! ## Byte buffers and diffs -/

theorem patch_length (f : Nat → Nat → Nat) (dst : List Nat) (off : Nat) (bs : List Nat) :
    (patch f dst off bs).length = dst.length := by
  induction dst generalizing off bs with
  | nil => simp [patch]
  | cons x dst ih =>
    cases off with
    | zero => cases bs <;> simp [patch, ih]
    | succ off => simp [patch, ih]

theorem patch_getD (f : Nat → Nat → Nat) (dst : List Nat) (off : Nat) (bs : List Nat) (p : Nat) :
    (patch f dst off bs).getD p 0 =
      if off ≤ p ∧ p < off + bs.length ∧ p < dst.length then
        f (dst.getD p 0) (bs.getD (p - off) 0)
      else dst.getD p 0 := by
  induction dst generalizing off bs p with
  | nil => simp [patch]
  | cons x dst ih =>
    cases off with
    | zero =>
      cases bs with
      | nil => simp [patch]
      | cons b bs =>
        cases p with
        | zero => simp [patch]
        | succ p =>
          simp only [patch, List.getD_cons_succ, ih]
          simp
    | succ off =>
      cases p with
      | zero => simp [patch]
      | succ p =>
        simp only [patch, List.getD_cons_succ, ih]
        have e : (p + 1 < off + 1 + bs.length) ↔ (p < off + bs.length) := by omega
        simp [e]

theorem list_ext_getD {a b : List Nat} (hl : a.length = b.length)
    (h : ∀ p, p < a.length → a.getD p 0 = b.getD p 0) : a = b := by
  apply List.ext_getElem hl
  intro n h1 h2
  have := h n h1
  rwa [List.getD_eq_getElem _ _ h1, List.getD_eq_getElem _ _ h2] at this

theorem getD_of_length_le (a : List Nat) (p : Nat) (h : a.length ≤ p) : a.getD p 0 = 0 := by
  simp [List.getD_eq_getElem?_getD, List.getElem?_eq_none h]

theorem memcpyAt_length (dst : List Nat) (off : Nat) (bs : List Nat) :
    (memcpyAt dst off bs).length = dst.length := patch_length _ dst off bs

theorem xorAt_length (dst : List Nat) (off : Nat) (bs : List Nat) :
    (xorAt dst off bs).length = dst.length := patch_length _ dst off bs

theorem memcpyAt_zero_full (dst bs : List Nat) (h : bs.length = dst.length) :
    memcpyAt dst 0 bs = bs := by
  apply list_ext_getD (by rw [memcpyAt_length, h])
  intro p hp
  rw [memcpyAt_length] at hp
  simp only [memcpyAt, patch_getD]
  simp [hp, h]

theorem runCallback_length (callback : List Nat → List Nat) (value : List Nat) :
    (runCallback callback value).length = value.length := memcpyAt_length _ _ _

theorem sliceOf_length (src : List Nat) (s : UpdateSlot) (h : s.offset + s.length ≤ src.length) :
    (sliceOf src s).length = s.length := by
  simp only [sliceOf, List.length_take, List.length_drop]
  omega

theorem sliceOf_getD (src : List Nat) (s : UpdateSlot) (b : Nat) (hb : b < s.length) :
    (sliceOf src s).getD b 0 = src.getD (s.offset + b) 0 := by
  simp only [sliceOf, List.getD_eq_getElem?_getD, List.getElem?_take, List.getElem?_drop]
  simp [hb]

theorem slicesInside_cons {s : UpdateSlot} {d : UpdateSameSizeInPlaceDescriptor} {n : Nat}
    (h : slicesInside (s :: d) n) : s.offset + s.length ≤ n ∧ slicesInside d n :=
  ⟨h s (List.mem_cons_self _ _), fun t ht => h t (List.mem_cons_of_mem _ ht)⟩

theorem generateDiff_length (d : UpdateSameSizeInPlaceDescriptor) (src : List Nat)
    (h : slicesInside d src.length) : (generateDiff d src).length = diffLength d := by
  induction d with
  | nil => rfl
  | cons s d ih =>
    have hc := slicesInside_cons h
    simp [generateDiff, diffLength, sliceOf_length src s hc.1, ih hc.2]

theorem xor_cancel_right (x y : Nat) : (x ^^^ y) ^^^ y = x := by
  rw [Nat.xor_assoc, Nat.xor_self, Nat.xor_zero]

/-- The XOR diff of the WAL record, slice by slice. -/
theorem generateXORDiff_cons (s : UpdateSlot) (d : UpdateSameSizeInPlaceDescriptor)
    (old updated : List Nat) (h : s.offset + s.length ≤ old.length) :
    generateXORDiff (s :: d) (generateDiff (s :: d) old) updated =
      xorAt (sliceOf old s) 0 (sliceOf updated s)
        ++ generateXORDiff d (generateDiff d old) updated := by
  have hl := sliceOf_length old s h
  simp only [generateXORDiff, generateDiff]
  rw [List.take_append_of_le_length (by omega), List.drop_append_of_le_length (by omega)]
  rw [← hl, List.take_length, List.drop_length, List.nil_append]

/-- Every byte of the XOR diff is the XOR of the old and the updated byte at the
position it stands for. -/
theorem generateXORDiff_getD (d : UpdateSameSizeInPlaceDescriptor) (old updated : List Nat)
    (hin : slicesInside d old.length) (hlen : updated.length = old.length) (j : Nat)
    (s : UpdateSlot) (hj : d[j]? = some s) (b : Nat) (hb : b < s.length) :
    (generateXORDiff d (generateDiff d old) updated).getD (diffOffset d j + b) 0 =
      old.getD (s.offset + b) 0 ^^^ updated.getD (s.offset + b) 0 := by
  induction d generalizing j with
  | nil => simp at hj
  | cons s0 d ih =>
    have hc := slicesInside_cons hin
    rw [generateXORDiff_cons s0 d old updated hc.1]
    have hA : (xorAt (sliceOf old s0) 0 (sliceOf updated s0)).length = s0.length := by
      rw [xorAt_length, sliceOf_length old s0 hc.1]
    cases j with
    | zero =>
      simp only [List.getElem?_cons_zero, Option.some.injEq] at hj
      subst hj
      have h0 : diffOffset (s0 :: d) 0 = 0 := rfl
      rw [h0, Nat.zero_add, List.getD_append _ _ _ _ (by omega)]
      simp only [xorAt, patch_getD]
      rw [sliceOf_length old s0 hc.1, sliceOf_length updated s0 (by omega)]
      rw [if_pos ⟨Nat.zero_le _, by omega, hb⟩, Nat.sub_zero, sliceOf_getD _ _ _ hb,
        sliceOf_getD _ _ _ hb]
    | succ j =>
      simp only [List.getElem?_cons_succ] at hj
      have h1 : diffOffset (s0 :: d) (j + 1) = s0.length + diffOffset d j := rfl
      rw [h1, Nat.add_assoc, ← hA, List.getD_append_right _ _ _ _ (by omega)]
      simp only [Nat.add_sub_cancel_left]
      exact ih hc.2 j hj

theorem covered_cons (s : UpdateSlot) (d : UpdateSameSizeInPlaceDescriptor) (p : Nat) :
    covered (s :: d) p ↔ s.covers p ∨ covered d p := by
  simp [covered]

theorem covered_nil (p : Nat) : ¬ covered [] p := by
  simp [covered]

theorem take_diff_cons (s : UpdateSlot) (old rest : List Nat)
    (h : s.offset + s.length ≤ old.length) :
    (sliceOf old s ++ rest).take s.length = sliceOf old s ∧
      (sliceOf old s ++ rest).drop s.length = rest := by
  have hl := sliceOf_length old s h
  constructor
  · rw [List.take_append_of_le_length (by omega), ← hl, List.take_length]
  · rw [List.drop_append_of_le_length (by omega), ← hl, List.drop_length, List.nil_append]

/-- Copying the bytes of `old` in slice `s` into a buffer of the same size. -/
theorem memcpyAt_slice_getD (buf old : List Nat) (s : UpdateSlot)
    (h : s.offset + s.length ≤ old.length) (hl : buf.length = old.length) (p : Nat) :
    (s.covers p → (memcpyAt buf s.offset (sliceOf old s)).getD p 0 = old.getD p 0) ∧
      (¬ s.covers p → (memcpyAt buf s.offset (sliceOf old s)).getD p 0 = buf.getD p 0) := by
  simp only [memcpyAt, patch_getD, sliceOf_length old s h, UpdateSlot.covers]
  constructor
  · intro hc
    rw [if_pos ⟨hc.1, hc.2, by omega⟩, sliceOf_getD _ _ _ (by omega)]
    congr 1
    omega
  · intro hc
    rw [if_neg (fun hh => hc ⟨hh.1, hh.2.1⟩)]

theorem applyDiff_length (d : UpdateSameSizeInPlaceDescriptor) (buf src : List Nat) :
    (applyDiff d buf src).length = buf.length := by
  induction d generalizing buf src with
  | nil => rfl
  | cons s d ih => simp [applyDiff, ih, memcpyAt_length]

theorem applyXORDiff_length (d : UpdateSameSizeInPlaceDescriptor) (buf src : List Nat) :
    (applyXORDiff d buf src).length = buf.length := by
  induction d generalizing buf src with
  | nil => rfl
  | cons s d ih => simp [applyXORDiff, ih, xorAt_length]

/-- Applying the forward diff of `old` puts the bytes of `old` on every covered
position and leaves the others. -/
theorem applyDiff_getD (d : UpdateSameSizeInPlaceDescriptor) (old buf : List Nat)
    (hin : slicesInside d old.length) (hl : buf.length = old.length) (p : Nat) :
    (covered d p → (applyDiff d buf (generateDiff d old)).getD p 0 = old.getD p 0) ∧
      (¬ covered d p → (applyDiff d buf (generateDiff d old)).getD p 0 = buf.getD p 0) := by
  induction d generalizing buf with
  | nil => exact ⟨fun h => absurd h (covered_nil p), fun _ => rfl⟩
  | cons s d ih =>
    have hc := slicesInside_cons hin
    have htd := take_diff_cons s old (generateDiff d old) hc.1
    have hstep := memcpyAt_slice_getD buf old s hc.1 hl p
    have hih := ih (memcpyAt buf s.offset (sliceOf old s)) hc.2
      (by rw [memcpyAt_length, hl])
    simp only [applyDiff, generateDiff, htd.1, htd.2, covered_cons]
    constructor
    · intro hcov
      by_cases hd : covered d p
      · exact hih.1 hd
      · rw [hih.2 hd]
        rcases hcov with hs | hd2
        · exact hstep.1 hs
        · exact absurd hd2 hd
    · intro hcov
      rw [hih.2 (fun hd => hcov (Or.inr hd))]
      exact hstep.2 (fun hs => hcov (Or.inl hs))

/-- Replaying the forward diff of `old` on a buffer that agrees with `old`
outside the slices gives back `old`. -/
theorem applyDiff_generateDiff (d : UpdateSameSizeInPlaceDescriptor) (old buf : List Nat)
    (hin : slicesInside d old.length) (hl : buf.length = old.length)
    (hout : ∀ p, ¬ covered d p → buf.getD p 0 = old.getD p 0) :
    applyDiff d buf (generateDiff d old) = old := by
  apply list_ext_getD (by rw [applyDiff_length, hl])
  intro p _
  have h := applyDiff_getD d old buf hin hl p
  by_cases hc : covered d p
  · exact h.1 hc
  · rw [h.2 hc, hout p hc]

/-- XOR-ing the diff bytes of slice `s` into a buffer that holds the updated
bytes there. -/
theorem xorAt_slice_getD (buf old updated : List Nat) (s : UpdateSlot)
    (h : s.offset + s.length ≤ old.length) (hl : buf.length = old.length)
    (hu : updated.length = old.length) (p : Nat) :
    (s.covers p → buf.getD p 0 = updated.getD p 0 →
        (xorAt buf s.offset (xorAt (sliceOf old s) 0 (sliceOf updated s))).getD p 0
          = old.getD p 0) ∧
      (¬ s.covers p →
        (xorAt buf s.offset (xorAt (sliceOf old s) 0 (sliceOf updated s))).getD p 0
          = buf.getD p 0) := by
  have hlo := sliceOf_length old s h
  have hlu := sliceOf_length updated s (by omega)
  constructor
  · intro hc hb
    have hc1 := hc.1
    have hc2 := hc.2
    simp only [xorAt, patch_getD, patch_length, hlo, hlu]
    rw [if_pos ⟨hc1, hc2, by omega⟩, if_pos ⟨Nat.zero_le _, by omega, by omega⟩,
      Nat.sub_zero, sliceOf_getD _ _ _ (by omega), sliceOf_getD _ _ _ (by omega)]
    have e : s.offset + (p - s.offset) = p := by omega
    rw [e, hb, Nat.xor_comm (old.getD p 0), ← Nat.xor_assoc, Nat.xor_self, Nat.zero_xor]
  · intro hc
    simp only [xorAt, patch_getD, patch_length, hlo]
    rw [if_neg (fun hh => hc ⟨hh.1, hh.2.1⟩)]

/-- Undoing with the XOR diff: on pairwise disjoint slices every covered
position gets its old byte back, the others are left. -/
theorem applyXORDiff_getD (d : UpdateSameSizeInPlaceDescriptor) (old updated buf : List Nat)
    (hin : slicesInside d old.length) (hdis : slicesDisjoint d)
    (hl : buf.length = old.length) (hu : updated.length = old.length)
    (hbuf : ∀ p, covered d p → buf.getD p 0 = updated.getD p 0) (p : Nat) :
    (covered d p →
        (applyXORDiff d buf (generateXORDiff d (generateDiff d old) updated)).getD p 0
          = old.getD p 0) ∧
      (¬ covered d p →
        (applyXORDiff d buf (generateXORDiff d (generateDiff d old) updated)).getD p 0
          = buf.getD p 0) := by
  induction d generalizing buf with
  | nil => exact ⟨fun h => absurd h (covered_nil p), fun _ => rfl⟩
  | cons s d ih =>
    have hc := slicesInside_cons hin
    have hd := List.pairwise_cons.mp hdis
    have hX : (xorAt (sliceOf old s) 0 (sliceOf updated s)).length = s.length := by
      rw [xorAt_length, sliceOf_length old s hc.1]
    have hnot : ∀ q, covered d q → ¬ s.covers q := by
      intro q hq hs
      obtain ⟨t, ht, htq⟩ := hq
      exact hd.1 t ht q ⟨hs, htq⟩
    have hstep := fun q => xorAt_slice_getD buf old updated s hc.1 hl hu q
    have hih := ih (xorAt buf s.offset (xorAt (sliceOf old s) 0 (sliceOf updated s))) hc.2 hd.2
      (by rw [xorAt_length, hl])
      (by
        intro q hq
        rw [(hstep q).2 (hnot q hq)]
        exact hbuf q ((covered_cons s d q).mpr (Or.inr hq)))
    rw [generateXORDiff_cons s d old updated hc.1]
    simp only [applyXORDiff, covered_cons]
    rw [List.take_append_of_le_length (by omega), List.drop_append_of_le_length (by omega),
      ← hX, List.take_length, List.drop_length, List.nil_append]
    constructor
    · intro hcov
      by_cases hdp : covered d p
      · exact hih.1 hdp
      · rw [hih.2 hdp]
        rcases hcov with hs | hd2
        · exact (hstep p).1 hs (hbuf p ((covered_cons s d p).mpr (Or.inl hs)))
        · exact absurd hd2 hdp
    · intro hcov
      rw [hih.2 (fun hdp => hcov (Or.inr hdp))]
      exact (hstep p).2 (fun hs => hcov (Or.inl hs))

/-- The XOR diff of an update, applied to the updated payload, restores the old
payload when the slices are pairwise disjoint and the update changed nothing
outside them. -/
theorem applyXORDiff_generateXORDiff (d : UpdateSameSizeInPlaceDescriptor)
    (old updated : List Nat) (hin : slicesInside d old.length) (hdis : slicesDisjoint d)
    (hu : updated.length = old.length)
    (hout : ∀ p, ¬ covered d p → updated.getD p 0 = old.getD p 0) :
    applyXORDiff d updated (generateXORDiff d (generateDiff d old) updated) = old := by
  apply list_ext_getD (by rw [applyXORDiff_length, hu])
  intro p _
  have h := applyXORDiff_getD d old updated updated hin hdis hu hu (fun _ _ => rfl) p
  by_cases hc : covered d p
  · exact h.1 hc
  · rw [h.2 hc, hout p hc]

/-! ## Seeking in the leaf -/

theorem seekExact_some {slots : List Slot} {key : List Nat} {cur : Nat} {slot : Slot}
    (h : seekExact slots key = some (cur, slot)) :
    slots[cur]? = some slot ∧ slot.key = key := by
  induction slots generalizing cur with
  | nil => simp [seekExact] at h
  | cons s rest ih =>
    simp only [seekExact] at h
    split at h
    · rename_i hk
      simp only [Option.some.injEq, Prod.mk.injEq] at h
      obtain ⟨h1, h2⟩ := h
      subst h1 h2
      exact ⟨by simp, hk⟩
    · cases hr : seekExact rest key with
      | none => simp [hr] at h
      | some r =>
        obtain ⟨c, sl⟩ := r
        simp only [hr, Option.map_some', Option.some.injEq, Prod.mk.injEq] at h
        obtain ⟨h1, h2⟩ := h
        subst h1 h2
        have := ih hr
        exact ⟨by simpa using this.1, this.2⟩

theorem seekExact_none {slots : List Slot} {key : List Nat} :
    seekExact slots key = none ↔ ∀ s ∈ slots, s.key ≠ key := by
  induction slots with
  | nil => simp [seekExact]
  | cons s rest ih =>
    simp only [seekExact, List.mem_cons, forall_eq_or_imp]
    split
    · rename_i hk
      simp [hk]
    · rename_i hk
      simp [hk, ih]

theorem seekExact_append_hit (a b : List Slot) (slot : Slot) (key : List Nat)
    (ha : seekExact a key = none) (hk : slot.key = key) :
    seekExact (a ++ slot :: b) key = some (a.length, slot) := by
  induction a with
  | nil => simp [seekExact, hk]
  | cons s a ih =>
    have hs : s.key ≠ key := (seekExact_none.mp ha) s (List.mem_cons_self _ _)
    have ha2 : seekExact a key = none :=
      seekExact_none.mpr (fun t ht => (seekExact_none.mp ha) t (List.mem_cons_of_mem _ ht))
    simp [seekExact, hs, ih ha2]

/-- After `insertInCurrentNode` of a key that was absent, seeking the key finds
the new slot. -/
theorem seekExact_insertInCurrentNode (slots : List Slot) (pos : Nat) (slot : Slot)
    (key : List Nat) (habsent : seekExact slots key = none) (hk : slot.key = key) :
    seekExact (insertInCurrentNode slots pos slot) key = some ((slots.take pos).length, slot) := by
  apply seekExact_append_hit _ _ _ _ _ hk
  exact seekExact_none.mpr (fun t ht => (seekExact_none.mp habsent) t (List.mem_of_mem_take ht))

/-- Writing the tuple of the slot the iterator stands on keeps the key where it
is. -/
theorem seekExact_setTuple {slots : List Slot} {key : List Nat} {cur : Nat} {slot : Slot}
    (h : seekExact slots key = some (cur, slot)) (tuple : Tuple) :
    seekExact (setTuple slots cur slot tuple) key = some (cur, { slot with tuple := tuple }) := by
  induction slots generalizing cur with
  | nil => simp [seekExact] at h
  | cons s rest ih =>
    simp only [seekExact] at h
    split at h
    · rename_i hk
      simp only [Option.some.injEq, Prod.mk.injEq] at h
      obtain ⟨h1, h2⟩ := h
      subst h1 h2
      simp [setTuple, seekExact, hk]
    · rename_i hk
      cases hr : seekExact rest key with
      | none => simp [hr] at h
      | some r =>
        obtain ⟨c, sl⟩ := r
        simp only [hr, Option.map_some', Option.some.injEq, Prod.mk.injEq] at h
        obtain ⟨h1, h2⟩ := h
        subst h1 h2
        have := ih hr
        simp only [setTuple] at this
        simp [setTuple, seekExact, hk, this]

/-! ## Small facts about the shared steps -/

@[simp] theorem commitIfSingleStatement_wal (w : Worker) :
    w.commitIfSingleStatement.wal = w.wal := by
  unfold Worker.commitIfSingleStatement
  split <;> rfl

@[simp] theorem commitIfSingleStatement_command_id (w : Worker) :
    w.commitIfSingleStatement.command_id = w.command_id := by
  unfold Worker.commitIfSingleStatement
  split <;> rfl

@[simp] theorem commitIfSingleStatement_todo (w : Worker) :
    w.commitIfSingleStatement.todo = w.todo := by
  unfold Worker.commitIfSingleStatement
  split <;> rfl

@[simp] theorem stageTODO_wal (env : Env) (w : Worker) (key : List Nat) (dp : DanglingPointer) :
    (stageTODO env w key dp).wal = w.wal := by
  unfold stageTODO
  split <;> rfl

@[simp] theorem stageTODO_command_id (env : Env) (w : Worker) (key : List Nat)
    (dp : DanglingPointer) : (stageTODO env w key dp).command_id = w.command_id := by
  unfold stageTODO
  split <;> rfl

@[simp] theorem stampSSI_payload (env : Env) (w : Worker) (t : Tuple) :
    (stampSSI env w t).payload = t.payload := by
  unfold stampSSI
  split_ifs <;> rfl

@[simp] theorem stampSSI_worker_id (env : Env) (w : Worker) (t : Tuple) :
    (stampSSI env w t).worker_id = t.worker_id := by
  unfold stampSSI
  split_ifs <;> rfl

@[simp] theorem stampSSI_tx_id (env : Env) (w : Worker) (t : Tuple) :
    (stampSSI env w t).tx_id = t.tx_id := by
  unfold stampSSI
  split_ifs <;> rfl

@[simp] theorem stampSSI_command_id (env : Env) (w : Worker) (t : Tuple) :
    (stampSSI env w t).command_id = t.command_id := by
  unfold stampSSI
  split_ifs <;> rfl

@[simp] theorem stampSSI_is_removed (env : Env) (w : Worker) (t : Tuple) :
    (stampSSI env w t).is_removed = t.is_removed := by
  unfold stampSSI
  split_ifs <;> rfl

@[simp] theorem stampSSI_tuple_format (env : Env) (w : Worker) (t : Tuple) :
    (stampSSI env w t).tuple_format = t.tuple_format := by
  unfold stampSSI
  split_ifs <;> rfl

@[simp] theorem removedPrimary_worker_id (env : Env) (w : Worker) (t : Tuple) (c : Nat) :
    (removedPrimary env w t c).worker_id = w.workerID := by
  simp [removedPrimary]

@[simp] theorem removedPrimary_tx_id (env : Env) (w : Worker) (t : Tuple) (c : Nat) :
    (removedPrimary env w t c).tx_id = w.TTS := by
  simp [removedPrimary]

@[simp] theorem removedPrimary_command_id (env : Env) (w : Worker) (t : Tuple) (c : Nat) :
    (removedPrimary env w t c).command_id = c := by
  simp [removedPrimary]

@[simp] theorem removedPrimary_is_removed (env : Env) (w : Worker) (t : Tuple) (c : Nat) :
    (removedPrimary env w t c).is_removed = true := by
  simp [removedPrimary]

@[simp] theorem removedPrimary_write_locked (env : Env) (w : Worker) (t : Tuple) (c : Nat) :
    (removedPrimary env w t c).write_locked = false := by
  simp [removedPrimary]

@[simp] theorem removedPrimary_tuple_format (env : Env) (w : Worker) (t : Tuple) (c : Nat) :
    (removedPrimary env w t c).tuple_format = t.tuple_format := by
  simp [removedPrimary]

@[simp] theorem removedPrimary_payload (env : Env) (w : Worker) (t : Tuple) (c : Nat) :
    (removedPrimary env w t c).payload = (if t.payload.length > 1 then [] else t.payload) := by
  simp [removedPrimary]

@[simp] theorem updatedPrimary_worker_id (env : Env) (w : Worker) (t : Tuple) (c : Nat)
    (p : List Nat) : (updatedPrimary env w t c p).worker_id = w.workerID := by
  simp [updatedPrimary]

@[simp] theorem updatedPrimary_tx_id (env : Env) (w : Worker) (t : Tuple) (c : Nat)
    (p : List Nat) : (updatedPrimary env w t c p).tx_id = w.TTS := by
  simp [updatedPrimary]

@[simp] theorem updatedPrimary_command_id (env : Env) (w : Worker) (t : Tuple) (c : Nat)
    (p : List Nat) : (updatedPrimary env w t c p).command_id = c := by
  simp [updatedPrimary]

@[simp] theorem updatedPrimary_is_removed (env : Env) (w : Worker) (t : Tuple) (c : Nat)
    (p : List Nat) : (updatedPrimary env w t c p).is_removed = t.is_removed := by
  simp [updatedPrimary]

@[simp] theorem updatedPrimary_write_locked (env : Env) (w : Worker) (t : Tuple) (c : Nat)
    (p : List Nat) : (updatedPrimary env w t c p).write_locked = false := by
  simp [updatedPrimary]

@[simp] theorem updatedPrimary_tuple_format (env : Env) (w : Worker) (t : Tuple) (c : Nat)
    (p : List Nat) : (updatedPrimary env w t c p).tuple_format = t.tuple_format := by
  simp [updatedPrimary]

@[simp] theorem updatedPrimary_payload (env : Env) (w : Worker) (t : Tuple) (c : Nat)
    (p : List Nat) : (updatedPrimary env w t c p).payload = p := by
  simp [updatedPrimary]

/-! ## What the mutators leave -/

/-- The primary a successful Chained update leaves in the slot. -/
theorem updateChained_ret {env : Env} {w : Worker} {st : State} {key : List Nat} {cur : Nat}
    {slot : Slot} {cb : List Nat → List Nat} {d : UpdateSameSizeInPlaceDescriptor}
    {r : OP_RESULT} {w' : Worker} {st' : State}
    (h : updateChained env w st key cur slot cb d = Exec.ret (r, w', st')) :
    r = OP_RESULT.OK ∧
    w'.wal = WALEntry.WALUpdate (updateWALEntry w key slot.tuple d
        ((env.descriptorSize d + diffLength d) % U16) w.command_id
        (runCallback cb slot.tuple.payload)) :: w.wal ∧
    w'.command_id = (w.command_id + 1) % U64 ∧
    st'.leaf.slots = setTuple st.leaf.slots cur slot
      (updatedPrimary env w slot.tuple w.command_id (runCallback cb slot.tuple.payload)) ∧
    st'.versions_space =
      (if update_without_versioning env w then st.versions_space
       else insertVersion st.versions_space w.TTS w.command_id
        (((env.descriptorSize d + diffLength d) % U16 + env.sizeofChainedTupleVersion) % U16)
        (updateVersion w slot.tuple d)) := by
  unfold updateChained at h
  simp only at h
  split at h
  · exact absurd h (by simp)
  · split at h
    · exact absurd h (by simp)
    · simp only [Exec.ret.injEq, Prod.mk.injEq] at h
      obtain ⟨h1, h2, h3⟩ := h
      subst h1 h2 h3
      simp

/-- A returning update of an existing Chained key went through the Chained
branch unless it reported a conflict. -/
theorem updateSameSizeInPlace_chained {env : Env} {vis : Visibility} {w : Worker} {st : State}
    {key : List Nat} {cur : Nat} {slot : Slot} (cb : List Nat → List Nat)
    (d : UpdateSameSizeInPlaceDescriptor)
    (hseek : seekExact st.leaf.slots key = some (cur, slot))
    (hfmt : slot.tuple.tuple_format = TupleFormat.CHAINED) :
    updateSameSizeInPlace env vis w st key cb d =
      if writeConflict vis slot.tuple then Exec.ret (OP_RESULT.ABORT_TX, w, st)
      else if ssiConflict env w slot.tuple then Exec.ret (OP_RESULT.ABORT_TX, w, st)
      else updateChained env w st key cur slot cb d := by
  unfold updateSameSizeInPlace
  simp only [hseek, hfmt]

theorem updateSameSizeInPlace_ok {env : Env} {vis : Visibility} {w : Worker} {st : State}
    {key : List Nat} {cur : Nat} {slot : Slot} {cb : List Nat → List Nat}
    {d : UpdateSameSizeInPlaceDescriptor} {w' : Worker} {st' : State}
    (hseek : seekExact st.leaf.slots key = some (cur, slot))
    (hfmt : slot.tuple.tuple_format = TupleFormat.CHAINED)
    (h : updateSameSizeInPlace env vis w st key cb d = Exec.ret (OP_RESULT.OK, w', st')) :
    updateChained env w st key cur slot cb d = Exec.ret (OP_RESULT.OK, w', st') := by
  rw [updateSameSizeInPlace_chained cb d hseek hfmt] at h
  split at h
  · simp at h
  · split at h
    · simp at h
    · exact h

/-! ## C4 and C2: the XOR diff of the WAL record -/

/-- C4. After a successful `updateSameSizeInPlace` on a Chained primary with
descriptor `d` (slices inside the value), for every mutator: the WAL gains one
WALUpdateSSIP record; on each byte position covered by a slice of `d`, the
post-update payload byte XOR the corresponding diff byte of that record is the
pre-update payload byte; the payload keeps its length; and when the mutator
writes only inside the slices of `d`, every payload byte outside the slices is
unchanged. -/
theorem update_xor_diff_recovers_old_bytes (env : Env) (vis : Visibility) (w : Worker)
    (st : State) (key : List Nat) (cb : List Nat → List Nat)
    (d : UpdateSameSizeInPlaceDescriptor) (cur : Nat) (slot : Slot) (w' : Worker) (st' : State)
    (hseek : seekExact st.leaf.slots key = some (cur, slot))
    (hfmt : slot.tuple.tuple_format = TupleFormat.CHAINED)
    (hin : slicesInside d slot.tuple.payload.length)
    (hok : updateSameSizeInPlace env vis w st key cb d = Exec.ret (OP_RESULT.OK, w', st')) :
    ∃ e slot', w'.wal = WALEntry.WALUpdate e :: w.wal ∧
      seekExact st'.leaf.slots key = some (cur, slot') ∧
      slot'.tuple.payload.length = slot.tuple.payload.length ∧
      (∀ j s b, d[j]? = some s → b < s.length →
        slot'.tuple.payload.getD (s.offset + b) 0 ^^^ e.diff.getD (diffOffset d j + b) 0
          = slot.tuple.payload.getD (s.offset + b) 0) ∧
      (writesOnlyInside cb d slot.tuple.payload →
        ∀ p, ¬ covered d p → slot'.tuple.payload.getD p 0 = slot.tuple.payload.getD p 0) := by
  obtain ⟨_, hwal, _, hslots, _⟩ := updateChained_ret (updateSameSizeInPlace_ok hseek hfmt hok)
  refine ⟨_, ⟨slot.key, updatedPrimary env w slot.tuple w.command_id
    (runCallback cb slot.tuple.payload)⟩, hwal, ?_, ?_, ?_, ?_⟩
  · rw [hslots]
    exact seekExact_setTuple hseek _
  · simp [updatedPrimary, runCallback_length]
  · intro j s b hj hb
    simp only [updateWALEntry, updatedPrimary, stampSSI_payload]
    rw [generateXORDiff_getD d slot.tuple.payload _ hin (runCallback_length _ _) j s hj b hb,
      Nat.xor_comm (slot.tuple.payload.getD (s.offset + b) 0), ← Nat.xor_assoc, Nat.xor_self,
      Nat.zero_xor]
  · intro hcb p hp
    simpa [updatedPrimary] using hcb p hp

/-- What `undo` of the record of a Chained update does to the primary the
update left. -/
theorem undo_update_chained (env : Env) (st : State) (e : WALUpdateSSIP) {cur : Nat}
    {slot : Slot} (hseek : seekExact st.leaf.slots e.key = some (cur, slot))
    (hlock : slot.tuple.write_locked = false)
    (hfmt : slot.tuple.tuple_format = TupleFormat.CHAINED) :
    undo env st (WALEntry.WALUpdate e) =
      Exec.ret { st with leaf := { st.leaf with
        slots := setTuple st.leaf.slots cur slot
          { slot.tuple with
            worker_id := e.before_worker_id
            tx_id := e.before_tx_id
            command_id := e.before_command_id
            payload := applyXORDiff e.descriptor slot.tuple.payload e.diff } } } := by
  simp only [undo, hseek, hlock, hfmt]
  simp

/-- C2 (amended). For every Chained primary with payload `v` and writer
identity (worker_id, tx_id, command_id), every update descriptor whose slices
lie inside `v` and are pairwise disjoint, and every mutator that writes only
inside the slices: after `updateSameSizeInPlace` returns OK, `undo` of the
WALUpdateSSIP record the update emitted returns and restores the payload of
the primary to exactly `v` and its writer identity to what it was. -/
theorem update_undo_restores_payload_and_identity (env : Env) (vis : Visibility) (w : Worker)
    (st : State) (key : List Nat) (cb : List Nat → List Nat)
    (d : UpdateSameSizeInPlaceDescriptor) (cur : Nat) (slot : Slot) (w' : Worker) (st' : State)
    (hseek : seekExact st.leaf.slots key = some (cur, slot))
    (hfmt : slot.tuple.tuple_format = TupleFormat.CHAINED)
    (hin : slicesInside d slot.tuple.payload.length)
    (hdis : slicesDisjoint d)
    (hcb : writesOnlyInside cb d slot.tuple.payload)
    (hok : updateSameSizeInPlace env vis w st key cb d = Exec.ret (OP_RESULT.OK, w', st')) :
    ∃ e st'' slot'', w'.wal = WALEntry.WALUpdate e :: w.wal ∧
      undo env st' (WALEntry.WALUpdate e) = Exec.ret st'' ∧
      seekExact st''.leaf.slots key = some (cur, slot'') ∧
      slot''.tuple.payload = slot.tuple.payload ∧
      slot''.tuple.worker_id = slot.tuple.worker_id ∧
      slot''.tuple.tx_id = slot.tuple.tx_id ∧
      slot''.tuple.command_id = slot.tuple.command_id := by
  obtain ⟨_, hwal, _, hslots, _⟩ := updateChained_ret (updateSameSizeInPlace_ok hseek hfmt hok)
  have hseek' : seekExact st'.leaf.slots key = some (cur, ⟨slot.key,
      updatedPrimary env w slot.tuple w.command_id (runCallback cb slot.tuple.payload)⟩) := by
    rw [hslots]
    exact seekExact_setTuple hseek _
  have hundo := undo_update_chained env st'
    (updateWALEntry w key slot.tuple d ((env.descriptorSize d + diffLength d) % U16)
      w.command_id (runCallback cb slot.tuple.payload))
    hseek' rfl (by simpa [updatedPrimary] using hfmt)
  refine ⟨_, _, _, hwal, hundo, seekExact_setTuple hseek' _, ?_, rfl, rfl, rfl⟩
  simp only [updateWALEntry, updatedPrimary, stampSSI_payload]
  exact applyXORDiff_generateXORDiff d slot.tuple.payload _ hin hdis (runCallback_length _ _) hcb

theorem exampleMutator_writesOnlyInside :
    writesOnlyInside exampleMutator exampleDescriptor examplePrimary.payload := by
  intro p hp
  match p with
  | 0 => rfl
  | 1 => exact absurd ⟨⟨1, 1⟩, by simp [exampleDescriptor], by simp [UpdateSlot.covers]⟩ hp
  | n + 2 => rfl

/-- Witness of C4 on the example update. -/
theorem update_xor_diff_recovers_old_bytes_witness :
    ∃ e slot', (workerAfter exampleUpdate exampleWorker).wal
        = WALEntry.WALUpdate e :: exampleWorker.wal ∧
      seekExact (stateAfter exampleUpdate exampleState).leaf.slots [5, 0] = some (0, slot') ∧
      slot'.tuple.payload.length = examplePrimary.payload.length ∧
      (∀ j s b, exampleDescriptor[j]? = some s → b < s.length →
        slot'.tuple.payload.getD (s.offset + b) 0
            ^^^ e.diff.getD (diffOffset exampleDescriptor j + b) 0
          = examplePrimary.payload.getD (s.offset + b) 0) ∧
      (∀ p, ¬ covered exampleDescriptor p →
          slot'.tuple.payload.getD p 0 = examplePrimary.payload.getD p 0) := by
  obtain ⟨e, slot', h1, h2, h3, h4, h5⟩ :=
    update_xor_diff_recovers_old_bytes exampleEnv visAll exampleWorker exampleState [5, 0]
      exampleMutator exampleDescriptor 0 ⟨[5, 0], examplePrimary⟩
      (workerAfter exampleUpdate exampleWorker) (stateAfter exampleUpdate exampleState)
      (by decide) (by decide)
      (by simp [slicesInside, exampleDescriptor, examplePrimary, ChainedTuple]) (by decide)
  exact ⟨e, slot', h1, h2, h3, h4, h5 exampleMutator_writesOnlyInside⟩

/-- Witness of the amended C2 on the example update. -/
theorem update_undo_restores_payload_and_identity_witness :
    ∃ e st'' slot'', (workerAfter exampleUpdate exampleWorker).wal
        = WALEntry.WALUpdate e :: exampleWorker.wal ∧
      undo exampleEnv (stateAfter exampleUpdate exampleState) (WALEntry.WALUpdate e)
        = Exec.ret st'' ∧
      seekExact st''.leaf.slots [5, 0] = some (0, slot'') ∧
      slot''.tuple.payload = examplePrimary.payload ∧
      slot''.tuple.worker_id = examplePrimary.worker_id ∧
      slot''.tuple.tx_id = examplePrimary.tx_id ∧
      slot''.tuple.command_id = examplePrimary.command_id :=
  update_undo_restores_payload_and_identity exampleEnv visAll exampleWorker exampleState [5, 0]
    exampleMutator exampleDescriptor 0 ⟨[5, 0], examplePrimary⟩
    (workerAfter exampleUpdate exampleWorker) (stateAfter exampleUpdate exampleState)
    (by decide) (by decide) (by simp [slicesInside, exampleDescriptor, examplePrimary, ChainedTuple])
    (by simp [slicesDisjoint, exampleDescriptor]) exampleMutator_writesOnlyInside (by decide)

theorem overlappingMutator_writesOnlyInside :
    writesOnlyInside overlappingMutator overlappingDescriptor examplePrimary.payload := by
  intro p hp
  match p with
  | 0 => exact absurd ⟨⟨0, 1⟩, by simp [overlappingDescriptor], by simp [UpdateSlot.covers]⟩ hp
  | n + 1 => rfl

/-- C2 as stated fails when two slices of the descriptor overlap: the primary
holds [1, 2], the descriptor names byte 0 twice (both slices inside the value),
the mutator writes only byte 0; the update returns OK, and `undo` of its WAL
record leaves [7, 2], not [1, 2]. -/
theorem update_undo_overlapping_slices_counterexample :
    seekExact exampleState.leaf.slots [5, 0] = some (0, ⟨[5, 0], examplePrimary⟩) ∧
    examplePrimary.tuple_format = TupleFormat.CHAINED ∧
    examplePrimary.payload = [1, 2] ∧
    slicesInside overlappingDescriptor examplePrimary.payload.length ∧
    writesOnlyInside overlappingMutator overlappingDescriptor examplePrimary.payload ∧
    ∃ w' st' e st'', overlappingUpdate = Exec.ret (OP_RESULT.OK, w', st') ∧
      w'.wal = [WALEntry.WALUpdate e] ∧
      undo exampleEnv st' (WALEntry.WALUpdate e) = Exec.ret st'' ∧
      seekExact st''.leaf.slots [5, 0]
        = some (0, ⟨[5, 0], { examplePrimary with payload := [7, 2] }⟩) := by
  refine ⟨by decide, by decide, by decide, ?_, overlappingMutator_writesOnlyInside, ?_⟩
  · simp [slicesInside, overlappingDescriptor, examplePrimary, ChainedTuple]
  · refine ⟨workerAfter overlappingUpdate exampleWorker,
      stateAfter overlappingUpdate exampleState, ?_⟩
    refine ⟨_, _, by decide, rfl, rfl, by decide⟩

/-! ## C1 and C8: insert -/

/-- What a returning insert of an absent key leaves: the result is OK and the
leaf holds a fresh Chained primary with the value under the key. -/
theorem insert_absent_ret {env : Env} {vis : Visibility} {splits : Nat} {w : Worker}
    {st : State} {key value : List Nat} {r : OP_RESULT} {w' : Worker} {st' : State}
    (habsent : seekExact st.leaf.slots key = none)
    (h : insert env vis splits w st key value = Exec.ret (r, w', st')) :
    r = OP_RESULT.OK ∧
    w' = { w with wal := WALEntry.WALInsert (insertWALEntry key value) :: w.wal
      }.commitIfSingleStatement ∧
    st' = { st with leaf := { st.leaf with
      slots := insertInCurrentNode st.leaf.slots (lowerBound st.leaf.slots key)
        { key := key, tuple := ChainedTuple w.workerID w.TTS value } } } := by
  induction splits with
  | succ n ih =>
    simp only [insert, habsent] at h
    exact ih h
  | zero =>
    simp only [insert, habsent, insertIntoLeaf] at h
    split at h
    · exact absurd h (by simp)
    · rename_i hlen
      have hmod := Nat.mod_le (value.length + env.sizeofChainedTuple) U16
      have hsz : (value.length + env.sizeofChainedTuple) % U16 - env.sizeofChainedTuple
          = value.length := by omega
      rw [hsz, memcpyAt_zero_full _ _ (by simp)] at h
      simp only [Exec.ret.injEq, Prod.mk.injEq] at h
      obtain ⟨h1, h2, h3⟩ := h
      exact ⟨h1.symm, h2.symm, h3.symm⟩

/-- The reconstruction of a primary that is visible to the reader and not
removed hands its payload to the callback. -/
theorem reconstructTuple_visible_live (env : Env) (vis : Visibility)
    (versions_space : List VersionEntry) (fuel : Nat) (tuple : Tuple)
    (hfmt : tuple.tuple_format = TupleFormat.CHAINED)
    (hvis : vis tuple.worker_id tuple.tx_id false = true) (hlive : tuple.is_removed = false) :
    reconstructTuple env vis versions_space fuel tuple
      = Exec.ret (OP_RESULT.OK, 1, some tuple.payload) := by
  simp [reconstructTuple, reconstructChainedTuple, hfmt, hvis, hlive]

/-- A lookup of a key whose primary is a live Chained primary visible to the
reader returns OK with the payload of the primary. -/
theorem lookup_visible_live (env : Env) (vis : Visibility) (fuel : Nat) (w : Worker) (st : State)
    (key : List Nat) (cur : Nat) (slot : Slot)
    (hseek : seekExact st.leaf.slots key = some (cur, slot))
    (hfmt : slot.tuple.tuple_format = TupleFormat.CHAINED)
    (hvis : vis slot.tuple.worker_id slot.tuple.tx_id false = true)
    (hlive : slot.tuple.is_removed = false) :
    lookup env vis fuel w st key = Exec.ret (OP_RESULT.OK, some slot.tuple.payload) := by
  unfold lookup
  split
  · simp [lookupPessimistic, hseek,
      reconstructTuple_visible_live env vis st.versions_space fuel slot.tuple hfmt hvis hlive]
  · simp [lookupOptimistic, hseek, hvis]

/-- C1. For every key `k` not present in the tree and every value `v`: after
`insert(k, v)` returns OK, a `lookup(k)` by the same transaction, to which its
own writes are visible, returns OK and invokes the callback with exactly the
bytes of `v` (for every number of leaf splits the insert needed, on both the
optimistic and the pessimistic lookup path). -/
theorem insert_then_lookup_returns_value (env : Env) (vis : Visibility) (splits fuel : Nat)
    (w : Worker) (st : State) (k v : List Nat) (w' : Worker) (st' : State)
    (habsent : seekExact st.leaf.slots k = none)
    (hown : vis w.workerID w.TTS false = true)
    (hins : insert env vis splits w st k v = Exec.ret (OP_RESULT.OK, w', st')) :
    lookup env vis fuel w' st' k = Exec.ret (OP_RESULT.OK, some v) := by
  obtain ⟨_, _, hst⟩ := insert_absent_ret habsent hins
  have hseek : seekExact st'.leaf.slots k = some ((st.leaf.slots.take
      (lowerBound st.leaf.slots k)).length, ⟨k, ChainedTuple w.workerID w.TTS v⟩) := by
    rw [hst]
    exact seekExact_insertInCurrentNode _ _ _ _ habsent rfl
  exact lookup_visible_live env vis fuel w' st' k _ _ hseek rfl hown rfl

/-- Witness of C1 on the example insert. -/
theorem insert_then_lookup_returns_value_witness :
    lookup exampleEnv visAll 0 (workerAfter exampleInsert exampleWorker)
      (stateAfter exampleInsert exampleState) [4, 0] = Exec.ret (OP_RESULT.OK, some [1]) :=
  insert_then_lookup_returns_value exampleEnv visAll 1 0 exampleWorker exampleState [4, 0] [1]
    (workerAfter exampleInsert exampleWorker) (stateAfter exampleInsert exampleState)
    (by decide) (by decide) (by decide)

theorem insert_present (env : Env) (vis : Visibility) (splits : Nat) (w : Worker) (st : State)
    (key value : List Nat) (cur : Nat) (slot : Slot)
    (hseek : seekExact st.leaf.slots key = some (cur, slot)) :
    insert env vis splits w st key value = insertDuplicate vis w st slot := by
  cases splits <;> simp [insert, hseek]

/-- C8 as stated fails: key [5, 0] is present, its primary is not write-locked
and is visible to the writer, and `insert` does not return ABORT_TX; it stops at
`ensure(false)`. -/
theorem insert_present_visible_counterexample :
    seekExact exampleState.leaf.slots [5, 0] = some (0, ⟨[5, 0], examplePrimary⟩) ∧
    examplePrimary.write_locked = false ∧
    visAll examplePrimary.worker_id examplePrimary.tx_id true = true ∧
    insert exampleEnv visAll 0 exampleWorker exampleState [5, 0] [1] = Exec.ensure_failed ∧
    ¬ ∃ w' st', insert exampleEnv visAll 0 exampleWorker exampleState [5, 0] [1]
      = Exec.ret (OP_RESULT.ABORT_TX, w', st') := by
  have h : insert exampleEnv visAll 0 exampleWorker exampleState [5, 0] [1]
      = Exec.ensure_failed := by decide
  refine ⟨by decide, by decide, by decide, h, ?_⟩
  rintro ⟨w', st', h'⟩
  rw [h] at h'
  exact absurd h' (by simp)

/-- C8 (amended). For every key that is already present in the tree: when its
primary is write-locked or not visible to the writing transaction (visibility
asked with writing = true), `insert(key, value)` returns ABORT_TX and leaves the
tree, the versions store and the worker unchanged; when the primary is not
write-locked and visible, `insert` returns nothing: it stops at `ensure(false)`. -/
theorem insert_present_key_aborts_or_fails (env : Env) (vis : Visibility) (splits : Nat)
    (w : Worker) (st : State) (key value : List Nat) (cur : Nat) (slot : Slot)
    (hseek : seekExact st.leaf.slots key = some (cur, slot)) :
    (slot.tuple.write_locked = true ∨ vis slot.tuple.worker_id slot.tuple.tx_id true = false →
      insert env vis splits w st key value = Exec.ret (OP_RESULT.ABORT_TX, w, st)) ∧
    (slot.tuple.write_locked = false ∧ vis slot.tuple.worker_id slot.tuple.tx_id true = true →
      insert env vis splits w st key value = Exec.ensure_failed) := by
  rw [insert_present env vis splits w st key value cur slot hseek]
  constructor
  · intro h
    have hc : writeConflict vis slot.tuple = true := by
      rcases h with h | h <;> simp [writeConflict, h]
    simp [insertDuplicate, hc]
  · intro h
    have hc : writeConflict vis slot.tuple = false := by
      simp [writeConflict, h.1, h.2]
    simp [insertDuplicate, hc]

/-- Witness of the amended C8: the present key [5, 0] with a writer to which its
primary is not visible, and with a writer to which it is. -/
theorem insert_present_key_aborts_or_fails_witness :
    seekExact exampleState.leaf.slots [5, 0] = some (0, ⟨[5, 0], examplePrimary⟩) ∧
    insert exampleEnv visNone 1 exampleWorker exampleState [5, 0] [1]
      = Exec.ret (OP_RESULT.ABORT_TX, exampleWorker, exampleState) ∧
    insert exampleEnv visAll 1 exampleWorker exampleState [5, 0] [1] = Exec.ensure_failed :=
  ⟨by decide,
    (insert_present_key_aborts_or_fails exampleEnv visNone 1 exampleWorker exampleState [5, 0] [1]
      0 ⟨[5, 0], examplePrimary⟩ (by decide)).1 (Or.inr (by decide)),
    (insert_present_key_aborts_or_fails exampleEnv visAll 1 exampleWorker exampleState [5, 0] [1]
      0 ⟨[5, 0], examplePrimary⟩ (by decide)).2 ⟨by decide, by decide⟩⟩

/-! ## remove, unfolded -/

/-- The checks `remove` runs on an existing key when fast-remove is off, in
their order, and the versioned removal that follows them. -/
theorem remove_slow {env : Env} (vis : Visibility) {w : Worker} {st : State} {key : List Nat}
    {cur : Nat} {slot : Slot} (hseek : seekExact st.leaf.slots key = some (cur, slot))
    (hfast : env.FLAGS_vi_fremove = false)
    (hfmt : slot.tuple.tuple_format = TupleFormat.CHAINED) :
    remove env vis w st key =
      if writeConflict vis slot.tuple then
        Exec.ret (OP_RESULT.ABORT_TX, { w with command_id := (w.command_id + 1) % U64 }, st)
      else if ssiConflict env w slot.tuple then
        Exec.ret (OP_RESULT.ABORT_TX, { w with command_id := (w.command_id + 1) % U64 }, st)
      else if w.atLeastSI ∧ slot.tuple.is_removed then Exec.ensure_failed
      else if slot.tuple.is_removed then
        Exec.ret (OP_RESULT.NOT_FOUND, { w with command_id := (w.command_id + 1) % U64 }, st)
      else if (env.sizeofChainedTupleVersion + slot.tuple.payload.length) % U16
          < env.sizeofChainedTupleVersion + slot.tuple.payload.length then Exec.undefined
      else
        Exec.ret (OP_RESULT.OK,
          (stageTODO env
            { w with
              command_id := (w.command_id + 1) % U64
              wal := WALEntry.WALRemove (removeWALEntry key slot.tuple slot.tuple.payload.length)
                :: w.wal }
            key ⟨st.leaf.latch_version, cur⟩).commitIfSingleStatement,
          { leaf := { st.leaf.markAsDirty with
              slots := setTuple st.leaf.slots cur slot
                (removedPrimary env w slot.tuple w.command_id) }
            versions_space := insertVersion st.versions_space w.TTS w.command_id
              ((env.sizeofChainedTupleVersion + slot.tuple.payload.length) % U16)
              (removeVersion w slot.tuple slot.tuple.payload.length) }) := by
  simp only [remove, hseek, hfast, hfmt]
  simp

/-- What a returning versioned remove of a live primary leaves when it does not
report a conflict. -/
theorem remove_live_ok {env : Env} {vis : Visibility} {w : Worker} {st : State}
    {key : List Nat} {cur : Nat} {slot : Slot} {w' : Worker} {st' : State}
    (hseek : seekExact st.leaf.slots key = some (cur, slot))
    (hfast : env.FLAGS_vi_fremove = false)
    (hfmt : slot.tuple.tuple_format = TupleFormat.CHAINED)
    (h : remove env vis w st key = Exec.ret (OP_RESULT.OK, w', st')) :
    slot.tuple.is_removed = false ∧
    env.sizeofChainedTupleVersion + slot.tuple.payload.length < U16 ∧
    w'.wal = WALEntry.WALRemove (removeWALEntry key slot.tuple slot.tuple.payload.length)
      :: w.wal ∧
    st'.leaf.slots = setTuple st.leaf.slots cur slot
      (removedPrimary env w slot.tuple w.command_id) ∧
    st'.versions_space = insertVersion st.versions_space w.TTS w.command_id
      (env.sizeofChainedTupleVersion + slot.tuple.payload.length)
      (removeVersion w slot.tuple slot.tuple.payload.length) := by
  rw [remove_slow vis hseek hfast hfmt] at h
  split at h
  · simp at h
  · split at h
    · simp at h
    · split at h
      · simp at h
      · split at h
        · simp at h
        · rename_i hlive
          split at h
          · simp at h
          · rename_i hlen
            have hmod := Nat.mod_le (env.sizeofChainedTupleVersion + slot.tuple.payload.length) U16
            have hlt := Nat.mod_lt (env.sizeofChainedTupleVersion + slot.tuple.payload.length)
              (show U16 > 0 by decide)
            have heq : (env.sizeofChainedTupleVersion + slot.tuple.payload.length) % U16
              = env.sizeofChainedTupleVersion + slot.tuple.payload.length := by omega
            simp only [Exec.ret.injEq, Prod.mk.injEq, true_and] at h
            obtain ⟨h2, h3⟩ := h
            subst h2 h3
            refine ⟨by simpa using hlive, by omega, by simp, rfl, ?_⟩
            simp only [heq]

/-! ## C9: when update and remove abort -/

theorem workerBit_eq (w : Worker) (h : w.workerID < 64) : workerBit w = 2 ^ w.workerID := by
  unfold workerBit
  rw [Nat.one_shiftLeft]
  apply Nat.mod_eq_of_lt
  have : (2 : Nat) ^ w.workerID < 2 ^ 64 := Nat.pow_lt_pow_right (by norm_num) h
  simpa [U64] using this

/-- The 2PL test of the code says that some bit other than the bit of the
caller is set. -/
theorem foreign_reader_bit (counter : Nat) (w : Worker) (h : w.workerID < 64) :
    (counter > 0 ∧ counter ≠ workerBit w) ↔
      ∃ j, j ≠ w.workerID ∧ counter.testBit j = true := by
  rw [workerBit_eq w h]
  constructor
  · rintro ⟨hpos, hne⟩
    by_contra hno
    push_neg at hno
    by_cases hb : counter.testBit w.workerID = true
    · apply hne
      apply Nat.eq_of_testBit_eq
      intro i
      rw [Nat.testBit_two_pow]
      by_cases hi : i = w.workerID
      · subst hi
        simpa using hb
      · have := hno i hi
        simp only [Bool.not_eq_true] at this
        rw [this]
        simp [Ne.symm hi]
    · have : counter = 0 := by
        apply Nat.eq_of_testBit_eq
        intro i
        rw [Nat.zero_testBit]
        by_cases hi : i = w.workerID
        · subst hi
          simpa using hb
        · simpa using hno i hi
      omega
  · rintro ⟨j, hj, hb⟩
    constructor
    · rcases Nat.eq_zero_or_pos counter with h0 | h0
      · rw [h0, Nat.zero_testBit] at hb
        exact absurd hb (by simp)
      · exact h0
    · intro heq
      rw [heq, Nat.testBit_two_pow] at hb
      simp only [decide_eq_true_eq] at hb
      exact hj hb.symm

/-- The two conflict tests of the code together say what the spec says. -/
theorem conflict_iff_abortCondition (env : Env) (vis : Visibility) (w : Worker) (tuple : Tuple)
    (h : w.workerID < 64) :
    (writeConflict vis tuple = true ∨ ssiConflict env w tuple = true) ↔
      abortCondition env vis w tuple := by
  have hbit := foreign_reader_bit tuple.read_lock_counter w h
  unfold abortCondition writeConflict ssiConflict
  cases hl : tuple.write_locked <;> cases hv : vis tuple.worker_id tuple.tx_id true <;>
    cases hs : w.isSerializable <;> cases hp : env.FLAGS_2pl <;>
    simp [← hbit]

/-- C9. For every existing Chained key and every caller with a worker id below
64: `updateSameSizeInPlace` returns ABORT_TX if and only if the primary is
write-locked, or it is not visible to the caller with writing = true, or the
transaction is serializable and either (non-2PL) `read_ts` is greater than the
timestamp of the caller or (2PL) `read_lock_counter` has a bit set for some
worker other than the caller; the same holds for `remove` of a non-tombstoned
key with fast-remove off; and the 2PL test of the code (counter > 0 and counter
!= 1 << worker id) is equivalent to "some non-self reader bit is set". -/
theorem update_and_remove_abort_iff_conflict (env : Env) (vis : Visibility) (w : Worker)
    (st : State) (key : List Nat) (cb : List Nat → List Nat)
    (d : UpdateSameSizeInPlaceDescriptor) (cur : Nat) (slot : Slot)
    (hseek : seekExact st.leaf.slots key = some (cur, slot))
    (hfmt : slot.tuple.tuple_format = TupleFormat.CHAINED)
    (hwid : w.workerID < 64) :
    ((∃ w' st', updateSameSizeInPlace env vis w st key cb d
        = Exec.ret (OP_RESULT.ABORT_TX, w', st')) ↔ abortCondition env vis w slot.tuple) ∧
    (env.FLAGS_vi_fremove = false → slot.tuple.is_removed = false →
      ((∃ w' st', remove env vis w st key = Exec.ret (OP_RESULT.ABORT_TX, w', st')) ↔
        abortCondition env vis w slot.tuple)) ∧
    (∀ counter : Nat, (counter > 0 ∧ counter ≠ workerBit w) ↔
      ∃ j, j ≠ w.workerID ∧ counter.testBit j = true) := by
  refine ⟨?_, ?_, fun counter => foreign_reader_bit counter w hwid⟩
  · rw [← conflict_iff_abortCondition env vis w slot.tuple hwid,
      updateSameSizeInPlace_chained cb d hseek hfmt]
    constructor
    · rintro ⟨w', st', h⟩
      split at h
      · rename_i hc
        exact Or.inl hc
      · split at h
        · rename_i hc
          exact Or.inr hc
        · exact absurd (updateChained_ret h).1 (by simp)
    · rintro (hc | hc)
      · exact ⟨w, st, by simp [hc]⟩
      · by_cases hw : writeConflict vis slot.tuple = true
        · exact ⟨w, st, by simp [hw]⟩
        · exact ⟨w, st, by simp [hw, hc]⟩
  · intro hfast hlive
    rw [← conflict_iff_abortCondition env vis w slot.tuple hwid,
      remove_slow vis hseek hfast hfmt]
    constructor
    · rintro ⟨w', st', h⟩
      split at h
      · rename_i hc
        exact Or.inl hc
      · split at h
        · rename_i hc
          exact Or.inr hc
        · simp [hlive] at h
          split at h <;> simp at h
    · rintro (hc | hc)
      · exact ⟨{ w with command_id := (w.command_id + 1) % U64 }, st, by simp [hc]⟩
      · by_cases hw : writeConflict vis slot.tuple = true
        · exact ⟨{ w with command_id := (w.command_id + 1) % U64 }, st, by simp [hw]⟩
        · exact ⟨{ w with command_id := (w.command_id + 1) % U64 }, st, by simp [hw, hc]⟩

/-- Witness of C9 on the example state: the live primary under key [5, 0] and
worker 1. -/
theorem update_and_remove_abort_iff_conflict_witness :
    seekExact exampleState.leaf.slots [5, 0] = some (0, ⟨[5, 0], examplePrimary⟩) ∧
    examplePrimary.tuple_format = TupleFormat.CHAINED ∧
    exampleWorker.workerID < 64 ∧
    ((∃ w' st', updateSameSizeInPlace exampleEnv visNone exampleWorker exampleState [5, 0]
        exampleMutator exampleDescriptor = Exec.ret (OP_RESULT.ABORT_TX, w', st')) ↔
      abortCondition exampleEnv visNone exampleWorker examplePrimary) :=
  ⟨by decide, by decide, by decide,
    (update_and_remove_abort_iff_conflict exampleEnv visNone exampleWorker exampleState [5, 0]
      exampleMutator exampleDescriptor 0 ⟨[5, 0], examplePrimary⟩ (by decide) (by decide)
      (by decide)).1⟩

/-! ## C10: remove of a tombstone -/

/-- C10 as stated fails: key [6, 0] holds a Chained tombstone, fast-remove is
off, the transaction is at least SI, and `remove` does not return NOT_FOUND; the
`ensure(!atLeastSI() || is_removed == false)` stops it. -/
theorem remove_tombstone_under_si_counterexample :
    seekExact exampleState.leaf.slots [6, 0] = some (1, ⟨[6, 0], exampleTombstone⟩) ∧
    exampleTombstone.tuple_format = TupleFormat.CHAINED ∧
    exampleTombstone.is_removed = true ∧
    exampleEnv.FLAGS_vi_fremove = false ∧
    remove exampleEnv visAll exampleWorker exampleState [6, 0] = Exec.ensure_failed ∧
    ¬ ∃ w' st', remove exampleEnv visAll exampleWorker exampleState [6, 0]
      = Exec.ret (OP_RESULT.NOT_FOUND, w', st') := by
  have h : remove exampleEnv visAll exampleWorker exampleState [6, 0] = Exec.ensure_failed := by
    decide
  refine ⟨by decide, by decide, by decide, by decide, h, ?_⟩
  rintro ⟨w', st', h'⟩
  rw [h] at h'
  exact absurd h' (by simp)

/-- C10 (amended). For every key whose primary is a Chained tombstone,
`remove(key)` with fast-remove off changes neither the leaf page nor the
versions store whenever it returns. It returns ABORT_TX when the primary is
write-locked, not visible to the caller for writing, or in SSI conflict;
otherwise it returns NOT_FOUND when the transaction is below snapshot isolation
(`atLeastSI()` false), and returns nothing when the transaction is at least SI:
the `ensure(!atLeastSI() || is_removed == false)` fails. -/
theorem remove_tombstone_leaves_page (env : Env) (vis : Visibility) (w : Worker) (st : State)
    (key : List Nat) (cur : Nat) (slot : Slot)
    (hseek : seekExact st.leaf.slots key = some (cur, slot))
    (hfmt : slot.tuple.tuple_format = TupleFormat.CHAINED)
    (hrem : slot.tuple.is_removed = true)
    (hfast : env.FLAGS_vi_fremove = false) :
    (∀ r w' st', remove env vis w st key = Exec.ret (r, w', st') → st' = st) ∧
    (writeConflict vis slot.tuple = true ∨ ssiConflict env w slot.tuple = true →
      remove env vis w st key = Exec.ret (OP_RESULT.ABORT_TX,
        { w with command_id := (w.command_id + 1) % U64 }, st)) ∧
    (writeConflict vis slot.tuple = false → ssiConflict env w slot.tuple = false →
      w.atLeastSI = false →
      remove env vis w st key = Exec.ret (OP_RESULT.NOT_FOUND,
        { w with command_id := (w.command_id + 1) % U64 }, st)) ∧
    (writeConflict vis slot.tuple = false → ssiConflict env w slot.tuple = false →
      w.atLeastSI = true → remove env vis w st key = Exec.ensure_failed) := by
  rw [remove_slow vis hseek hfast hfmt]
  refine ⟨?_, ?_, ?_, ?_⟩
  · intro r w' st' h
    split at h
    · simp only [Exec.ret.injEq, Prod.mk.injEq] at h
      exact h.2.2.symm
    · split at h
      · simp only [Exec.ret.injEq, Prod.mk.injEq] at h
        exact h.2.2.symm
      · split at h
        · simp at h
        · simp only [hrem, if_true, Exec.ret.injEq, Prod.mk.injEq] at h
          exact h.2.2.symm
  · rintro (hc | hc)
    · simp [hc]
    · by_cases hw : writeConflict vis slot.tuple = true
      · simp [hw]
      · simp [hw, hc]
  · intro hw hs hsi
    simp [hw, hs, hsi, hrem]
  · intro hw hs hsi
    simp [hw, hs, hsi, hrem]

/-- Witness of the amended C10: the tombstone under key [6, 0], removed by a
transaction below snapshot isolation. -/
theorem remove_tombstone_leaves_page_witness :
    seekExact exampleState.leaf.slots [6, 0] = some (1, ⟨[6, 0], exampleTombstone⟩) ∧
    exampleTombstone.is_removed = true ∧
    remove exampleEnv visAll exampleWorkerRC exampleState [6, 0]
      = Exec.ret (OP_RESULT.NOT_FOUND,
        { exampleWorkerRC with command_id := (exampleWorkerRC.command_id + 1) % U64 },
        exampleState) :=
  ⟨by decide, by decide,
    (remove_tombstone_leaves_page exampleEnv visAll exampleWorkerRC exampleState [6, 0] 1
      ⟨[6, 0], exampleTombstone⟩ (by decide) (by decide) (by decide) (by decide)).2.2.1
      (by decide) (by decide) (by decide)⟩

/-! ## C3: undo of a remove -/

theorem resizePayload_length (payload : List Nat) (n : Nat) :
    (resizePayload payload n).length = n := by
  simp only [resizePayload, List.length_append, List.length_take, List.length_replicate]
  omega

/-- What `undo` of a WALRemove record does to the slot of its key. -/
theorem undo_remove (env : Env) (st : State) (e : WALRemove) {cur : Nat} {slot : Slot}
    (hseek : seekExact st.leaf.slots e.key = some (cur, slot))
    (hlen : env.sizeofChainedTuple + e.value_length < U16) :
    undo env st (WALEntry.WALRemove e) =
      Exec.ret { st with leaf := { st.leaf with
        slots := setTuple st.leaf.slots cur slot
          { restoredPrimary env e slot.tuple with write_locked := false } }.markAsDirty } := by
  have hmod : (e.value_length + env.sizeofChainedTuple) % U16
      = e.value_length + env.sizeofChainedTuple := Nat.mod_eq_of_lt (by omega)
  simp only [undo, hseek, hmod]
  rw [if_neg (by omega)]
  simp [restoredPrimary, ChainedTuple]

/-- The primary `undo` re-constructs from the record of a remove has the value
and the writer identity of the removed primary. -/
theorem restoredPrimary_of_remove (env : Env) (key : List Nat) (removed old_primary : Tuple)
    (hlen : env.sizeofChainedTuple + removed.payload.length < U16) :
    restoredPrimary env (removeWALEntry key removed removed.payload.length) old_primary =
      { ChainedTuple removed.worker_id removed.tx_id removed.payload with
        command_id := removed.command_id } := by
  have hmod : (removed.payload.length + env.sizeofChainedTuple) % U16
      = removed.payload.length + env.sizeofChainedTuple := Nat.mod_eq_of_lt (by omega)
  simp only [restoredPrimary, removeWALEntry, hmod, Nat.add_sub_cancel, List.take_length]
  rw [memcpyAt_zero_full _ _ (by rw [resizePayload_length])]

/-- C3. For every live Chained primary with value `v` of any length (0 and 1
byte included; the slot payload `sizeof(ChainedTuple) + |v|` fits the u16 the
page stores it in) and writer identity (worker_id, tx_id, command_id): after
the versioned `remove` returns OK, `undo` of the WALRemove record it emitted
returns and leaves the slot of the key with a Chained primary whose value bytes
are `v` (so its payload length is `sizeof(ChainedTuple) + |v|`), whose writer
identity is the one before the remove, with `is_removed = false` and
`write_locked = false`. -/
theorem remove_undo_restores_primary (env : Env) (vis : Visibility) (w : Worker) (st : State)
    (key : List Nat) (cur : Nat) (slot : Slot) (w' : Worker) (st' : State)
    (hseek : seekExact st.leaf.slots key = some (cur, slot))
    (hfmt : slot.tuple.tuple_format = TupleFormat.CHAINED)
    (hfast : env.FLAGS_vi_fremove = false)
    (hlen : env.sizeofChainedTuple + slot.tuple.payload.length < U16)
    (hok : remove env vis w st key = Exec.ret (OP_RESULT.OK, w', st')) :
    ∃ e st'' slot'', w'.wal = WALEntry.WALRemove e :: w.wal ∧
      undo env st' (WALEntry.WALRemove e) = Exec.ret st'' ∧
      seekExact st''.leaf.slots key = some (cur, slot'') ∧
      slot''.tuple.tuple_format = TupleFormat.CHAINED ∧
      slot''.tuple.payload = slot.tuple.payload ∧
      env.sizeofChainedTuple + slot''.tuple.payload.length
        = env.sizeofChainedTuple + slot.tuple.payload.length ∧
      slot''.tuple.worker_id = slot.tuple.worker_id ∧
      slot''.tuple.tx_id = slot.tuple.tx_id ∧
      slot''.tuple.command_id = slot.tuple.command_id ∧
      slot''.tuple.is_removed = false ∧
      slot''.tuple.write_locked = false := by
  obtain ⟨_, _, hwal, hslots, _⟩ := remove_live_ok hseek hfast hfmt hok
  have hseek' : seekExact st'.leaf.slots key
      = some (cur, ⟨slot.key, removedPrimary env w slot.tuple w.command_id⟩) := by
    rw [hslots]
    exact seekExact_setTuple hseek _
  have hundo := undo_remove env st' (removeWALEntry key slot.tuple slot.tuple.payload.length)
    hseek' hlen
  rw [restoredPrimary_of_remove env key slot.tuple _ hlen] at hundo
  exact ⟨_, _, _, hwal, hundo, seekExact_setTuple hseek' _, rfl, rfl, rfl, rfl, rfl, rfl, rfl, rfl⟩

/-- Witness of C3 on the example remove. -/
theorem remove_undo_restores_primary_witness :
    ∃ e st'' slot'', (workerAfter exampleRemove exampleWorker).wal
        = WALEntry.WALRemove e :: exampleWorker.wal ∧
      undo exampleEnv (stateAfter exampleRemove exampleState) (WALEntry.WALRemove e)
        = Exec.ret st'' ∧
      seekExact st''.leaf.slots [5, 0] = some (0, slot'') ∧
      slot''.tuple.tuple_format = TupleFormat.CHAINED ∧
      slot''.tuple.payload = examplePrimary.payload ∧
      exampleEnv.sizeofChainedTuple + slot''.tuple.payload.length
        = exampleEnv.sizeofChainedTuple + examplePrimary.payload.length ∧
      slot''.tuple.worker_id = examplePrimary.worker_id ∧
      slot''.tuple.tx_id = examplePrimary.tx_id ∧
      slot''.tuple.command_id = examplePrimary.command_id ∧
      slot''.tuple.is_removed = false ∧
      slot''.tuple.write_locked = false :=
  remove_undo_restores_primary exampleEnv visAll exampleWorker exampleState [5, 0] 0
    ⟨[5, 0], examplePrimary⟩ (workerAfter exampleRemove exampleWorker)
    (stateAfter exampleRemove exampleState) (by decide) (by decide) (by decide) (by decide)
    (by decide)

/-! ## C6: readers after a remove -/

theorem retrieveVersion_insertVersion (space : List VersionEntry) (tx_id command_id size : Nat)
    (version : ChainedTupleVersion) :
    retrieveVersion (insertVersion space tx_id command_id size version) tx_id command_id
      = some ⟨tx_id, command_id, size, version⟩ := by
  simp [retrieveVersion, insertVersion]

/-- One round of the slot loop removes the slot exactly when the spec says so,
and otherwise advances the index. -/
theorem gcStep_slots (env : Env) (vis : Visibility) (lwm : Nat) (v : GCVars) (s_i : Nat)
    (slot : Slot) :
    (gcStep env vis lwm v s_i slot).1.slots
        = (if gcRemoves env lwm slot then v.slots.eraseIdx s_i else v.slots) ∧
      (gcStep env vis lwm v s_i slot).2 = (if gcRemoves env lwm slot then s_i else s_i + 1) := by
  unfold gcStep gcRemoves
  by_cases hsn : env.chainSN slot.key = 0
  · cases hf : slot.tuple.tuple_format <;> cases hr : slot.tuple.is_removed <;>
      by_cases hl : slot.tuple.tx_id ≤ lwm <;> simp [hsn, hf, hr, hl]
  · by_cases hl : (env.asVersion slot.tuple).gc_trigger ≤ lwm <;> simp [hsn, hl]

theorem eraseIdx_take_drop (l : List Slot) (i : Nat) (h : i < l.length) :
    (l.eraseIdx i).take i = l.take i ∧ (l.eraseIdx i).drop i = l.drop (i + 1) := by
  rw [List.eraseIdx_eq_take_drop_succ]
  have hl : (l.take i).length = i := by simp; omega
  constructor
  · rw [List.take_append_of_le_length (by omega), List.take_take, Nat.min_self]
  · exact List.drop_left' hl

/-- The slot loop returns, and leaves the slots before the index together with
the slots from the index on that the spec does not remove. -/
theorem gcLoop_filter (env : Env) (vis : Visibility) (lwm : Nat) (fuel : Nat) (v : GCVars)
    (s_i : Nat) (hfuel : v.slots.length - s_i ≤ fuel) :
    ∃ v', gcLoop env vis lwm fuel v s_i = Exec.ret v' ∧
      v'.slots = v.slots.take s_i
        ++ (v.slots.drop s_i).filter (fun s => !gcRemoves env lwm s) := by
  induction fuel generalizing v s_i with
  | zero =>
    have hge : v.slots.length ≤ s_i := by omega
    refine ⟨v, ?_, ?_⟩
    · unfold gcLoop
      simp [List.getElem?_eq_none hge]
    · simp [List.take_of_length_le hge, List.drop_of_length_le hge]
  | succ fuel ih =>
    by_cases hlt : s_i < v.slots.length
    · have hget : v.slots[s_i]? = some v.slots[s_i] := List.getElem?_eq_getElem hlt
      have hstep := gcStep_slots env vis lwm v s_i v.slots[s_i]
      have hdrop : v.slots.drop s_i = v.slots[s_i] :: v.slots.drop (s_i + 1) :=
        List.drop_eq_getElem_cons hlt
      unfold gcLoop
      simp only [hget]
      by_cases hrem : gcRemoves env lwm v.slots[s_i] = true
      · simp only [hrem, if_true] at hstep
        have hlen : (gcStep env vis lwm v s_i v.slots[s_i]).1.slots.length
            - (gcStep env vis lwm v s_i v.slots[s_i]).2 ≤ fuel := by
          rw [hstep.1, hstep.2, List.length_eraseIdx, if_pos hlt]
          omega
        obtain ⟨v', hv', hs'⟩ := ih _ _ hlen
        refine ⟨v', hv', ?_⟩
        rw [hs', hstep.1, hstep.2, (eraseIdx_take_drop v.slots s_i hlt).1,
          (eraseIdx_take_drop v.slots s_i hlt).2, hdrop,
          List.filter_cons_of_neg (by simp [hrem])]
      · simp only [hrem, Bool.false_eq_true, if_false] at hstep
        have hlen : (gcStep env vis lwm v s_i v.slots[s_i]).1.slots.length
            - (gcStep env vis lwm v s_i v.slots[s_i]).2 ≤ fuel := by
          rw [hstep.1, hstep.2]
          omega
        obtain ⟨v', hv', hs'⟩ := ih _ _ hlen
        refine ⟨v', hv', ?_⟩
        rw [hs', hstep.1, hstep.2, hdrop, List.take_succ, hget,
          List.filter_cons_of_pos (by simp [hrem])]
        simp only [Option.toList, List.append_assoc, List.singleton_append]
    · have hge : v.slots.length ≤ s_i := by omega
      refine ⟨v, ?_, ?_⟩
      · unfold gcLoop
        simp [List.getElem?_eq_none hge]
      · simp [List.take_of_length_le hge, List.drop_of_length_le hge]

/-- C7. For every leaf and every low-water mark, `precisePageWiseGarbageCollection`
returns, and the slots it leaves are exactly the original slots, in their
original order, minus (a) Chained primaries with `is_removed = true` and
`tx_id ≤ LWM` and (b) secondary-version slots (chain sequence number ≠ 0) with
`gc_trigger ≤ LWM`. In particular a secondary with `gc_trigger > LWM`, a
tombstone with `tx_id > LWM`, a live Chained primary and a Fat primary stay. -/
theorem gc_leaves_exactly_the_live_slots (env : Env) (vis : Visibility) (w : Worker)
    (leaf : Leaf) :
    ∃ flag leaf', precisePageWiseGarbageCollection env vis w leaf = Exec.ret (flag, leaf') ∧
      leaf'.slots = leaf.slots.filter (fun s => !gcRemoves env w.global_snapshot_lwm s) ∧
      (∀ s ∈ leaf.slots, env.chainSN s.key ≠ 0 →
        (env.asVersion s.tuple).gc_trigger > w.global_snapshot_lwm → s ∈ leaf'.slots) ∧
      (∀ s ∈ leaf.slots, env.chainSN s.key = 0 → s.tuple.is_removed = true →
        s.tuple.tx_id > w.global_snapshot_lwm → s ∈ leaf'.slots) ∧
      (∀ s ∈ leaf.slots, env.chainSN s.key = 0 →
        s.tuple.tuple_format = TupleFormat.CHAINED → s.tuple.is_removed = false →
        s ∈ leaf'.slots) ∧
      (∀ s ∈ leaf.slots, env.chainSN s.key = 0 →
        s.tuple.tuple_format = TupleFormat.FAT_TUPLE_DIFFERENT_ATTRIBUTES → s ∈ leaf'.slots) := by
  obtain ⟨v', hv', hs'⟩ := gcLoop_filter env vis w.global_snapshot_lwm leaf.slots.length
    ⟨leaf.slots, true, 0, 0⟩ 0 (by simp)
  simp only [List.take_zero, List.drop_zero, List.nil_append] at hs'
  have hgc : precisePageWiseGarbageCollection env vis w leaf
      = Exec.ret (v'.all_tuples_heads_are_invisible,
        { leaf with
          slots := v'.slots
          gc_space_used := v'.garbage_seen_in_bytes
          gsn := if (decide (v'.freed_bytes > 0) || v'.all_tuples_heads_are_invisible) = true
            then leaf.gsn + 1 else leaf.gsn }) := by
    unfold precisePageWiseGarbageCollection
    rw [hv']
  refine ⟨_, _, hgc, hs', ?_, ?_, ?_, ?_⟩
  all_goals
    intro s hs
    simp only [hs', List.mem_filter, hs, true_and, gcRemoves]
  · intro hsn hgc
    simp [hsn]
    omega
  · intro hsn _ htx
    simp [hsn]
    omega
  · intro hsn _ hlive
    simp [hsn, hlive]
  · intro hsn hfat
    simp [hsn, hfat]

/-! ## C5: reconstruction after a history of updates -/

theorem runUpdates_cons_some {env : Env} {key : List Nat} {st stN : State} {u : UpdateCall}
    {us : List UpdateCall} (h : runUpdates env key st (u :: us) = some stN) :
    ∃ w' st', updateSameSizeInPlace env u.vis u.worker st key u.callback u.descriptor
        = Exec.ret (OP_RESULT.OK, w', st') ∧ runUpdates env key st' us = some stN := by
  simp only [runUpdates] at h
  split at h
  · rename_i w' st' heq
    exact ⟨w', st', heq, h⟩
  · exact absurd h (by simp)

theorem runUpdates_append {env : Env} {key : List Nat} {st stN : State}
    {us vs : List UpdateCall} (h : runUpdates env key st (us ++ vs) = some stN) :
    ∃ st', runUpdates env key st us = some st' ∧ runUpdates env key st' vs = some stN := by
  induction us generalizing st with
  | nil => exact ⟨st, rfl, h⟩
  | cons u us ih =>
    obtain ⟨w', st', hu, hrest⟩ := runUpdates_cons_some h
    obtain ⟨st'', h1, h2⟩ := ih hrest
    refine ⟨st'', ?_, h2⟩
    simp only [runUpdates, hu]
    exact h1

/-- A history of successful versioned updates of a Chained key leaves the key
in its slot with the primary `tupleAfter` and the versions store
`versionsAfter`. -/
theorem runUpdates_leaves {env : Env} {key : List Nat} {us : List UpdateCall} {st stN : State}
    {cur : Nat} {slot : Slot}
    (hseek : seekExact st.leaf.slots key = some (cur, slot))
    (hfmt : slot.tuple.tuple_format = TupleFormat.CHAINED)
    (hver : ∀ u ∈ us, update_without_versioning env u.worker = false)
    (hrun : runUpdates env key st us = some stN) :
    seekExact stN.leaf.slots key = some (cur, ⟨slot.key, tupleAfter env slot.tuple us⟩) ∧
      stN.versions_space = versionsAfter env slot.tuple st.versions_space us := by
  induction us generalizing st slot with
  | nil =>
    simp only [runUpdates, Option.some.injEq] at hrun
    subst hrun
    exact ⟨hseek, rfl⟩
  | cons u us ih =>
    obtain ⟨w', st', hu, hrest⟩ := runUpdates_cons_some hrun
    obtain ⟨_, _, _, hslots, hvs⟩ := updateChained_ret (updateSameSizeInPlace_ok hseek hfmt hu)
    have hseek' : seekExact st'.leaf.slots key = some (cur, ⟨slot.key,
        updatedPrimary env u.worker slot.tuple u.worker.command_id
          (runCallback u.callback slot.tuple.payload)⟩) := by
      rw [hslots]
      exact seekExact_setTuple hseek _
    have hih := ih hseek' (by simpa using hfmt)
      (fun v hv => hver v (List.mem_cons_of_mem _ hv)) hrest
    rw [hver u (List.mem_cons_self _ _)] at hvs
    simp only [Bool.false_eq_true, if_false] at hvs
    refine ⟨hih.1, ?_⟩
    rw [hih.2, hvs]
    rfl

theorem tupleAfter_append (env : Env) (t : Tuple) (us : List UpdateCall) (u : UpdateCall) :
    tupleAfter env t (us ++ [u]) =
      updatedPrimary env u.worker (tupleAfter env t us) u.worker.command_id
        (runCallback u.callback (tupleAfter env t us).payload) := by
  induction us generalizing t with
  | nil => rfl
  | cons v us ih => simp [tupleAfter, ih]

theorem versionsAfter_append (env : Env) (t : Tuple) (space : List VersionEntry)
    (us : List UpdateCall) (u : UpdateCall) :
    versionsAfter env t space (us ++ [u]) =
      insertVersion (versionsAfter env t space us) u.worker.TTS u.worker.command_id
        (((env.descriptorSize u.descriptor + diffLength u.descriptor) % U16
          + env.sizeofChainedTupleVersion) % U16)
        (updateVersion u.worker (tupleAfter env t us) u.descriptor) := by
  induction us generalizing t space with
  | nil => rfl
  | cons v us ih => simp [versionsAfter, tupleAfter, ih]

theorem tupleAfter_payload (env : Env) (t : Tuple) (us : List UpdateCall) :
    (tupleAfter env t us).payload = valueAfter t.payload us := by
  induction us generalizing t with
  | nil => rfl
  | cons u us ih => simp [tupleAfter, valueAfter, ih]

theorem tupleAfter_is_removed (env : Env) (t : Tuple) (us : List UpdateCall) :
    (tupleAfter env t us).is_removed = t.is_removed := by
  induction us generalizing t with
  | nil => rfl
  | cons u us ih => simp [tupleAfter, ih]

/-- The writer identity of the primary after a non-empty history is the
identity of one of its updates (the last one). -/
theorem tupleAfter_writer (env : Env) (t : Tuple) (us : List UpdateCall) (hne : us ≠ []) :
    ∃ u ∈ us, (tupleAfter env t us).worker_id = u.worker.workerID ∧
      (tupleAfter env t us).tx_id = u.worker.TTS := by
  induction us using List.reverseRecOn with
  | nil => exact absurd rfl hne
  | append_singleton us u _ =>
    refine ⟨u, by simp, ?_, ?_⟩ <;> simp [tupleAfter_append]

theorem mutatorsInside_append (v : List Nat) (us vs : List UpdateCall) :
    mutatorsInside v (us ++ vs) ↔ mutatorsInside v us ∧ mutatorsInside (valueAfter v us) vs := by
  induction us generalizing v with
  | nil => simp [mutatorsInside, valueAfter]
  | cons u us ih => simp [mutatorsInside, valueAfter, ih, and_assoc]

theorem retrieveVersion_insertVersion_ne (space : List VersionEntry)
    (tx_id command_id size : Nat) (version : ChainedTupleVersion) (tx cmd : Nat)
    (hne : (tx_id, command_id) ≠ (tx, cmd)) :
    retrieveVersion (insertVersion space tx_id command_id size version) tx cmd
      = retrieveVersion space tx cmd := by
  have : ¬ (tx_id = tx ∧ command_id = cmd) := fun h => hne (by rw [h.1, h.2])
  simp [retrieveVersion, insertVersion, this]

/-- One round of the reconstruction loop on the version an update wrote: the
materialized value goes back to the payload before the update, and the loop
either stops at the superseded writer (visible) or goes on from it. -/
theorem reconstructLoop_step (env : Env) (reader : Visibility) (S : List VersionEntry)
    (fuel c size w_id : Nat) (u : UpdateCall) (prev : Tuple)
    (hret : retrieveVersion S u.worker.TTS u.worker.command_id
      = some ⟨u.worker.TTS, u.worker.command_id, size, updateVersion u.worker prev u.descriptor⟩)
    (hin : slicesInside u.descriptor prev.payload.length)
    (hcb : writesOnlyInside u.callback u.descriptor prev.payload) :
    reconstructLoop env reader S (fuel + 1) (runCallback u.callback prev.payload) w_id
        u.worker.TTS u.worker.command_id c =
      if reader prev.worker_id prev.tx_id false then
        Exec.ret (OP_RESULT.OK, c, some prev.payload)
      else if (c + 1) % U16 ≤ env.FLAGS_vi_max_chain_length then
        reconstructLoop env reader S fuel prev.payload prev.worker_id prev.tx_id prev.command_id
          ((c + 1) % U16)
      else Exec.ensure_failed := by
  have hdiff : applyDiff u.descriptor (runCallback u.callback prev.payload)
      (generateDiff u.descriptor prev.payload) = prev.payload :=
    applyDiff_generateDiff u.descriptor prev.payload _ hin (runCallback_length _ _) hcb
  simp only [reconstructLoop, hret, updateVersion, ChainedTupleVersion.new, if_true, hdiff]
  simp

/-- The reconstruction loop, started at the primary a history of versioned
updates left, with all of these updates invisible to the reader and the primary
before them visible: it needs exactly one round per update, and then returns OK
with the payload before the history; the chain length grows by one per round
after the first, as a u16. -/
theorem reconstructLoop_walk (env : Env) (reader : Visibility) (t : Tuple)
    (space : List VersionEntry) (us : List UpdateCall) (hne : us ≠ []) :
    ∀ (S : List VersionEntry) (fuel c : Nat),
      (∀ u ∈ us, retrieveVersion S u.worker.TTS u.worker.command_id
        = retrieveVersion (versionsAfter env t space us) u.worker.TTS u.worker.command_id) →
      (us.map versionKey).Nodup →
      (∀ u ∈ us, reader u.worker.workerID u.worker.TTS false = false) →
      reader t.worker_id t.tx_id false = true →
      mutatorsInside t.payload us →
      c < U16 →
      c + us.length - 1 ≤ env.FLAGS_vi_max_chain_length →
      reconstructLoop env reader S fuel (tupleAfter env t us).payload
          (tupleAfter env t us).worker_id (tupleAfter env t us).tx_id
          (tupleAfter env t us).command_id c =
        if us.length ≤ fuel then
          Exec.ret (OP_RESULT.OK, (c + us.length - 1) % U16, some t.payload)
        else Exec.out_of_fuel := by
  induction us using List.reverseRecOn with
  | nil => exact absurd rfl hne
  | append_singleton us u ih =>
    intro S fuel c hS hnd hinv hvis hmut hc hmax
    cases fuel with
    | zero => simp [reconstructLoop]
    | succ f =>
      have hmut2 := (mutatorsInside_append t.payload us [u]).mp hmut
      have hmu : slicesInside u.descriptor (tupleAfter env t us).payload.length ∧
          writesOnlyInside u.callback u.descriptor (tupleAfter env t us).payload := by
        rw [tupleAfter_payload]
        exact ⟨hmut2.2.1, hmut2.2.2.1⟩
      have hret := hS u (by simp)
      rw [versionsAfter_append, retrieveVersion_insertVersion] at hret
      rw [tupleAfter_append]
      simp only [updatedPrimary_payload, updatedPrimary_worker_id, updatedPrimary_tx_id,
        updatedPrimary_command_id]
      rw [reconstructLoop_step env reader S f c _ _ u (tupleAfter env t us) hret hmu.1 hmu.2]
      by_cases hus : us = []
      · subst hus
        have hcm : c % U16 = c := Nat.mod_eq_of_lt hc
        simp [tupleAfter, hvis, hcm]
      · obtain ⟨v, hv, hw1, hw2⟩ := tupleAfter_writer env t us hus
        have hinvis : reader (tupleAfter env t us).worker_id (tupleAfter env t us).tx_id false
            = false := by
          rw [hw1, hw2]
          exact hinv v (by simp [hv])
        have hlen : (us ++ [u]).length = us.length + 1 := by simp
        have hpos : 0 < us.length := List.length_pos.mpr hus
        rw [hlen] at hmax
        have hmodle : (c + 1) % U16 ≤ c + 1 := Nat.mod_le _ _
        have hnd2 : (us.map versionKey).Nodup ∧ versionKey u ∉ us.map versionKey := by
          rw [List.map_append, List.nodup_append] at hnd
          refine ⟨hnd.1, fun hmem => ?_⟩
          exact hnd.2.2 hmem (by simp)
        have hS2 : ∀ x ∈ us, retrieveVersion S x.worker.TTS x.worker.command_id
            = retrieveVersion (versionsAfter env t space us) x.worker.TTS
              x.worker.command_id := by
          intro x hx
          rw [hS x (by simp [hx]), versionsAfter_append, retrieveVersion_insertVersion_ne]
          intro heq
          exact hnd2.2 (List.mem_map.mpr ⟨x, hx, heq.symm⟩)
        rw [hinvis]
        simp only [Bool.false_eq_true, if_false]
        rw [if_pos (by omega)]
        rw [ih hus S f ((c + 1) % U16) hS2 hnd2.1 (fun x hx => hinv x (by simp [hx])) hvis
          hmut2.1 (Nat.mod_lt _ (by decide)) (by omega)]
        have hval : ((c + 1) % U16 + us.length - 1) % U16 = (c + (us.length + 1) - 1) % U16 := by
          unfold U16
          omega
        simp only [hlen, hval, Nat.add_le_add_iff_right]

theorem valueAfter_append (v : List Nat) (us vs : List UpdateCall) :
    valueAfter v (us ++ vs) = valueAfter (valueAfter v us) vs := by
  induction us generalizing v with
  | nil => rfl
  | cons u us ih => simp [valueAfter, ih]

theorem tupleAfter_tuple_format (env : Env) (t : Tuple) (us : List UpdateCall) :
    (tupleAfter env t us).tuple_format = t.tuple_format := by
  induction us generalizing t with
  | nil => rfl
  | cons u us ih => simp [tupleAfter, ih]

/-- A history of successful updates of a Chained key leaves the key in its slot
with the primary `tupleAfter`, whether or not the updates were versioned. -/
theorem runUpdates_leaves_tuple {env : Env} {key : List Nat} {us : List UpdateCall}
    {st stN : State} {cur : Nat} {slot : Slot}
    (hseek : seekExact st.leaf.slots key = some (cur, slot))
    (hfmt : slot.tuple.tuple_format = TupleFormat.CHAINED)
    (hrun : runUpdates env key st us = some stN) :
    seekExact stN.leaf.slots key = some (cur, ⟨slot.key, tupleAfter env slot.tuple us⟩) := by
  induction us generalizing st slot with
  | nil =>
    simp only [runUpdates, Option.some.injEq] at hrun
    subst hrun
    exact hseek
  | cons u us ih =>
    obtain ⟨w', st', hu, hrest⟩ := runUpdates_cons_some hrun
    obtain ⟨_, _, _, hslots, _⟩ := updateChained_ret (updateSameSizeInPlace_ok hseek hfmt hu)
    have hseek' : seekExact st'.leaf.slots key = some (cur, ⟨slot.key,
        updatedPrimary env u.worker slot.tuple u.worker.command_id
          (runCallback u.callback slot.tuple.payload)⟩) := by
      rw [hslots]
      exact seekExact_setTuple hseek _
    exact ih hseek' (by simpa using hfmt) hrest

/-- Reconstruction after a history of versioned updates that are all invisible
to a reader who sees the primary before them: the primary of the key holds the
value after the history; the reader gets the value before the history, after
exactly one fetched version per update, with the u16 chain length. -/
theorem reconstruct_after_history (env : Env) (reader : Visibility) (key : List Nat)
    (st stN : State) (cur : Nat) (slot : Slot) (us : List UpdateCall)
    (hseek : seekExact st.leaf.slots key = some (cur, slot))
    (hfmt : slot.tuple.tuple_format = TupleFormat.CHAINED)
    (hlive : slot.tuple.is_removed = false)
    (hver : ∀ u ∈ us, update_without_versioning env u.worker = false)
    (hrun : runUpdates env key st us = some stN)
    (hmut : mutatorsInside slot.tuple.payload us)
    (hnd : (us.map versionKey).Nodup)
    (hinv : ∀ u ∈ us, reader u.worker.workerID u.worker.TTS false = false)
    (hvis : reader slot.tuple.worker_id slot.tuple.tx_id false = true)
    (hmax : us.length ≤ env.FLAGS_vi_max_chain_length) :
    seekExact stN.leaf.slots key = some (cur, ⟨slot.key, tupleAfter env slot.tuple us⟩) ∧
      (us = [] → ∀ fuel, reconstructChainedTuple env reader stN.versions_space fuel
          (tupleAfter env slot.tuple us) = Exec.ret (OP_RESULT.OK, 1, some slot.tuple.payload)) ∧
      (us ≠ [] → env.isFinal (tupleAfter env slot.tuple us) = false →
        ∀ fuel, reconstructChainedTuple env reader stN.versions_space fuel
            (tupleAfter env slot.tuple us) =
          if us.length ≤ fuel then
            Exec.ret (OP_RESULT.OK, us.length % U16, some slot.tuple.payload)
          else Exec.out_of_fuel) := by
  obtain ⟨hseekN, hvsN⟩ := runUpdates_leaves hseek hfmt hver hrun
  refine ⟨hseekN, ?_, ?_⟩
  · intro hus fuel
    subst hus
    simp [reconstructChainedTuple, tupleAfter, hvis, hlive]
  · intro hus hfinal fuel
    obtain ⟨v, hv, hw1, hw2⟩ := tupleAfter_writer env slot.tuple us hus
    have hinvis : reader (tupleAfter env slot.tuple us).worker_id
        (tupleAfter env slot.tuple us).tx_id false = false := by
      rw [hw1, hw2]
      exact hinv v hv
    have hpos : 0 < us.length := List.length_pos.mpr hus
    have hwalk := reconstructLoop_walk env reader slot.tuple st.versions_space us hus
      stN.versions_space fuel 1 (fun u _ => by rw [hvsN]) hnd hinv hvis hmut (by decide)
      (by omega)
    have h1 : 1 + us.length - 1 = us.length := by omega
    rw [h1] at hwalk
    simp only [reconstructChainedTuple, hinvis, hfinal, Bool.false_eq_true, if_false]
    exact hwalk

/-- C5 (amended). For every key inserted with value `v0` and then updated N
times (N ≤ max_chain_length), each mutator writing only inside the slices of
its descriptor, for a reader to whom exactly the insert and the first i updates
(`seen`) are visible and the N - i later ones (`unseen`, versioning not elided,
version keys pairwise distinct, fewer than 2^16 of them) are not:
`reconstructChainedTuple` on the primary of the key returns OK with the value
as it was after the i-th update. For i = N it returns chain length 1. For
i < N (the primary not being final) it needs exactly N - i rounds of its loop,
one fetched version and one applied diff each, and returns chain length N - i;
so for i = 0 it fetches N versions, applies N diffs and returns chain length N
together with `v0`. -/
theorem reconstruct_after_insert_and_updates (env : Env) (reader vis0 : Visibility)
    (splits : Nat) (w0 : Worker) (st0 : State) (key v0 : List Nat) (w1 : Worker) (st1 : State)
    (seen unseen : List UpdateCall) (stN : State)
    (habsent : seekExact st0.leaf.slots key = none)
    (hins : insert env vis0 splits w0 st0 key v0 = Exec.ret (OP_RESULT.OK, w1, st1))
    (hrun : runUpdates env key st1 (seen ++ unseen) = some stN)
    (hver : ∀ u ∈ unseen, update_without_versioning env u.worker = false)
    (hmut : mutatorsInside v0 (seen ++ unseen))
    (hnd : (unseen.map versionKey).Nodup)
    (hvis0 : reader w0.workerID w0.TTS false = true)
    (hseen : ∀ u ∈ seen, reader u.worker.workerID u.worker.TTS false = true)
    (hunseen : ∀ u ∈ unseen, reader u.worker.workerID u.worker.TTS false = false)
    (hmax : (seen ++ unseen).length ≤ env.FLAGS_vi_max_chain_length)
    (hu16 : unseen.length < U16) :
    ∃ cur slotN, seekExact stN.leaf.slots key = some (cur, slotN) ∧
      slotN.tuple.payload = valueAfter v0 (seen ++ unseen) ∧
      (unseen = [] → ∀ fuel, reconstructChainedTuple env reader stN.versions_space fuel
          slotN.tuple = Exec.ret (OP_RESULT.OK, 1, some (valueAfter v0 seen))) ∧
      (unseen ≠ [] → env.isFinal slotN.tuple = false →
        (∀ fuel, unseen.length ≤ fuel →
          reconstructChainedTuple env reader stN.versions_space fuel slotN.tuple
            = Exec.ret (OP_RESULT.OK, unseen.length, some (valueAfter v0 seen))) ∧
        (∀ fuel, fuel < unseen.length →
          reconstructChainedTuple env reader stN.versions_space fuel slotN.tuple
            = Exec.out_of_fuel)) := by
  obtain ⟨_, _, hst1⟩ := insert_absent_ret habsent hins
  have hseek1 : seekExact st1.leaf.slots key = some ((st0.leaf.slots.take
      (lowerBound st0.leaf.slots key)).length, ⟨key, ChainedTuple w0.workerID w0.TTS v0⟩) := by
    rw [hst1]
    exact seekExact_insertInCurrentNode _ _ _ _ habsent rfl
  obtain ⟨stM, hrunS, hrunU⟩ := runUpdates_append hrun
  have hseekM := runUpdates_leaves_tuple hseek1 rfl hrunS
  have hmut2 := (mutatorsInside_append v0 seen unseen).mp hmut
  have hvisM : reader (tupleAfter env (ChainedTuple w0.workerID w0.TTS v0) seen).worker_id
      (tupleAfter env (ChainedTuple w0.workerID w0.TTS v0) seen).tx_id false = true := by
    by_cases hs : seen = []
    · subst hs
      exact hvis0
    · obtain ⟨v, hv, hw1, hw2⟩ := tupleAfter_writer env (ChainedTuple w0.workerID w0.TTS v0)
        seen hs
      rw [hw1, hw2]
      exact hseen v hv
  have hpayM : (tupleAfter env (ChainedTuple w0.workerID w0.TTS v0) seen).payload
      = valueAfter v0 seen := tupleAfter_payload env _ seen
  have hG := reconstruct_after_history env reader key stM stN _ _ unseen hseekM
    (by rw [tupleAfter_tuple_format]; rfl) (by rw [tupleAfter_is_removed]; rfl) hver hrunU
    (by rw [hpayM]; exact hmut2.2) hnd hunseen hvisM
    (by rw [List.length_append] at hmax; omega)
  simp only [hpayM] at hG
  refine ⟨_, _, hG.1, ?_, hG.2.1, ?_⟩
  · show (tupleAfter env (tupleAfter env (ChainedTuple w0.workerID w0.TTS v0) seen)
      unseen).payload = valueAfter v0 (seen ++ unseen)
    rw [tupleAfter_payload, hpayM, valueAfter_append]
  · intro hus hfinal
    have hwalk := hG.2.2 hus hfinal
    have hmod : unseen.length % U16 = unseen.length := Nat.mod_eq_of_lt hu16
    constructor
    · intro fuel hf
      rw [hwalk fuel, if_pos hf, hmod]
    · intro fuel hf
      rw [hwalk fuel, if_neg (by omega)]

theorem exampleCalls_mutatorsInside : mutatorsInside [1, 2] [exampleCall1, exampleCall2] := by
  refine ⟨?_, exampleMutator_writesOnlyInside, ?_, ?_, trivial⟩
  · simp [slicesInside, exampleCall1, exampleDescriptor]
  · simp [slicesInside, exampleCall2, exampleCall1, runCallback_length]
  · intro p hp
    match p with
    | 0 => exact absurd ⟨⟨0, 1⟩, by simp [exampleCall2], by simp [UpdateSlot.covers]⟩ hp
    | n + 1 => rfl

/-- Witness of the amended C5: key [4, 0] is inserted with [1, 2] by
transaction 3 and updated by transactions 7 and 9; a reader with snapshot 3
sees the insert only, needs two rounds and gets [1, 2] with chain length 2. -/
theorem reconstruct_after_insert_and_updates_witness :
    ∃ cur slotN, seekExact exampleHistoryState.leaf.slots [4, 0] = some (cur, slotN) ∧
      slotN.tuple.payload = [5, 9] ∧
      reconstructChainedTuple exampleEnv (visUpTo 3) exampleHistoryState.versions_space 2
        slotN.tuple = Exec.ret (OP_RESULT.OK, 2, some [1, 2]) ∧
      reconstructChainedTuple exampleEnv (visUpTo 3) exampleHistoryState.versions_space 1
        slotN.tuple = Exec.out_of_fuel := by
  obtain ⟨cur, slotN, hs, hp, _, h2⟩ := reconstruct_after_insert_and_updates exampleEnv
    (visUpTo 3) visAll 0 exampleWorker0 exampleState [4, 0] [1, 2]
    (workerAfter (historyInsert exampleEnv) exampleWorker0)
    (stateAfter (historyInsert exampleEnv) exampleState) [] [exampleCall1, exampleCall2]
    exampleHistoryState (by decide) (by decide) (by decide) (by decide)
    exampleCalls_mutatorsInside (by decide) (by decide) (by decide) (by decide) (by decide)
    (by decide)
  have hc : seekExact exampleHistoryState.leaf.slots [4, 0]
      = some (0, ⟨[4, 0], tupleAfter exampleEnv (ChainedTuple 0 3 [1, 2])
        [exampleCall1, exampleCall2]⟩) := by decide
  rw [hc] at hs
  simp only [Option.some.injEq, Prod.mk.injEq] at hs
  obtain ⟨hs1, hs2⟩ := hs
  subst hs1 hs2
  have h3 := h2 (by simp) (by decide)
  exact ⟨_, _, hc, by decide, h3.1 2 (by decide), h3.2 1 (by decide)⟩

/-! ### The chain length is a u16 -/

theorem tupleAfter_command_id_append (env : Env) (t : Tuple) (us : List UpdateCall)
    (u : UpdateCall) : (tupleAfter env t (us ++ [u])).command_id = u.worker.command_id := by
  rw [tupleAfter_append]
  simp

/-- An update of an existing, unlocked Chained key by a non-serializable writer
to whom every writer is visible returns OK when the u16 sizes do not wrap. -/
theorem updateSameSizeInPlace_progress (env : Env) (key : List Nat) (u : UpdateCall) (st : State)
    (cur : Nat) (slot : Slot)
    (hseek : seekExact st.leaf.slots key = some (cur, slot))
    (hfmt : slot.tuple.tuple_format = TupleFormat.CHAINED)
    (hlock : slot.tuple.write_locked = false)
    (hvis : ∀ a b, u.vis a b true = true)
    (hser : u.worker.isSerializable = false)
    (hsize : env.descriptorSize u.descriptor + diffLength u.descriptor
      + env.sizeofChainedTupleVersion < U16) :
    ∃ w' st', updateSameSizeInPlace env u.vis u.worker st key u.callback u.descriptor
      = Exec.ret (OP_RESULT.OK, w', st') := by
  rw [updateSameSizeInPlace_chained u.callback u.descriptor hseek hfmt]
  have h1 : writeConflict u.vis slot.tuple = false := by simp [writeConflict, hlock, hvis]
  have h2 : ssiConflict env u.worker slot.tuple = false := by simp [ssiConflict, hser]
  have hm1 : (env.descriptorSize u.descriptor + diffLength u.descriptor) % U16
      = env.descriptorSize u.descriptor + diffLength u.descriptor :=
    Nat.mod_eq_of_lt (by omega)
  have hm2 : (env.descriptorSize u.descriptor + diffLength u.descriptor
      + env.sizeofChainedTupleVersion) % U16
      = env.descriptorSize u.descriptor + diffLength u.descriptor
        + env.sizeofChainedTupleVersion := Nat.mod_eq_of_lt hsize
  simp only [h1, h2, Bool.false_eq_true, if_false, updateChained, hm1, hm2]
  rw [if_neg (by omega), if_neg (by omega)]
  exact ⟨_, _, rfl⟩

/-- A history of such updates runs through. -/
theorem runUpdates_progress (env : Env) (key : List Nat) (us : List UpdateCall) :
    ∀ (st : State) (cur : Nat) (slot : Slot),
      seekExact st.leaf.slots key = some (cur, slot) →
      slot.tuple.tuple_format = TupleFormat.CHAINED →
      slot.tuple.write_locked = false →
      (∀ u ∈ us, (∀ a b, u.vis a b true = true) ∧ u.worker.isSerializable = false ∧
        env.descriptorSize u.descriptor + diffLength u.descriptor
          + env.sizeofChainedTupleVersion < U16) →
      ∃ stN, runUpdates env key st us = some stN := by
  induction us with
  | nil => exact fun st _ _ _ _ _ _ => ⟨st, rfl⟩
  | cons u us ih =>
    intro st cur slot hseek hfmt hlock hall
    obtain ⟨hv, hs, hz⟩ := hall u (List.mem_cons_self _ _)
    obtain ⟨w', st', hu⟩ := updateSameSizeInPlace_progress env key u st cur slot hseek hfmt
      hlock hv hs hz
    obtain ⟨_, _, _, hslots, _⟩ := updateChained_ret (updateSameSizeInPlace_ok hseek hfmt hu)
    have hseek' : seekExact st'.leaf.slots key = some (cur, ⟨slot.key,
        updatedPrimary env u.worker slot.tuple u.worker.command_id
          (runCallback u.callback slot.tuple.payload)⟩) := by
      rw [hslots]
      exact seekExact_setTuple hseek _
    obtain ⟨stN, hN⟩ := ih st' cur _ hseek' (by simpa using hfmt) (by simp)
      (fun v hv => hall v (List.mem_cons_of_mem _ hv))
    exact ⟨stN, by simp only [runUpdates, hu]; exact hN⟩

/-- Mutators that write nothing, with empty descriptors, write only inside
their slices. -/
theorem mutatorsInside_of_idle (v : List Nat) (us : List UpdateCall)
    (h : ∀ u ∈ us, u.descriptor = [] ∧ ∀ x, u.callback x = x) : mutatorsInside v us := by
  induction us generalizing v with
  | nil => trivial
  | cons u us ih =>
    obtain ⟨hd, hc⟩ := h u (List.mem_cons_self _ _)
    have hrun : runCallback u.callback v = v := by
      rw [runCallback, hc v, memcpyAt_zero_full v v rfl]
    refine ⟨?_, ?_, ?_⟩
    · rw [hd]
      exact fun s hs => absurd hs (List.not_mem_nil s)
    · intro p _
      rw [hrun]
    · rw [hrun]
      exact ih v (fun x hx => h x (List.mem_cons_of_mem _ hx))

theorem longHistory_eq : longHistory = (List.range 65536).map longCall := rfl

attribute [irreducible] longHistory

theorem longHistory_mem {u : UpdateCall} (h : u ∈ longHistory) :
    ∃ i, i < 65536 ∧ u = longCall i := by
  rw [longHistory_eq, List.mem_map] at h
  obtain ⟨i, hi, rfl⟩ := h
  exact ⟨i, List.mem_range.mp hi, rfl⟩

theorem longHistory_keys_nodup : (longHistory.map versionKey).Nodup := by
  rw [longHistory_eq, List.map_map]
  apply List.Nodup.map _ (List.nodup_range _)
  intro a b hab
  simp only [Function.comp, versionKey, longCall, Prod.mk.injEq, true_and] at hab
  omega

/-- C5 as stated fails on a history of N = 65536 updates under a chain limit of
65536: key [4, 0] is inserted with [1, 2] by transaction 3 and updated 65536
times by transaction 7 (versioning not elided, every mutator inside its
descriptor, every update OK); for the reader with snapshot 3, to whom exactly
the insert is visible, `reconstructChainedTuple` returns OK with [1, 2] and the
chain length 0, not N: the u16 `chain_length` wrapped around. -/
theorem reconstruct_chain_length_wraps_counterexample :
    seekExact exampleState.leaf.slots [4, 0] = none ∧
    longHistory.length = 65536 ∧
    longHistory.length ≤ longEnv.FLAGS_vi_max_chain_length ∧
    (∀ u ∈ longHistory, update_without_versioning longEnv u.worker = false) ∧
    mutatorsInside [1, 2] longHistory ∧
    visUpTo 3 exampleWorker0.workerID exampleWorker0.TTS false = true ∧
    (∀ u ∈ longHistory, visUpTo 3 u.worker.workerID u.worker.TTS false = false) ∧
    ∃ w1 st1 stN cur slotN,
      historyInsert longEnv = Exec.ret (OP_RESULT.OK, w1, st1) ∧
      runUpdates longEnv [4, 0] st1 longHistory = some stN ∧
      seekExact stN.leaf.slots [4, 0] = some (cur, slotN) ∧
      ∀ fuel, 65536 ≤ fuel →
        reconstructChainedTuple longEnv (visUpTo 3) stN.versions_space fuel slotN.tuple
          = Exec.ret (OP_RESULT.OK, 0, some [1, 2]) := by
  have hlen : longHistory.length = 65536 := by
    rw [longHistory_eq, List.length_map, List.length_range]
  have hver : ∀ u ∈ longHistory, update_without_versioning longEnv u.worker = false := by
    intro u hu
    obtain ⟨i, _, rfl⟩ := longHistory_mem hu
    rfl
  have hidle : ∀ u ∈ longHistory, u.descriptor = [] ∧ ∀ x, u.callback x = x := by
    intro u hu
    obtain ⟨i, _, rfl⟩ := longHistory_mem hu
    exact ⟨rfl, fun _ => rfl⟩
  have hmut := mutatorsInside_of_idle [1, 2] longHistory hidle
  have hinv : ∀ u ∈ longHistory, visUpTo 3 u.worker.workerID u.worker.TTS false = false := by
    intro u hu
    obtain ⟨i, _, rfl⟩ := longHistory_mem hu
    rfl
  have hins : historyInsert longEnv = Exec.ret (OP_RESULT.OK,
      workerAfter (historyInsert longEnv) exampleWorker0,
      stateAfter (historyInsert longEnv) exampleState) := by decide
  have hseek : seekExact (stateAfter (historyInsert longEnv) exampleState).leaf.slots [4, 0]
      = some (0, ⟨[4, 0], ChainedTuple 0 3 [1, 2]⟩) := by decide
  obtain ⟨stN, hrun⟩ := runUpdates_progress longEnv [4, 0] longHistory _ 0 _ hseek rfl rfl
    (by
      intro u hu
      obtain ⟨i, _, rfl⟩ := longHistory_mem hu
      exact ⟨fun _ _ => rfl, rfl, by simp [longEnv, exampleEnv, longCall, diffLength, U16]⟩)
  have hne : longHistory ≠ [] := by
    intro h
    rw [h] at hlen
    simp at hlen
  have hG := reconstruct_after_history longEnv (visUpTo 3) [4, 0] _ stN 0 _ longHistory hseek
    rfl rfl hver hrun hmut longHistory_keys_nodup hinv rfl (by rw [hlen]; exact Nat.le_refl _)
  have hsplit : longHistory = (List.range 65535).map longCall ++ [longCall 65535] := by
    rw [longHistory_eq, show (65536 : Nat) = 65535 + 1 from rfl, List.range_succ,
      List.map_append]
    rfl
  have hfinal : longEnv.isFinal (tupleAfter longEnv (ChainedTuple 0 3 [1, 2]) longHistory)
      = false := by
    have hcmd : (tupleAfter longEnv (ChainedTuple 0 3 [1, 2]) longHistory).command_id
        = 65536 := by
      rw [hsplit, tupleAfter_command_id_append]
      rfl
    show decide ((tupleAfter longEnv (ChainedTuple 0 3 [1, 2]) longHistory).command_id = 0)
      = false
    rw [hcmd]
    decide
  refine ⟨by decide, hlen, by rw [hlen]; exact Nat.le_refl _, hver, hmut, rfl, hinv, _, _, stN,
    0, _, hins, hrun, hG.1, ?_⟩
  intro fuel hf
  have hw := hG.2.2 hne hfinal fuel
  rw [hlen, if_pos hf] at hw
  exact hw

/-! ## C11: the chain length limit -/

/-- The loop of the reconstruction never returns a chain length above the
limit when it starts with one that is not above it. -/
theorem reconstructLoop_chain_le (env : Env) (vis : Visibility) (S : List VersionEntry)
    (fuel : Nat) :
    ∀ (mv : List Nat) (w_id tx cmd c : Nat) (r : OP_RESULT) (c' : Nat) (v : Option (List Nat)),
      reconstructLoop env vis S fuel mv w_id tx cmd c = Exec.ret (r, c', v) →
      c ≤ env.FLAGS_vi_max_chain_length → c' ≤ env.FLAGS_vi_max_chain_length := by
  induction fuel with
  | zero =>
    intro mv w_id tx cmd c r c' v h
    simp [reconstructLoop] at h
  | succ f ih =>
    intro mv w_id tx cmd c r c' v h hc
    simp only [reconstructLoop] at h
    split at h
    · simp only [Exec.ret.injEq, Prod.mk.injEq] at h
      omega
    · split at h
      · split at h <;>
        · simp only [Exec.ret.injEq, Prod.mk.injEq] at h
          omega
      · split at h
        · rename_i hle
          exact ih _ _ _ _ _ r c' v h hle
        · simp at h

/-- The loop of the reconstruction, started with `k` more invisible versions
ahead than the limit leaves room for, fails at the `ensure` after exactly `k`
fetched versions. -/
theorem reconstructLoop_exceeds (env : Env) (vis : Visibility) (S : List VersionEntry) (k : Nat) :
    ∀ (fuel : Nat) (mv : List Nat) (w_id tx cmd c : Nat),
      needsMoreThan vis S (k + 1) tx cmd = true →
      c + k = env.FLAGS_vi_max_chain_length →
      env.FLAGS_vi_max_chain_length + 1 < U16 →
      reconstructLoop env vis S fuel mv w_id tx cmd c =
        if k + 1 ≤ fuel then Exec.ensure_failed else Exec.out_of_fuel := by
  induction k with
  | zero =>
    intro fuel mv w_id tx cmd c hneed hck hmax
    cases fuel with
    | zero => simp [reconstructLoop]
    | succ f =>
      simp only [needsMoreThan] at hneed
      cases hret : retrieveVersion S tx cmd with
      | none => simp [hret] at hneed
      | some e =>
        simp only [hret, Bool.and_true, Bool.not_eq_true'] at hneed
        have hmod : (c + 1) % U16 = c + 1 := Nat.mod_eq_of_lt (by omega)
        simp only [reconstructLoop, hret, hneed, hmod, Bool.false_eq_true, if_false]
        rw [if_neg (by omega)]
        simp
  | succ k ih =>
    intro fuel mv w_id tx cmd c hneed hck hmax
    cases fuel with
    | zero => simp [reconstructLoop]
    | succ f =>
      rw [needsMoreThan] at hneed
      cases hret : retrieveVersion S tx cmd with
      | none => simp [hret] at hneed
      | some e =>
        simp only [hret, Bool.and_eq_true, Bool.not_eq_true'] at hneed
        have hmod : (c + 1) % U16 = c + 1 := Nat.mod_eq_of_lt (by omega)
        simp only [reconstructLoop, hret, hneed.1, hmod, Bool.false_eq_true, if_false]
        rw [if_pos (by omega), ih f _ _ _ _ (c + 1) hneed.2 (by omega) hmax]
        simp only [Nat.add_le_add_iff_right]

/-- C11 (amended). For every primary, versions-store content, visibility oracle
and max_chain_length ≥ 1: every execution of `reconstructChainedTuple` that
returns a result returns a chain length ≤ max_chain_length. When in addition
max_chain_length + 1 < 2^16 (the chain length is a u16), a reader to whom the
head is not visible (and not final) and who would have to fetch more than
max_chain_length versions to reach a visible one never gets a result: after
max_chain_length fetched versions the `ensure` fails. -/
theorem reconstruct_chain_length_limit (env : Env) (vis : Visibility) (S : List VersionEntry)
    (tuple : Tuple) (hmax : 1 ≤ env.FLAGS_vi_max_chain_length) :
    (∀ fuel r c v, reconstructChainedTuple env vis S fuel tuple = Exec.ret (r, c, v) →
      c ≤ env.FLAGS_vi_max_chain_length) ∧
    (env.FLAGS_vi_max_chain_length + 1 < U16 →
      vis tuple.worker_id tuple.tx_id false = false → env.isFinal tuple = false →
      needsMoreThan vis S env.FLAGS_vi_max_chain_length tuple.tx_id tuple.command_id = true →
      (∀ fuel res, reconstructChainedTuple env vis S fuel tuple ≠ Exec.ret res) ∧
      (∀ fuel, env.FLAGS_vi_max_chain_length ≤ fuel →
        reconstructChainedTuple env vis S fuel tuple = Exec.ensure_failed)) := by
  constructor
  · intro fuel r c v h
    unfold reconstructChainedTuple at h
    split at h
    · split at h <;>
      · simp only [Exec.ret.injEq, Prod.mk.injEq] at h
        omega
    · split at h
      · simp only [Exec.ret.injEq, Prod.mk.injEq] at h
        omega
      · exact reconstructLoop_chain_le env vis S fuel _ _ _ _ _ r c v h hmax
  · intro hu16 hinv hfinal hneed
    obtain ⟨k, hk⟩ : ∃ k, env.FLAGS_vi_max_chain_length = k + 1 := ⟨_, (Nat.succ_pred_eq_of_pos hmax).symm⟩
    have hloop : ∀ fuel, reconstructChainedTuple env vis S fuel tuple =
        if k + 1 ≤ fuel then Exec.ensure_failed else Exec.out_of_fuel := by
      intro fuel
      rw [hk] at hneed
      simp only [reconstructChainedTuple, hinv, hfinal, Bool.false_eq_true, if_false]
      exact reconstructLoop_exceeds env vis S k fuel _ _ _ _ 1 hneed (by omega) hu16
    constructor
    · intro fuel res h
      rw [hloop fuel] at h
      split at h <;> simp at h
    · intro fuel hf
      rw [hloop fuel, if_pos (by omega)]

/-- Witness of the amended C11: under a chain limit of 1, the reader with
snapshot 3 would have to fetch two versions of key [4, 0] (written by
transactions 9 and 7); the head is not visible, one more version is ahead than
the limit allows, and the reconstruction fails at the `ensure`. -/
theorem reconstruct_chain_length_limit_witness :
    1 ≤ oneLimitEnv.FLAGS_vi_max_chain_length ∧
    seekExact exampleHistoryState.leaf.slots [4, 0] = some (0, ⟨[4, 0], exampleHistoryPrimary⟩) ∧
    (∀ fuel r c v, reconstructChainedTuple oneLimitEnv (visUpTo 3)
        exampleHistoryState.versions_space fuel exampleHistoryPrimary = Exec.ret (r, c, v) →
      c ≤ oneLimitEnv.FLAGS_vi_max_chain_length) ∧
    needsMoreThan (visUpTo 3) exampleHistoryState.versions_space 1 exampleHistoryPrimary.tx_id
      exampleHistoryPrimary.command_id = true ∧
    reconstructChainedTuple oneLimitEnv (visUpTo 3) exampleHistoryState.versions_space 1
      exampleHistoryPrimary = Exec.ensure_failed :=
  have h := reconstruct_chain_length_limit oneLimitEnv (visUpTo 3)
    exampleHistoryState.versions_space exampleHistoryPrimary (by decide)
  ⟨by decide, by decide, h.1, by decide,
    (h.2 (by decide) (by decide) (by decide) (by decide)).2 1 (by decide)⟩

/-- C11 as stated fails under a chain limit of 0. Key [4, 0] is inserted with
[1, 2] by transaction 3 and updated by transactions 7 and 9. The reader to whom
everything is visible gets the head with chain length 1, which is above the
limit. The reader with snapshot 7 would have to fetch N = 1 > 0 versions, and
gets its result ([1, 9], chain length 1) instead of a fatal failure. -/
theorem reconstruct_zero_limit_counterexample :
    zeroLimitEnv.FLAGS_vi_max_chain_length = 0 ∧
    runUpdates zeroLimitEnv [4, 0] (stateAfter (historyInsert zeroLimitEnv) exampleState)
      [exampleCall1, exampleCall2] = some exampleHistoryState ∧
    seekExact exampleHistoryState.leaf.slots [4, 0] = some (0, ⟨[4, 0], exampleHistoryPrimary⟩) ∧
    reconstructChainedTuple zeroLimitEnv visAll exampleHistoryState.versions_space 0
      exampleHistoryPrimary = Exec.ret (OP_RESULT.OK, 1, some [5, 9]) ∧
    visUpTo 7 exampleHistoryPrimary.worker_id exampleHistoryPrimary.tx_id false = false ∧
    needsMoreThan (visUpTo 7) exampleHistoryState.versions_space 0 exampleHistoryPrimary.tx_id
      exampleHistoryPrimary.command_id = true ∧
    needsMoreThan (visUpTo 7) exampleHistoryState.versions_space 1 exampleHistoryPrimary.tx_id
      exampleHistoryPrimary.command_id = false ∧
    reconstructChainedTuple zeroLimitEnv (visUpTo 7) exampleHistoryState.versions_space 1
      exampleHistoryPrimary = Exec.ret (OP_RESULT.OK, 1, some [1, 9]) := by
  refine ⟨rfl, ?_, ?_, ?_, ?_, ?_, ?_, ?_⟩ <;> decide

/-- The walk of the reconstruction loop over a history of versioned updates
under a chain limit of at least 65535: the `ensure` can not fail, since every
u16 is within the limit, so the loop returns however long the history is. -/
theorem reconstructLoop_walk_wrapped (env : Env) (reader : Visibility) (t : Tuple)
    (space : List VersionEntry) (us : List UpdateCall) (hne : us ≠ []) :
    ∀ (S : List VersionEntry) (fuel c : Nat),
      (∀ u ∈ us, retrieveVersion S u.worker.TTS u.worker.command_id
        = retrieveVersion (versionsAfter env t space us) u.worker.TTS u.worker.command_id) →
      (us.map versionKey).Nodup →
      (∀ u ∈ us, reader u.worker.workerID u.worker.TTS false = false) →
      reader t.worker_id t.tx_id false = true →
      mutatorsInside t.payload us →
      c < U16 →
      U16 ≤ env.FLAGS_vi_max_chain_length + 1 →
      reconstructLoop env reader S fuel (tupleAfter env t us).payload
          (tupleAfter env t us).worker_id (tupleAfter env t us).tx_id
          (tupleAfter env t us).command_id c =
        if us.length ≤ fuel then
          Exec.ret (OP_RESULT.OK, (c + us.length - 1) % U16, some t.payload)
        else Exec.out_of_fuel := by
  induction us using List.reverseRecOn with
  | nil => exact absurd rfl hne
  | append_singleton us u ih =>
    intro S fuel c hS hnd hinv hvis hmut hc hmax
    cases fuel with
    | zero => simp [reconstructLoop]
    | succ f =>
      have hmut2 := (mutatorsInside_append t.payload us [u]).mp hmut
      have hmu : slicesInside u.descriptor (tupleAfter env t us).payload.length ∧
          writesOnlyInside u.callback u.descriptor (tupleAfter env t us).payload := by
        rw [tupleAfter_payload]
        exact ⟨hmut2.2.1, hmut2.2.2.1⟩
      have hret := hS u (by simp)
      rw [versionsAfter_append, retrieveVersion_insertVersion] at hret
      rw [tupleAfter_append]
      simp only [updatedPrimary_payload, updatedPrimary_worker_id, updatedPrimary_tx_id,
        updatedPrimary_command_id]
      rw [reconstructLoop_step env reader S f c _ _ u (tupleAfter env t us) hret hmu.1 hmu.2]
      by_cases hus : us = []
      · subst hus
        have hcm : c % U16 = c := Nat.mod_eq_of_lt hc
        simp [tupleAfter, hvis, hcm]
      · obtain ⟨v, hv, hw1, hw2⟩ := tupleAfter_writer env t us hus
        have hinvis : reader (tupleAfter env t us).worker_id (tupleAfter env t us).tx_id false
            = false := by
          rw [hw1, hw2]
          exact hinv v (by simp [hv])
        have hlen : (us ++ [u]).length = us.length + 1 := by simp
        have hpos : 0 < us.length := List.length_pos.mpr hus
        have hmodlt : (c + 1) % U16 < U16 := Nat.mod_lt _ (by decide)
        have hmodle : (c + 1) % U16 ≤ c + 1 := Nat.mod_le _ _
        have hnd2 : (us.map versionKey).Nodup ∧ versionKey u ∉ us.map versionKey := by
          rw [List.map_append, List.nodup_append] at hnd
          refine ⟨hnd.1, fun hmem => ?_⟩
          exact hnd.2.2 hmem (by simp)
        have hS2 : ∀ x ∈ us, retrieveVersion S x.worker.TTS x.worker.command_id
            = retrieveVersion (versionsAfter env t space us) x.worker.TTS
              x.worker.command_id := by
          intro x hx
          rw [hS x (by simp [hx]), versionsAfter_append, retrieveVersion_insertVersion_ne]
          intro heq
          exact hnd2.2 (List.mem_map.mpr ⟨x, hx, heq.symm⟩)
        rw [hinvis]
        simp only [Bool.false_eq_true, if_false]
        rw [if_pos (by omega)]
        rw [ih hus S f ((c + 1) % U16) hS2 hnd2.1 (fun x hx => hinv x (by simp [hx])) hvis
          hmut2.1 (Nat.mod_lt _ (by decide)) hmax]
        have hval : ((c + 1) % U16 + us.length - 1) % U16 = (c + (us.length + 1) - 1) % U16 := by
          unfold U16
          omega
        simp only [hlen, hval, Nat.add_le_add_iff_right]

/-- A reconstruction loop that is still running after `k` rounds has fetched
`k` versions and found none of their superseded writers visible. -/
theorem needsMoreThan_of_out_of_fuel (env : Env) (vis : Visibility) (S : List VersionEntry)
    (k : Nat) :
    ∀ (mv : List Nat) (w_id tx cmd c : Nat),
      reconstructLoop env vis S k mv w_id tx cmd c = Exec.out_of_fuel →
      needsMoreThan vis S k tx cmd = true := by
  induction k with
  | zero => exact fun _ _ _ _ _ _ => rfl
  | succ k ih =>
    intro mv w_id tx cmd c h
    simp only [reconstructLoop] at h
    rw [needsMoreThan]
    cases hret : retrieveVersion S tx cmd with
    | none => simp [hret] at h
    | some e =>
      simp only [hret] at h
      split at h
      · split at h <;> simp at h
      · rename_i hvis
        split at h
        · simp only [Bool.and_eq_true, Bool.not_eq_true']
          exact ⟨by simpa using hvis, ih _ _ _ _ _ h⟩
        · simp at h

/-- The bound max_chain_length + 1 < 2^16 of the amended C11 is needed. Under a
chain limit of 65535, key [4, 0] is inserted with [1, 2] by transaction 3 and
updated 65536 times by transaction 7. The reader with snapshot 3 does not see
the head and would have to fetch more than 65535 versions; the `ensure` never
fails, because the u16 `chain_length` wraps from 65535 to 0, and the reader gets
a result: OK with [1, 2] and chain length 0. -/
theorem reconstruct_wraps_past_limit :
    wrapLimitEnv.FLAGS_vi_max_chain_length = 65535 ∧
    ∃ w1 st1 stN cur slotN,
      historyInsert wrapLimitEnv = Exec.ret (OP_RESULT.OK, w1, st1) ∧
      runUpdates wrapLimitEnv [4, 0] st1 longHistory = some stN ∧
      seekExact stN.leaf.slots [4, 0] = some (cur, slotN) ∧
      visUpTo 3 slotN.tuple.worker_id slotN.tuple.tx_id false = false ∧
      wrapLimitEnv.isFinal slotN.tuple = false ∧
      needsMoreThan (visUpTo 3) stN.versions_space 65535 slotN.tuple.tx_id
        slotN.tuple.command_id = true ∧
      ∀ fuel, 65536 ≤ fuel →
        reconstructChainedTuple wrapLimitEnv (visUpTo 3) stN.versions_space fuel slotN.tuple
          = Exec.ret (OP_RESULT.OK, 0, some [1, 2]) := by
  have hlen : longHistory.length = 65536 := by
    rw [longHistory_eq, List.length_map, List.length_range]
  have hver : ∀ u ∈ longHistory, update_without_versioning wrapLimitEnv u.worker = false := by
    intro u hu
    obtain ⟨i, _, rfl⟩ := longHistory_mem hu
    rfl
  have hidle : ∀ u ∈ longHistory, u.descriptor = [] ∧ ∀ x, u.callback x = x := by
    intro u hu
    obtain ⟨i, _, rfl⟩ := longHistory_mem hu
    exact ⟨rfl, fun _ => rfl⟩
  have hmut := mutatorsInside_of_idle [1, 2] longHistory hidle
  have hinv : ∀ u ∈ longHistory, visUpTo 3 u.worker.workerID u.worker.TTS false = false := by
    intro u hu
    obtain ⟨i, _, rfl⟩ := longHistory_mem hu
    rfl
  have hins : historyInsert wrapLimitEnv = Exec.ret (OP_RESULT.OK,
      workerAfter (historyInsert wrapLimitEnv) exampleWorker0,
      stateAfter (historyInsert wrapLimitEnv) exampleState) := by decide
  have hseek : seekExact (stateAfter (historyInsert wrapLimitEnv) exampleState).leaf.slots [4, 0]
      = some (0, ⟨[4, 0], ChainedTuple 0 3 [1, 2]⟩) := by decide
  obtain ⟨stN, hrun⟩ := runUpdates_progress wrapLimitEnv [4, 0] longHistory _ 0 _ hseek rfl rfl
    (by
      intro u hu
      obtain ⟨i, _, rfl⟩ := longHistory_mem hu
      exact ⟨fun _ _ => rfl, rfl,
        by simp [wrapLimitEnv, exampleEnv, longCall, diffLength, U16]⟩)
  have hne : longHistory ≠ [] := by
    intro h
    rw [h] at hlen
    simp at hlen
  obtain ⟨hseekN, hvsN⟩ := runUpdates_leaves hseek rfl hver hrun
  have hwalk : ∀ fuel, reconstructLoop wrapLimitEnv (visUpTo 3) stN.versions_space fuel
      (tupleAfter wrapLimitEnv (ChainedTuple 0 3 [1, 2]) longHistory).payload
      (tupleAfter wrapLimitEnv (ChainedTuple 0 3 [1, 2]) longHistory).worker_id
      (tupleAfter wrapLimitEnv (ChainedTuple 0 3 [1, 2]) longHistory).tx_id
      (tupleAfter wrapLimitEnv (ChainedTuple 0 3 [1, 2]) longHistory).command_id 1 =
      if 65536 ≤ fuel then Exec.ret (OP_RESULT.OK, 0, some [1, 2]) else Exec.out_of_fuel := by
    intro fuel
    have h := reconstructLoop_walk_wrapped wrapLimitEnv (visUpTo 3) (ChainedTuple 0 3 [1, 2])
      (stateAfter (historyInsert wrapLimitEnv) exampleState).versions_space longHistory hne
      stN.versions_space fuel 1 (fun u _ => by rw [hvsN]) longHistory_keys_nodup hinv rfl hmut
      (by decide) (by decide)
    rw [hlen] at h
    exact h
  have hsplit : longHistory = (List.range 65535).map longCall ++ [longCall 65535] := by
    rw [longHistory_eq, show (65536 : Nat) = 65535 + 1 from rfl, List.range_succ,
      List.map_append]
    rfl
  have hfinal : wrapLimitEnv.isFinal
      (tupleAfter wrapLimitEnv (ChainedTuple 0 3 [1, 2]) longHistory) = false := by
    have hcmd : (tupleAfter wrapLimitEnv (ChainedTuple 0 3 [1, 2]) longHistory).command_id
        = 65536 := by
      rw [hsplit, tupleAfter_command_id_append]
      rfl
    show decide ((tupleAfter wrapLimitEnv (ChainedTuple 0 3 [1, 2]) longHistory).command_id
      = 0) = false
    rw [hcmd]
    decide
  have hinvis : visUpTo 3 (tupleAfter wrapLimitEnv (ChainedTuple 0 3 [1, 2]) longHistory).worker_id
      (tupleAfter wrapLimitEnv (ChainedTuple 0 3 [1, 2]) longHistory).tx_id false = false := by
    obtain ⟨v, hv, hw1, hw2⟩ := tupleAfter_writer wrapLimitEnv (ChainedTuple 0 3 [1, 2])
      longHistory hne
    rw [hw1, hw2]
    exact hinv v hv
  refine ⟨rfl, _, _, stN, 0, _, hins, hrun, hseekN, hinvis, hfinal, ?_, ?_⟩
  · apply needsMoreThan_of_out_of_fuel wrapLimitEnv (visUpTo 3) stN.versions_space 65535
      (tupleAfter wrapLimitEnv (ChainedTuple 0 3 [1, 2]) longHistory).payload
      (tupleAfter wrapLimitEnv (ChainedTuple 0 3 [1, 2]) longHistory).worker_id _ _ 1
    rw [hwalk 65535, if_neg (by omega)]
  · intro fuel hf
    simp only [reconstructChainedTuple, hinvis, hfinal, Bool.false_eq_true, if_false]
    rw [hwalk fuel, if_pos hf]

/-- The proviso "not final" of the amended C11 is needed. Under a chain limit
of 1, with `isFinal()` read as `command_id == 0`, key [4, 0] is inserted and
updated by transactions 7 and 9, whose command-id counters are 0. To the reader
with snapshot 2 the head is not visible, and it would have to fetch more than
one version to reach a visible one; the head carries command-id 0, so the
`isFinal()` guard returns NOT_FOUND: the reader gets a result and the walk does
not fail. -/
theorem reconstruct_final_head_returns :
    1 ≤ oneLimitEnv.FLAGS_vi_max_chain_length ∧
    oneLimitEnv.FLAGS_vi_max_chain_length + 1 < U16 ∧
    runUpdates oneLimitEnv [4, 0] (stateAfter (historyInsert oneLimitEnv) exampleState)
      [finalCall1, finalCall2] = some finalHistoryState ∧
    seekExact finalHistoryState.leaf.slots [4, 0] = some (0, ⟨[4, 0], finalHistoryPrimary⟩) ∧
    visUpTo 2 finalHistoryPrimary.worker_id finalHistoryPrimary.tx_id false = false ∧
    needsMoreThan (visUpTo 2) finalHistoryState.versions_space
      oneLimitEnv.FLAGS_vi_max_chain_length finalHistoryPrimary.tx_id
      finalHistoryPrimary.command_id = true ∧
    oneLimitEnv.isFinal finalHistoryPrimary = true ∧
    ∀ fuel, reconstructChainedTuple oneLimitEnv (visUpTo 2) finalHistoryState.versions_space
      fuel finalHistoryPrimary = Exec.ret (OP_RESULT.NOT_FOUND, 1, none) := by
  refine ⟨by decide, by decide, by decide, by decide, by decide, by decide, by decide,
    fun fuel => ?_⟩
  have h1 : visUpTo 2 finalHistoryPrimary.worker_id finalHistoryPrimary.tx_id false = false := by
    decide
  have h2 : oneLimitEnv.isFinal finalHistoryPrimary = true := by decide
  simp [reconstructChainedTuple, h1, h2]

/-! ## C12: version elision -/

theorem boolAndAssign_high_bit (b : Bool) (x : Nat) : boolAndAssign b (x &&& 2 ^ 63) = false := by
  have h1 : (1 : Nat) &&& (x &&& 2 ^ 63) = 0 := by
    rw [Nat.land_comm 1, Nat.land_assoc, show (2 ^ 63 : Nat) &&& 1 = 0 from by decide]
    simp
  cases b
  · simp [boolAndAssign]
  · simp [boolAndAssign, h1]

theorem elisionLoop_false (txids : List Nat) (n w_i : Nat) :
    elisionLoop txids n w_i false = false := by
  cases n <;> simp [elisionLoop]

/-- The loop over the workers' in-progress tx-ids leaves
`update_without_versioning` false as soon as it visits one worker, whatever the
tx-ids are: `bool &= (txid & (1ull << 63))` ANDs the value 1 of the bool with a
number whose only possible bit is bit 63. -/
theorem elisionLoop_visits (txids : List Nat) (n w_i : Nat) (u : Bool) :
    elisionLoop txids (n + 1) w_i u = false := by
  cases u
  · simp [elisionLoop]
  · simp only [elisionLoop, if_true]
    rw [boolAndAssign_high_bit, elisionLoop_false]

/-- With `FLAGS_vi_update_version_elision` set, `FLAGS_vi_fupdate_chained`
unset and at least one worker, `update_without_versioning` is false for every
transaction kind and all in-progress tx-ids. -/
theorem update_without_versioning_elision (env : Env) (w : Worker)
    (hel : env.FLAGS_vi_update_version_elision = true)
    (hfu : env.FLAGS_vi_fupdate_chained = false) (hwc : 1 ≤ w.workers_count) :
    update_without_versioning env w = false := by
  obtain ⟨n, hn⟩ : ∃ n, w.workers_count = n + 1 := ⟨_, (Nat.succ_pred_eq_of_pos hwc).symm⟩
  simp [update_without_versioning, hel, hfu, hn, elisionLoop_visits]

/-- C12 (the code at the failing input). Version elision is set, fast update is
unset, there is one worker, its in-progress tx-id 2^63 + 3 has bit 63 set and
the transaction is single-statement: the update of the Chained primary of key
[5, 0] returns OK and appends one secondary version, where the claim (and the
comment in the code) says it appends none. -/
theorem update_elision_appends_version :
    elisionEnv.FLAGS_vi_update_version_elision = true ∧
    elisionEnv.FLAGS_vi_fupdate_chained = false ∧
    elisionWorker.workers_count = 1 ∧
    elisionWorker.isSingleStatement = true ∧
    elisionWorker.global_workers_in_progress_txid = [2 ^ 63 + 3] ∧
    (2 ^ 63 + 3).testBit 63 = true ∧
    seekExact exampleState.leaf.slots [5, 0] = some (0, ⟨[5, 0], examplePrimary⟩) ∧
    examplePrimary.tuple_format = TupleFormat.CHAINED ∧
    update_without_versioning elisionEnv elisionWorker = false ∧
    exampleState.versions_space = [] ∧
    ∃ w' st', elisionUpdate = Exec.ret (OP_RESULT.OK, w', st') ∧
      st'.versions_space = [⟨3, 1, 46,
        updateVersion elisionWorker examplePrimary exampleDescriptor⟩] := by
  refine ⟨rfl, rfl, rfl, rfl, rfl, by decide, by decide, rfl, by decide, rfl,
    workerAfter elisionUpdate elisionWorker, stateAfter elisionUpdate exampleState, ?_, ?_⟩
  · decide
  · decide

/-! ## C13: the single-version configuration -/

/-- With `FLAGS_mv` off, `update_without_versioning` is true unless version
elision is set while fast update is unset. -/
theorem update_without_versioning_single_version (env : Env) (w : Worker)
    (hmv : env.FLAGS_mv = false)
    (hsw : env.FLAGS_vi_update_version_elision = false ∨ env.FLAGS_vi_fupdate_chained = true) :
    update_without_versioning env w = true := by
  rcases hsw with h | h <;> simp [update_without_versioning, hmv, h]

/-- What a returning `updateSameSizeInPlace` leaves in the versions store. -/
theorem updateSameSizeInPlace_versions {env : Env} {vis : Visibility} {w : Worker} {st : State}
    {key : List Nat} {cb : List Nat → List Nat} {d : UpdateSameSizeInPlaceDescriptor}
    {r : OP_RESULT} {w' : Worker} {st' : State}
    (h : updateSameSizeInPlace env vis w st key cb d = Exec.ret (r, w', st'))
    (huwv : update_without_versioning env w = true) :
    st'.versions_space = st.versions_space := by
  unfold updateSameSizeInPlace at h
  split at h
  · simp at h
  · rename_i cur slot hseek
    split at h
    · simp only [Exec.ret.injEq, Prod.mk.injEq] at h
      rw [← h.2.2]
    · split at h
      · simp only [Exec.ret.injEq, Prod.mk.injEq] at h
        rw [← h.2.2]
      · split at h
        · simp only at h
          split at h
          · simp only [Exec.ret.injEq, Prod.mk.injEq] at h
            rw [← h.2.2]
          · simp at h
        · obtain ⟨_, _, _, _, hvs⟩ := updateChained_ret h
          rw [hvs, if_pos huwv]

/-- C13 (amended). With the `mv` switch off, for every transaction kind:
`updateSameSizeInPlace` leaves the versions store as it was whenever
`update_version_elision` is unset or `fupdate_chained` is set; `remove` leaves
it as it was when `fremove` is set, and whenever it does not return OK; with
`fremove` unset a `remove` that returns OK appends exactly one secondary version
under (writer tx-id, allocated command-id), since `remove` does not consult the
`mv` switch. -/
theorem single_version_versions_store (env : Env) (vis : Visibility) (w : Worker) (st : State)
    (key : List Nat) (hmv : env.FLAGS_mv = false) :
    (env.FLAGS_vi_update_version_elision = false ∨ env.FLAGS_vi_fupdate_chained = true →
      ∀ cb d r w' st', updateSameSizeInPlace env vis w st key cb d = Exec.ret (r, w', st') →
        st'.versions_space = st.versions_space) ∧
    (∀ r w' st', remove env vis w st key = Exec.ret (r, w', st') →
      env.FLAGS_vi_fremove = true ∨ r ≠ OP_RESULT.OK →
        st'.versions_space = st.versions_space) ∧
    (env.FLAGS_vi_fremove = false →
      ∀ w' st', remove env vis w st key = Exec.ret (OP_RESULT.OK, w', st') →
        ∃ e, st'.versions_space = e :: st.versions_space ∧ e.tx_id = w.TTS ∧
          e.command_id = w.command_id) := by
  refine ⟨?_, ?_, ?_⟩
  · intro hsw cb d r w' st' h
    exact updateSameSizeInPlace_versions h (update_without_versioning_single_version env w hmv hsw)
  · intro r w' st' h hor
    unfold remove at h
    split at h
    · simp only [Exec.ret.injEq, Prod.mk.injEq] at h
      rw [← h.2.2]
    · split at h
      · simp only [Exec.ret.injEq, Prod.mk.injEq] at h
        rw [← h.2.2]
      · rename_i hfr
        have hr : r ≠ OP_RESULT.OK := by
          rcases hor with h1 | h1
          · exact absurd h1 hfr
          · exact h1
        simp only at h
        repeat' split at h
        all_goals first
          | (simp only [Exec.ret.injEq, Prod.mk.injEq] at h
             first
               | exact absurd h.1.symm hr
               | rw [← h.2.2])
          | simp at h
  · intro hfr w' st' h
    unfold remove at h
    split at h
    · simp at h
    · rw [if_neg (by simp [hfr])] at h
      simp only at h
      repeat' split at h
      all_goals first
        | (simp only [Exec.ret.injEq, Prod.mk.injEq, false_and] at h
           done)
        | (simp only [Exec.ret.injEq, Prod.mk.injEq, true_and] at h
           rw [← h.2]
           exact ⟨_, rfl, rfl, rfl⟩)
        | simp at h

/-- Witness of the amended C13: under the example configuration with `mv` off
(version elision, fast update and fast remove unset), the example update of key
[5, 0] returns OK and leaves the versions store empty, and the remove of key
[5, 0] by worker 1 in transaction 7 (command-id 1) returns OK and appends one
version under (7, 1). -/
theorem single_version_versions_store_witness :
    singleVersionEnv.FLAGS_mv = false ∧
    singleVersionEnv.FLAGS_vi_update_version_elision = false ∧
    singleVersionEnv.FLAGS_vi_fremove = false ∧
    singleVersionUpdate = Exec.ret (OP_RESULT.OK, workerAfter singleVersionUpdate exampleWorker,
      stateAfter singleVersionUpdate exampleState) ∧
    (stateAfter singleVersionUpdate exampleState).versions_space = exampleState.versions_space ∧
    singleVersionRemove = Exec.ret (OP_RESULT.OK, workerAfter singleVersionRemove exampleWorker,
      stateAfter singleVersionRemove exampleState) ∧
    ∃ e, (stateAfter singleVersionRemove exampleState).versions_space
        = e :: exampleState.versions_space ∧ e.tx_id = exampleWorker.TTS ∧
      e.command_id = exampleWorker.command_id :=
  have h := single_version_versions_store singleVersionEnv visAll exampleWorker exampleState
    [5, 0] rfl
  ⟨rfl, rfl, rfl, by decide,
    h.1 (Or.inl rfl) exampleMutator exampleDescriptor OP_RESULT.OK
      (workerAfter singleVersionUpdate exampleWorker)
      (stateAfter singleVersionUpdate exampleState) (by decide),
    by decide,
    h.2.2 rfl (workerAfter singleVersionRemove exampleWorker)
      (stateAfter singleVersionRemove exampleState) (by decide)⟩

/-- C13 as stated fails for `remove`: with the `mv` switch off (and fast remove
unset), the remove of the live Chained primary of key [5, 0] returns OK and
appends a secondary version to the empty versions store. -/
theorem single_version_remove_counterexample :
    singleVersionEnv.FLAGS_mv = false ∧
    exampleState.versions_space = [] ∧
    ∃ w' st', remove singleVersionEnv visAll exampleWorker exampleState [5, 0]
        = Exec.ret (OP_RESULT.OK, w', st') ∧
      st'.versions_space = [⟨7, 1, 42, removeVersion exampleWorker examplePrimary 2⟩] :=
  ⟨rfl, rfl, workerAfter singleVersionRemove exampleWorker,
    stateAfter singleVersionRemove exampleState, by decide, by decide⟩

/-! ## C14: the version an update appends -/

/-- The forward diff is the concatenation, in descriptor order, of the bytes of
the source in the slices of the descriptor. -/
theorem generateDiff_eq_slices (d : UpdateSameSizeInPlaceDescriptor) (src : List Nat) :
    generateDiff d src = (d.map (sliceOf src)).foldr (fun a b => a ++ b) [] := by
  induction d with
  | nil => rfl
  | cons s d ih => simp [generateDiff, ih]

/-- C14. For every successful `updateSameSizeInPlace` on a Chained primary in
which versioning is not elided: the versions store after the call is the store
before it with exactly one more record, appended under the key (writer tx-id,
newly allocated command-id), which is the (tx_id, command_id) of the primary
after the update; the record is built from the primary as it was before the
update: it carries the superseded (worker_id, tx_id, command_id), is_delta =
true, is_removed = false, the descriptor followed by the pre-update bytes of
the descriptor's slices, and committed_before_txid = max u64 when the superseded
writer is the same worker and transaction, else the writer's tx-id. -/
theorem update_appends_one_version (env : Env) (vis : Visibility) (w : Worker) (st : State)
    (key : List Nat) (cb : List Nat → List Nat) (d : UpdateSameSizeInPlaceDescriptor)
    (cur : Nat) (slot : Slot) (w' : Worker) (st' : State)
    (hseek : seekExact st.leaf.slots key = some (cur, slot))
    (hfmt : slot.tuple.tuple_format = TupleFormat.CHAINED)
    (hok : updateSameSizeInPlace env vis w st key cb d = Exec.ret (OP_RESULT.OK, w', st'))
    (hver : update_without_versioning env w = false) :
    ∃ e slot', st'.versions_space = e :: st.versions_space ∧
      seekExact st'.leaf.slots key = some (cur, slot') ∧
      w'.command_id = (w.command_id + 1) % U64 ∧
      e.tx_id = w.TTS ∧ e.command_id = w.command_id ∧
      slot'.tuple.tx_id = e.tx_id ∧ slot'.tuple.command_id = e.command_id ∧
      slot'.tuple.worker_id = w.workerID ∧
      e.version.worker_id = slot.tuple.worker_id ∧
      e.version.tx_id = slot.tuple.tx_id ∧
      e.version.command_id = slot.tuple.command_id ∧
      e.version.is_delta = true ∧ e.version.is_removed = false ∧
      e.version.descriptor = d ∧
      e.version.data = (d.map (sliceOf slot.tuple.payload)).foldr (fun a b => a ++ b) [] ∧
      e.version.committed_before_txid =
        (if slot.tuple.worker_id = w.workerID ∧ slot.tuple.tx_id = w.TTS then U64 - 1
          else w.TTS) := by
  obtain ⟨_, _, hcmd, hslots, hvs⟩ := updateChained_ret (updateSameSizeInPlace_ok hseek hfmt hok)
  rw [hver] at hvs
  refine ⟨_, ⟨slot.key, updatedPrimary env w slot.tuple w.command_id
    (runCallback cb slot.tuple.payload)⟩, hvs, ?_, hcmd, rfl, rfl, ?_, ?_, ?_, rfl, rfl, rfl,
    rfl, rfl, rfl, ?_, rfl⟩
  · rw [hslots]
    exact seekExact_setTuple hseek _
  · simp [insertVersion]
  · simp [insertVersion]
  · simp
  · exact generateDiff_eq_slices d slot.tuple.payload

/-- Witness of C14: the example update of key [5, 0] (value [1, 2], written by
worker 0 in transaction 3 with command-id 4) by worker 1 in transaction 7 with
command-id 1 appends one version under (7, 1) that carries (0, 3, 4), the
descriptor and the old byte 2 of the slice, and committed_before_txid = 7. -/
theorem update_appends_one_version_witness :
    ∃ e slot', (stateAfter exampleUpdate exampleState).versions_space
        = e :: exampleState.versions_space ∧
      seekExact (stateAfter exampleUpdate exampleState).leaf.slots [5, 0] = some (0, slot') ∧
      (e.tx_id, e.command_id) = (7, 1) ∧
      (slot'.tuple.tx_id, slot'.tuple.command_id) = (7, 1) ∧
      (e.version.worker_id, e.version.tx_id, e.version.command_id) = (0, 3, 4) ∧
      e.version.is_delta = true ∧ e.version.is_removed = false ∧
      e.version.descriptor = exampleDescriptor ∧ e.version.data = [2] ∧
      e.version.committed_before_txid = 7 := by
  obtain ⟨e, slot', h1, h2, _, h4, h5, h6, h7, _, h9, h10, h11, h12, h13, h14, h15, h16⟩ :=
    update_appends_one_version exampleEnv visAll exampleWorker exampleState [5, 0]
      exampleMutator exampleDescriptor 0 ⟨[5, 0], examplePrimary⟩
      (workerAfter exampleUpdate exampleWorker) (stateAfter exampleUpdate exampleState)
      (by decide) rfl (by decide) (by decide)
  refine ⟨e, slot', h1, h2, ?_, ?_, ?_, h12, h13, h14, ?_, ?_⟩
  · rw [h4, h5]
    rfl
  · rw [h6, h7, h4, h5]
    rfl
  · rw [h9, h10, h11]
    rfl
  · rw [h15]
    rfl
  · rw [h16]
    rfl

/-! ## C15: the tombstone a remove leaves -/

/-- The tombstone of a successful `remove` (fast remove off) of a Chained
primary: the key keeps its slot, the primary is marked removed, unlocked and
stamped with the remover's identity; its value bytes are gone (header-only)
when the value had 0 or more than 1 bytes, and are kept when it had exactly
1 byte (the guard of `shorten` is `> 1`). -/
theorem remove_ok_tombstone {env : Env} {vis : Visibility} {w : Worker} {st : State}
    {key : List Nat} {cur : Nat} {slot : Slot} {w' : Worker} {st' : State}
    (hseek : seekExact st.leaf.slots key = some (cur, slot))
    (hfast : env.FLAGS_vi_fremove = false)
    (hfmt : slot.tuple.tuple_format = TupleFormat.CHAINED)
    (h : remove env vis w st key = Exec.ret (OP_RESULT.OK, w', st')) :
    ∃ slot', seekExact st'.leaf.slots key = some (cur, slot') ∧
      slot'.tuple.is_removed = true ∧ slot'.tuple.write_locked = false ∧
      slot'.tuple.worker_id = w.workerID ∧ slot'.tuple.tx_id = w.TTS ∧
      slot'.tuple.command_id = w.command_id ∧
      (slot.tuple.payload.length ≠ 1 → slot'.tuple.payload = []) ∧
      (slot.tuple.payload.length = 1 → slot'.tuple.payload = slot.tuple.payload) := by
  obtain ⟨_, _, _, hslots, _⟩ := remove_live_ok hseek hfast hfmt h
  refine ⟨⟨slot.key, removedPrimary env w slot.tuple w.command_id⟩, ?_, ?_, ?_, ?_, ?_, ?_, ?_, ?_⟩
  · rw [hslots]
    exact seekExact_setTuple hseek _
  · simp
  · simp
  · simp
  · simp
  · simp
  · intro hlen
    show (removedPrimary env w slot.tuple w.command_id).payload = []
    by_cases h1 : slot.tuple.payload.length > 1
    · simp [removedPrimary, stampSSI, h1]
      repeat' split
      all_goals rfl
    · have h0 : slot.tuple.payload = [] := List.length_eq_zero.mp (by omega)
      simp [removedPrimary, stampSSI, h0]
      repeat' split
      all_goals simp [h0]
  · intro hlen
    show (removedPrimary env w slot.tuple w.command_id).payload = slot.tuple.payload
    simp [removedPrimary, stampSSI, hlen]
    repeat' split
    all_goals rfl

/-- C15 (the code at the failing input). Key [5, 0] holds a live Chained
primary with the one-byte value [9]; `remove` (fast remove off) by worker 1
returns OK, and the slot of the key holds a tombstone that still has the value
byte: its payload is not header-only. -/
theorem remove_one_byte_value_keeps_byte :
    exampleEnv.FLAGS_vi_fremove = false ∧
    seekExact oneByteState.leaf.slots [5, 0] = some (0, ⟨[5, 0], oneBytePrimary⟩) ∧
    oneBytePrimary.tuple_format = TupleFormat.CHAINED ∧
    oneBytePrimary.is_removed = false ∧
    oneBytePrimary.payload = [9] ∧
    ∃ w' st' slot', oneByteRemove = Exec.ret (OP_RESULT.OK, w', st') ∧
      seekExact st'.leaf.slots [5, 0] = some (0, slot') ∧
      slot'.tuple.is_removed = true ∧
      slot'.tuple.payload = [9] ∧ slot'.tuple.payload.length = 1 :=
  ⟨rfl, by decide, rfl, rfl, rfl, workerAfter oneByteRemove exampleWorker,
    stateAfter oneByteRemove oneByteState,
    ⟨[5, 0], removedPrimary exampleEnv exampleWorker oneBytePrimary 1⟩,
    by decide, by decide, by decide, by decide, by decide⟩

/-! ## C16: unlock -/

/-- The bits of the mask `~(1ull << i)`: all of the low 64 except bit i. -/
theorem clearMask_testBit (i j : Nat) (hi : i < 64) :
    (U64 - 1 - 2 ^ i).testBit j = (decide (j < 64) && decide (j ≠ i)) := by
  have hx : U64 - 1 - 2 ^ i = (2 ^ 64 - 1) ^^^ 2 ^ i := by
    interval_cases i <;> rfl
  rw [hx, Nat.testBit_xor, Nat.testBit_two_pow_sub_one, Nat.testBit_two_pow]
  by_cases h1 : j < 64 <;> by_cases h2 : i = j
  · subst h2
    simp [h1]
  · simp [h1, h2, Ne.symm h2]
  · omega
  · simp [h1, h2, Ne.symm h2]

/-- A u64 has no bit at position 64 or above. -/
theorem testBit_of_lt_U64 (c j : Nat) (hc : c < U64) (hj : 64 ≤ j) : c.testBit j = false := by
  apply Nat.testBit_lt_two_pow
  calc c < 2 ^ 64 := hc
    _ ≤ 2 ^ j := Nat.pow_le_pow_right (by norm_num) hj

/-- C16. For every existing key and every calling worker w (worker ids are
below 64, the counter is a u64): `unlock` returns, and changes nothing but the
`read_lock_counter` of the primary of the key: it clears bit w and leaves every
other bit as it was; the other fields and the payload of the primary, the other
slots and the versions store are unchanged. When w was the only reader
(`read_lock_counter` = bit w), the read-lock check of a 2PL writer with another
worker id, which held before the unlock, no longer holds after it. -/
theorem unlock_clears_own_bit (w : Worker) (st : State) (todo_entry : UnlockEntry) (cur : Nat)
    (slot : Slot)
    (hseek : seekExact st.leaf.slots (todo_entry.key.take todo_entry.key_length)
      = some (cur, slot))
    (hw : w.workerID < 64) (hc : slot.tuple.read_lock_counter < U64) :
    ∃ c', unlock w st todo_entry = Exec.ret { st with leaf := { st.leaf with
        slots := st.leaf.slots.set cur
          ⟨slot.key, { slot.tuple with read_lock_counter := c' }⟩ } } ∧
      c'.testBit w.workerID = false ∧
      (∀ j, j ≠ w.workerID → c'.testBit j = slot.tuple.read_lock_counter.testBit j) ∧
      (slot.tuple.read_lock_counter = workerBit w →
        ∀ (env : Env) (w2 : Worker), env.FLAGS_2pl = true → w2.isSerializable = true →
          w2.workerID < 64 → w2.workerID ≠ w.workerID →
          ssiConflict env w2 slot.tuple = true ∧
          ssiConflict env w2 { slot.tuple with read_lock_counter := c' } = false) := by
  have hbit : ∀ j, (slot.tuple.read_lock_counter &&& (U64 - 1 - workerBit w)).testBit j
      = (slot.tuple.read_lock_counter.testBit j && decide (j ≠ w.workerID)) := by
    intro j
    rw [workerBit_eq w hw, Nat.testBit_land, clearMask_testBit _ _ hw]
    by_cases hj : j < 64
    · simp [hj]
    · rw [testBit_of_lt_U64 _ j hc (by omega)]
      simp
  refine ⟨slot.tuple.read_lock_counter &&& (U64 - 1 - workerBit w), ?_, ?_, ?_, ?_⟩
  · simp only [unlock, hseek, setTuple]
  · rw [hbit]
    simp
  · intro j hj
    rw [hbit]
    simp [hj]
  · intro hone env w2 h2pl hser hw2 hne
    have hzero : slot.tuple.read_lock_counter &&& (U64 - 1 - workerBit w) = 0 := by
      apply Nat.eq_of_testBit_eq
      intro j
      rw [hbit, hone, workerBit_eq w hw, Nat.testBit_two_pow, Nat.zero_testBit]
      by_cases hj : j = w.workerID
      · simp [hj]
      · simp [hj, Ne.symm hj]
    constructor
    · have hpos : 0 < workerBit w := by
        rw [workerBit_eq w hw]
        exact Nat.pow_pos (by norm_num)
      have hdiff : workerBit w ≠ workerBit w2 := by
        rw [workerBit_eq w hw, workerBit_eq w2 hw2]
        intro h
        exact hne (Nat.pow_right_injective (Nat.le_refl 2) h).symm
      simp [ssiConflict, hser, h2pl, hone, hpos, hdiff]
    · simp [ssiConflict, hser, h2pl, hzero]

/-- Witness of C16: key [5, 0] is read-locked by worker 1 alone (counter 2).
Under 2PL the update by the serializable worker 2 is aborted; worker 1 unlocks,
which clears its bit and leaves counter 0; the update by worker 2 on the state
after the unlock returns OK. -/
theorem unlock_clears_own_bit_witness :
    seekExact readLockedState.leaf.slots [5, 0] = some (0, ⟨[5, 0], readLockedPrimary⟩) ∧
    readLockedPrimary.read_lock_counter = workerBit exampleWorker ∧
    (∃ c', exampleUnlock = Exec.ret { readLockedState with leaf := { readLockedState.leaf with
        slots := readLockedState.leaf.slots.set 0
          ⟨[5, 0], { readLockedPrimary with read_lock_counter := c' }⟩ } } ∧
      c'.testBit 1 = false ∧
      ssiConflict twoPLEnv serializableWorker readLockedPrimary = true ∧
      ssiConflict twoPLEnv serializableWorker
        { readLockedPrimary with read_lock_counter := c' } = false) ∧
    updateSameSizeInPlace twoPLEnv visAll serializableWorker readLockedState [5, 0]
      exampleMutator exampleDescriptor
      = Exec.ret (OP_RESULT.ABORT_TX, serializableWorker, readLockedState) ∧
    ∃ w' st', updateSameSizeInPlace twoPLEnv visAll serializableWorker
      (stateOf exampleUnlock readLockedState) [5, 0] exampleMutator exampleDescriptor
      = Exec.ret (OP_RESULT.OK, w', st') := by
  obtain ⟨c', h1, h2, _, h4⟩ := unlock_clears_own_bit exampleWorker readLockedState ⟨2, [5, 0]⟩
    0 ⟨[5, 0], readLockedPrimary⟩ (by decide) (by decide) (by decide)
  have h5 := h4 (by decide) twoPLEnv serializableWorker rfl rfl (by decide) (by decide)
  refine ⟨by decide, by decide, ⟨c', h1, h2, h5.1, h5.2⟩, by decide, ?_⟩
  exact ⟨workerAfter (updateSameSizeInPlace twoPLEnv visAll serializableWorker
      (stateOf exampleUnlock readLockedState) [5, 0] exampleMutator exampleDescriptor)
      serializableWorker,
    stateAfter (updateSameSizeInPlace twoPLEnv visAll serializableWorker
      (stateOf exampleUnlock readLockedState) [5, 0] exampleMutator exampleDescriptor)
      readLockedState, by decide⟩

/-! ## C17: rollback of an insert followed by an update -/

theorem eraseIdx_inserted (l1 l2 : List Slot) (x : Slot) :
    (l1 ++ x :: l2).eraseIdx l1.length = l1 ++ l2 := by
  induction l1 with
  | nil => rfl
  | cons a l1 ih => simp [List.eraseIdx, ih]

theorem eraseIdx_set_same (l : List Slot) (i : Nat) (x : Slot) :
    (l.set i x).eraseIdx i = l.eraseIdx i := by
  induction l generalizing i with
  | nil => rfl
  | cons a l ih =>
    cases i with
    | zero => rfl
    | succ i => simp [List.eraseIdx, ih]

/-- C17. For every key k absent from the leaf, value v, mutator and
descriptor: when one transaction runs insert(k, v) and then
updateSameSizeInPlace(k, mutator, d), both returning OK, its WAL holds the
WALUpdateSSIP record in front of the WALInsert record; undo of the two records
in this order returns both times, and the slots of the leaf are then exactly
the slots before the insert: there is no slot for k and every other slot is as
it was. -/
theorem insert_update_rollback_restores_slots (env : Env) (vis0 vis1 : Visibility)
    (splits : Nat) (w0 : Worker) (st0 : State) (key value : List Nat)
    (cb : List Nat → List Nat) (d : UpdateSameSizeInPlaceDescriptor)
    (w1 w2 : Worker) (st1 st2 : State)
    (habsent : seekExact st0.leaf.slots key = none)
    (hins : insert env vis0 splits w0 st0 key value = Exec.ret (OP_RESULT.OK, w1, st1))
    (hupd : updateSameSizeInPlace env vis1 w1 st1 key cb d = Exec.ret (OP_RESULT.OK, w2, st2)) :
    ∃ update_entry insert_entry st3 st4,
      w2.wal = WALEntry.WALUpdate update_entry :: WALEntry.WALInsert insert_entry :: w0.wal ∧
      undo env st2 (WALEntry.WALUpdate update_entry) = Exec.ret st3 ∧
      undo env st3 (WALEntry.WALInsert insert_entry) = Exec.ret st4 ∧
      st4.leaf.slots = st0.leaf.slots ∧
      seekExact st4.leaf.slots key = none := by
  obtain ⟨_, hw1, hst1⟩ := insert_absent_ret habsent hins
  have hseek1 : seekExact st1.leaf.slots key = some ((st0.leaf.slots.take
      (lowerBound st0.leaf.slots key)).length, ⟨key, ChainedTuple w0.workerID w0.TTS value⟩) := by
    rw [hst1]
    exact seekExact_insertInCurrentNode _ _ _ _ habsent rfl
  obtain ⟨_, hwal2, _, hslots2, _⟩ := updateChained_ret (updateSameSizeInPlace_ok hseek1 rfl hupd)
  have hseek2 := seekExact_setTuple hseek1 (updatedPrimary env w1
    (ChainedTuple w0.workerID w0.TTS value) w1.command_id
    (runCallback cb (ChainedTuple w0.workerID w0.TTS value).payload))
  rw [← hslots2] at hseek2
  have hundo1 := undo_update_chained env st2 (updateWALEntry w1 key
    (ChainedTuple w0.workerID w0.TTS value) d ((env.descriptorSize d + diffLength d) % U16)
    w1.command_id (runCallback cb (ChainedTuple w0.workerID w0.TTS value).payload))
    hseek2 (by simp) (by simp [ChainedTuple])
  obtain ⟨st3, hst3, t3, hslots3⟩ : ∃ st3, undo env st2 (WALEntry.WALUpdate (updateWALEntry w1 key
      (ChainedTuple w0.workerID w0.TTS value) d ((env.descriptorSize d + diffLength d) % U16)
      w1.command_id (runCallback cb (ChainedTuple w0.workerID w0.TTS value).payload)))
      = Exec.ret st3 ∧ ∃ t3, st3.leaf.slots = (st2.leaf.slots.set (st0.leaf.slots.take
        (lowerBound st0.leaf.slots key)).length ⟨key, t3⟩) := ⟨_, hundo1, _, rfl⟩
  have hseek3 : seekExact st3.leaf.slots key = some ((st0.leaf.slots.take
      (lowerBound st0.leaf.slots key)).length, ⟨key, t3⟩) := by
    rw [hslots3]
    exact seekExact_setTuple hseek2 t3
  obtain ⟨st4, hundo2, hst4⟩ : ∃ st4,
      undo env st3 (WALEntry.WALInsert (insertWALEntry key value)) = Exec.ret st4 ∧
      st4.leaf.slots = st3.leaf.slots.eraseIdx
        (st0.leaf.slots.take (lowerBound st0.leaf.slots key)).length := by
    simp only [undo]
    rw [show (insertWALEntry key value).key = key from rfl, hseek3]
    exact ⟨_, rfl, rfl⟩
  have hslots4 : st3.leaf.slots.eraseIdx (st0.leaf.slots.take
      (lowerBound st0.leaf.slots key)).length = st0.leaf.slots := by
    rw [hslots3, hslots2, hst1]
    simp only [setTuple, insertInCurrentNode, eraseIdx_set_same, eraseIdx_inserted,
      List.take_append_drop]
  rw [← hst4] at hslots4
  refine ⟨_, insertWALEntry key value, st3, st4, ?_, hst3, hundo2, hslots4, ?_⟩
  · rw [hwal2, hw1]
    simp
  · rw [hslots4]
    exact habsent

/-- Witness of C17: transaction 3 of worker 0 inserts the absent key [4, 0]
with value [1, 2] into the example leaf and sets byte 1 to 9; undo of its two
WAL records, the update first, leaves the slots of the example leaf. -/
theorem insert_update_rollback_restores_slots_witness :
    seekExact exampleState.leaf.slots [4, 0] = none ∧
    seekExact (stateAfter rollbackUpdate exampleState).leaf.slots [4, 0]
      = some (0, ⟨[4, 0], updatedPrimary exampleEnv exampleWorker0 (ChainedTuple 0 3 [1, 2]) 0
          [1, 9]⟩) ∧
    ∃ update_entry insert_entry st3 st4,
      (workerAfter rollbackUpdate exampleWorker0).wal
        = [WALEntry.WALUpdate update_entry, WALEntry.WALInsert insert_entry] ∧
      undo exampleEnv (stateAfter rollbackUpdate exampleState) (WALEntry.WALUpdate update_entry)
        = Exec.ret st3 ∧
      undo exampleEnv st3 (WALEntry.WALInsert insert_entry) = Exec.ret st4 ∧
      st4.leaf.slots = exampleState.leaf.slots ∧
      seekExact st4.leaf.slots [4, 0] = none :=
  ⟨by decide, by decide,
    insert_update_rollback_restores_slots exampleEnv visAll visAll 0 exampleWorker0 exampleState
      [4, 0] [1, 2] exampleMutator exampleDescriptor
      (workerAfter (historyInsert exampleEnv) exampleWorker0)
      (workerAfter rollbackUpdate exampleWorker0)
      (stateAfter (historyInsert exampleEnv) exampleState)
      (stateAfter rollbackUpdate exampleState) (by decide) (by decide) (by decide)⟩

/-! ## C18: point garbage collection -/

theorem length_eraseIdx_of_get {l : List Slot} {i : Nat} {x : Slot} (h : l[i]? = some x) :
    (l.eraseIdx i).length + 1 = l.length := by
  induction l generalizing i with
  | nil => simp at h
  | cons a l ih =>
    cases i with
    | zero => simp
    | succ i =>
      simp only [List.getElem?_cons_succ] at h
      simp [List.eraseIdx, ih h]

/-- The fast path of `todo` removes at most the slot the dangling pointer names,
and only if it holds the staged tombstone. -/
theorem todoFastPath_slots {env : Env} {st st' : State} {point_todo : TODOPoint}
    {version_worker_id version_tts : Nat}
    (h : todoFastPath env st point_todo version_worker_id version_tts = Exec.ret st') :
    removesAtMostStagedTombstone st.leaf.slots st'.leaf.slots version_worker_id version_tts ∧
      st'.versions_space = st.versions_space := by
  unfold todoFastPath at h
  split at h
  · simp at h
  · rename_i slot hslot
    simp only at h
    split at h
    · simp at h
    · rename_i h1
      split at h
      · simp at h
      · rename_i h2
        simp only [not_not] at h1 h2
        split at h
        · rename_i h3
          simp only [Exec.ret.injEq] at h
          subst h
          exact ⟨Or.inr ⟨_, slot, hslot, rfl, length_eraseIdx_of_get hslot,
            h1.1, h1.2, h3, h2.1, h2.2⟩, rfl⟩
        · simp only [Exec.ret.injEq] at h
          subst h
          exact ⟨Or.inl rfl, rfl⟩

/-- The keyed path of `todo` removes at most the slot of the key, and only if it
holds the staged tombstone. -/
theorem todoKeyedPath_slots {env : Env} {st st' : State} {point_todo : TODOPoint}
    {version_worker_id version_tts : Nat}
    (h : todoKeyedPath env st point_todo version_worker_id version_tts = Exec.ret st') :
    removesAtMostStagedTombstone st.leaf.slots st'.leaf.slots version_worker_id version_tts ∧
      st'.versions_space = st.versions_space := by
  unfold todoKeyedPath at h
  split at h
  · simp only [Exec.ret.injEq] at h
    subst h
    exact ⟨Or.inl rfl, rfl⟩
  · rename_i cur slot hseek
    split at h
    · simp only [Exec.ret.injEq] at h
      subst h
      exact ⟨Or.inl rfl, rfl⟩
    · rename_i hfat
      simp only at h
      split at h
      · rename_i hlock
        split at h
        · rename_i hid
          simp only [Exec.ret.injEq] at h
          subst h
          have hfmt : slot.tuple.tuple_format = TupleFormat.CHAINED := by
            cases hf : slot.tuple.tuple_format
            · rfl
            · exact absurd hf hfat
          exact ⟨Or.inr ⟨cur, slot, (seekExact_some hseek).1, rfl,
            length_eraseIdx_of_get (seekExact_some hseek).1,
            hfmt, by simpa using hlock, hid.2.2, hid.1, hid.2.1⟩, rfl⟩
        · simp only [Exec.ret.injEq] at h
          subst h
          exact ⟨Or.inl rfl, rfl⟩
      · simp only [Exec.ret.injEq] at h
        subst h
        exact ⟨Or.inl rfl, rfl⟩

/-- C18. For every leaf, TODO entry and (version_worker_id, version_tts), with
the dangling-pointer switch on or off and the recorded latch version matching
or not (fast path and keyed path): when `todo` returns, the slots of the leaf
are unchanged, or exactly one slot was taken out, and that slot held a Chained
primary that was not write-locked, had is_removed = true and (worker_id, tx_id)
= (version_worker_id, version_tts); in particular the slots are unchanged when
no slot of the leaf holds such a primary. -/
theorem todo_removes_only_staged_tombstone (env : Env) (st st' : State) (point_todo : TODOPoint)
    (version_worker_id version_tts : Nat)
    (h : todo env st point_todo version_worker_id version_tts = Exec.ret st') :
    removesAtMostStagedTombstone st.leaf.slots st'.leaf.slots version_worker_id version_tts ∧
    ((∀ slot ∈ st.leaf.slots, ¬ stagedTombstone slot version_worker_id version_tts) →
      st'.leaf.slots = st.leaf.slots) := by
  have hmain : removesAtMostStagedTombstone st.leaf.slots st'.leaf.slots version_worker_id
      version_tts := by
    unfold todo at h
    split at h
    · exact (todoFastPath_slots h).1
    · exact (todoKeyedPath_slots h).1
  refine ⟨hmain, fun hnone => ?_⟩
  rcases hmain with h1 | ⟨i, slot, hs, _, _, hq⟩
  · exact h1
  · exact absurd hq (hnone slot (List.mem_iff_getElem?.mpr ⟨i, hs⟩))

/-- Witness of C18: on the example leaf (live primary under [5, 0], tombstone of
worker 0 in transaction 3 under [6, 0]) `todo` for (0, 3) returns on the keyed
path and on the fast path and takes out exactly the tombstone; `todo` for
(0, 4) on the keyed path returns and leaves the slots. -/
theorem todo_removes_only_staged_tombstone_witness :
    todo exampleEnv exampleState exampleTODO 0 3
      = Exec.ret (stateOf (todo exampleEnv exampleState exampleTODO 0 3) exampleState) ∧
    todo danglingEnv exampleState exampleTODO 0 3
      = Exec.ret (stateOf (todo danglingEnv exampleState exampleTODO 0 3) exampleState) ∧
    (stateOf (todo exampleEnv exampleState exampleTODO 0 3) exampleState).leaf.slots
      = [⟨[5, 0], examplePrimary⟩] ∧
    (stateOf (todo danglingEnv exampleState exampleTODO 0 3) exampleState).leaf.slots
      = [⟨[5, 0], examplePrimary⟩] ∧
    removesAtMostStagedTombstone exampleState.leaf.slots
      (stateOf (todo exampleEnv exampleState exampleTODO 0 3) exampleState).leaf.slots 0 3 ∧
    removesAtMostStagedTombstone exampleState.leaf.slots
      (stateOf (todo danglingEnv exampleState exampleTODO 0 3) exampleState).leaf.slots 0 3 ∧
    (stateOf (todo exampleEnv exampleState exampleTODO 0 4) exampleState).leaf.slots
      = exampleState.leaf.slots :=
  ⟨by decide, by decide, by decide, by decide,
    (todo_removes_only_staged_tombstone exampleEnv exampleState _ exampleTODO 0 3
      (by decide)).1,
    (todo_removes_only_staged_tombstone danglingEnv exampleState _ exampleTODO 0 3
      (by decide)).1,
    (todo_removes_only_staged_tombstone exampleEnv exampleState
      (stateOf (todo exampleEnv exampleState exampleTODO 0 4) exampleState) exampleTODO 0 4
      (by decide)).2 (by decide)⟩

/-! ## C19: what an abort leaves -/

/-- An `updateSameSizeInPlace` that returns ABORT_TX leaves the worker (WAL and
command-id counter included) and the state (leaf and versions store) as they
were: its checks run before anything is written or allocated. -/
theorem update_abort_leaves_all {env : Env} {vis : Visibility} {w : Worker} {st : State}
    {key : List Nat} {cb : List Nat → List Nat} {d : UpdateSameSizeInPlaceDescriptor}
    {w' : Worker} {st' : State}
    (h : updateSameSizeInPlace env vis w st key cb d = Exec.ret (OP_RESULT.ABORT_TX, w', st')) :
    w' = w ∧ st' = st := by
  unfold updateSameSizeInPlace at h
  split at h
  · simp at h
  · split at h
    · simp only [Exec.ret.injEq, Prod.mk.injEq, true_and] at h
      exact ⟨h.1.symm, h.2.symm⟩
    · split at h
      · simp only [Exec.ret.injEq, Prod.mk.injEq, true_and] at h
        exact ⟨h.1.symm, h.2.symm⟩
      · split at h
        · simp only at h
          split at h <;> simp at h
        · have := (updateChained_ret h).1
          simp at this

/-- A `remove` that returns ABORT_TX leaves the state (leaf and versions store)
and the WAL as they were, and the command-id counter of the worker advanced by
one: `command_id++` runs before the checks. -/
theorem remove_abort_leaves {env : Env} {vis : Visibility} {w : Worker} {st : State}
    {key : List Nat} {w' : Worker} {st' : State}
    (h : remove env vis w st key = Exec.ret (OP_RESULT.ABORT_TX, w', st')) :
    st' = st ∧ w' = { w with command_id := (w.command_id + 1) % U64 } := by
  unfold remove at h
  split at h
  · simp at h
  · split at h
    · simp at h
    · simp only at h
      repeat' split at h
      all_goals first
        | (simp only [Exec.ret.injEq, Prod.mk.injEq, true_and] at h
           exact ⟨h.2.symm, h.1.symm⟩)
        | simp at h

/-- C19 (the code at the failing input). Worker 1 (command-id counter 1) calls
`remove` and `updateSameSizeInPlace` on key [5, 0], whose writer is not visible
to it. Both return ABORT_TX with leaf, versions store and WAL as before; the
update leaves the command-id counter at 1, the remove leaves it at 2. -/
theorem remove_abort_consumes_command_id :
    exampleWorker.command_id = 1 ∧
    conflictingUpdate = Exec.ret (OP_RESULT.ABORT_TX, exampleWorker, exampleState) ∧
    conflictingRemove = Exec.ret (OP_RESULT.ABORT_TX,
      { exampleWorker with command_id := 2 }, exampleState) ∧
    (workerAfter conflictingRemove exampleWorker).command_id ≠ exampleWorker.command_id := by
  refine ⟨rfl, ?_, ?_, ?_⟩ <;> decide

/-! ## C20: the slot scan of checkSpaceUtilization -/

/-- At a Chained primary the slot scan does not advance: no amount of fuel lets
it return. -/
theorem checkSpaceUtilizationLoop_stuck (slots : List Slot) (s_i : Nat) (slot : Slot)
    (hslot : slots[s_i]? = some slot)
    (hfmt : slot.tuple.tuple_format = TupleFormat.CHAINED)
    (hcount : s_i < slots.length % U16) :
    ∀ fuel, checkSpaceUtilizationLoop slots fuel s_i = Exec.out_of_fuel := by
  intro fuel
  induction fuel with
  | zero => rfl
  | succ f ih => simp [checkSpaceUtilizationLoop, hslot, hfmt, hcount, ih]

/-- The slot scan walks over Fat primaries until it meets a Chained one, and
stays there. -/
theorem checkSpaceUtilizationLoop_reaches (slots : List Slot) (i : Nat) (slot : Slot)
    (hslot : slots[i]? = some slot)
    (hfmt : slot.tuple.tuple_format = TupleFormat.CHAINED)
    (hlen : slots.length < U16)
    (hfat : ∀ j, j < i → ∃ s, slots[j]? = some s ∧
      s.tuple.tuple_format = TupleFormat.FAT_TUPLE_DIFFERENT_ATTRIBUTES) :
    ∀ k s_i, s_i + k = i → ∀ fuel, checkSpaceUtilizationLoop slots fuel s_i = Exec.out_of_fuel := by
  have hi : i < slots.length := by
    rcases Nat.lt_or_ge i slots.length with h | h
    · exact h
    · rw [List.getElem?_eq_none h] at hslot
      simp at hslot
  have hmod : slots.length % U16 = slots.length := Nat.mod_eq_of_lt hlen
  intro k
  induction k with
  | zero =>
    intro s_i hs
    have : s_i = i := by omega
    subst this
    exact checkSpaceUtilizationLoop_stuck slots s_i slot hslot hfmt (by omega)
  | succ k ih =>
    intro s_i hs fuel
    cases fuel with
    | zero => rfl
    | succ f =>
      obtain ⟨s, hs1, hs2⟩ := hfat s_i (by omega)
      have hm : (s_i + 1) % U16 = s_i + 1 := Nat.mod_eq_of_lt (by omega)
      have hc : s_i < slots.length % U16 := by omega
      simp only [checkSpaceUtilizationLoop, hs1, hs2, hc, hm, if_true]
      exact ih (s_i + 1) (by omega) f

/-- On a leaf of Fat primaries only the slot scan returns at the slot count. -/
theorem checkSpaceUtilizationLoop_fat (slots : List Slot) (hlen : slots.length < U16)
    (hfat : ∀ s ∈ slots, s.tuple.tuple_format = TupleFormat.FAT_TUPLE_DIFFERENT_ATTRIBUTES) :
    ∀ k s_i fuel, s_i + k = slots.length → k < fuel →
      checkSpaceUtilizationLoop slots fuel s_i = Exec.ret slots.length := by
  have hmod : slots.length % U16 = slots.length := Nat.mod_eq_of_lt hlen
  intro k
  induction k with
  | zero =>
    intro s_i fuel hs hf
    obtain ⟨f, rfl⟩ : ∃ f, fuel = f + 1 := ⟨fuel - 1, by omega⟩
    have hc : ¬ s_i < slots.length % U16 := by omega
    simp only [checkSpaceUtilizationLoop, hc, if_false]
    rw [show s_i = slots.length from by omega]
  | succ k ih =>
    intro s_i fuel hs hf
    obtain ⟨f, rfl⟩ : ∃ f, fuel = f + 1 := ⟨fuel - 1, by omega⟩
    have hlt : s_i < slots.length := by omega
    have hget : slots[s_i]? = some slots[s_i] := List.getElem?_eq_getElem hlt
    have hm : (s_i + 1) % U16 = s_i + 1 := Nat.mod_eq_of_lt (by omega)
    have hc : s_i < slots.length % U16 := by omega
    simp only [checkSpaceUtilizationLoop, hget, hfat _ (List.getElem_mem hlt), hc, hm, if_true]
    exact ih (s_i + 1) f (by omega) (by omega)

/-- What `checkSpaceUtilization` does on a leaf on which page-wise garbage
collection is triggered: with Fat primaries only it returns the result of the
generic space check; with a Chained primary in any slot it never returns,
whatever the fuel. -/
theorem checkSpaceUtilization_triggered (trigger : Leaf → Bool)
    (generic : Leaf → SpaceCheckResult) (leaf : Leaf) (htrig : trigger leaf = true)
    (hlen : leaf.slots.length < U16) :
    ((∀ s ∈ leaf.slots, s.tuple.tuple_format = TupleFormat.FAT_TUPLE_DIFFERENT_ATTRIBUTES) →
      ∀ fuel, leaf.slots.length < fuel →
        checkSpaceUtilization true trigger generic fuel leaf = Exec.ret (generic leaf)) ∧
    ((∃ s ∈ leaf.slots, s.tuple.tuple_format = TupleFormat.CHAINED) →
      ∀ fuel, checkSpaceUtilization true trigger generic fuel leaf = Exec.out_of_fuel) := by
  constructor
  · intro hfat fuel hf
    simp [checkSpaceUtilization, htrig,
      checkSpaceUtilizationLoop_fat leaf.slots hlen hfat leaf.slots.length 0 fuel (by omega) hf]
  · intro hex fuel
    have hex2 : ∃ i : Nat, ∃ s : Slot, leaf.slots[i]? = some s ∧
        s.tuple.tuple_format = TupleFormat.CHAINED := by
      obtain ⟨s, hs, hc⟩ := hex
      obtain ⟨i, hi⟩ := List.mem_iff_getElem?.mp hs
      exact ⟨i, s, hi, hc⟩
    classical
    obtain ⟨s, hs, hc⟩ := Nat.find_spec hex2
    have hmin : ∀ j, j < Nat.find hex2 → ∃ t, leaf.slots[j]? = some t ∧
        t.tuple.tuple_format = TupleFormat.FAT_TUPLE_DIFFERENT_ATTRIBUTES := by
      intro j hj
      have hjl : j < leaf.slots.length := by
        have : Nat.find hex2 < leaf.slots.length := by
          rcases Nat.lt_or_ge (Nat.find hex2) leaf.slots.length with h | h
          · exact h
          · rw [List.getElem?_eq_none h] at hs
            simp at hs
        omega
      refine ⟨leaf.slots[j], List.getElem?_eq_getElem hjl, ?_⟩
      cases hf : leaf.slots[j].tuple.tuple_format
      · exact absurd ⟨leaf.slots[j], List.getElem?_eq_getElem hjl, hf⟩ (Nat.find_min hex2 hj)
      · rfl
    simp [checkSpaceUtilization, htrig,
      checkSpaceUtilizationLoop_reaches leaf.slots (Nat.find hex2) s hs hc hlen hmin
        (Nat.find hex2) 0 (by omega) fuel]

/-- C20 (the code at the failing input). On the example leaf, whose slot 0 holds
a Chained primary, with page-wise garbage collection triggered, the slot scan
of `checkSpaceUtilization` never leaves slot 0: for every bound on the number of
loop rounds the function is still in the loop, so it returns no
SpaceCheckResult. -/
theorem checkSpaceUtilization_does_not_terminate :
    exampleState.leaf.slots[0]? = some ⟨[5, 0], examplePrimary⟩ ∧
    examplePrimary.tuple_format = TupleFormat.CHAINED ∧
    ∀ (generic : Leaf → SpaceCheckResult) (fuel : Nat),
      checkSpaceUtilization true (fun _ => true) generic fuel exampleState.leaf
        = Exec.out_of_fuel := by
  refine ⟨rfl, rfl, fun generic fuel => ?_⟩
  simp [checkSpaceUtilization, checkSpaceUtilizationLoop_stuck exampleState.leaf.slots 0
    ⟨[5, 0], examplePrimary⟩ rfl rfl (by decide) fuel]

/-! ## C21: the garbage counter of the leaf -/

/-- `insert` does not touch `gc_space_used`. -/
theorem insert_gc_space_used (env : Env) (vis : Visibility) (splits : Nat) (w : Worker)
    (st : State) (key value : List Nat) (r : OP_RESULT) (w' : Worker) (st' : State)
    (h : insert env vis splits w st key value = Exec.ret (r, w', st')) :
    st'.leaf.gc_space_used = st.leaf.gc_space_used := by
  induction splits with
  | zero =>
    simp only [insert] at h
    split at h
    · unfold insertDuplicate at h
      split at h
      · simp only [Exec.ret.injEq, Prod.mk.injEq] at h
        rw [← h.2.2]
      · simp at h
    · unfold insertIntoLeaf at h
      simp only at h
      split at h
      · simp at h
      · simp only [Exec.ret.injEq, Prod.mk.injEq] at h
        rw [← h.2.2]
  | succ n ih =>
    simp only [insert] at h
    split at h
    · unfold insertDuplicate at h
      split at h
      · simp only [Exec.ret.injEq, Prod.mk.injEq] at h
        rw [← h.2.2]
      · simp at h
    · exact ih h

/-- `updateSameSizeInPlace` does not touch `gc_space_used`. -/
theorem update_gc_space_used (env : Env) (vis : Visibility) (w : Worker) (st : State)
    (key : List Nat) (cb : List Nat → List Nat) (d : UpdateSameSizeInPlaceDescriptor)
    (r : OP_RESULT) (w' : Worker) (st' : State)
    (h : updateSameSizeInPlace env vis w st key cb d = Exec.ret (r, w', st')) :
    st'.leaf.gc_space_used = st.leaf.gc_space_used := by
  unfold updateSameSizeInPlace at h
  split at h
  · simp at h
  · split at h
    · simp only [Exec.ret.injEq, Prod.mk.injEq] at h
      rw [← h.2.2]
    · split at h
      · simp only [Exec.ret.injEq, Prod.mk.injEq] at h
        rw [← h.2.2]
      · split at h
        · simp only at h
          split at h
          · simp only [Exec.ret.injEq, Prod.mk.injEq] at h
            rw [← h.2.2]
          · simp at h
        · unfold updateChained at h
          simp only at h
          split at h
          · simp at h
          · split at h
            · simp at h
            · simp only [Exec.ret.injEq, Prod.mk.injEq] at h
              rw [← h.2.2]
              rfl

/-- `remove` does not touch `gc_space_used`: the tombstone it leaves is not
added to the counter. -/
theorem remove_gc_space_used (env : Env) (vis : Visibility) (w : Worker) (st : State)
    (key : List Nat) (r : OP_RESULT) (w' : Worker) (st' : State)
    (h : remove env vis w st key = Exec.ret (r, w', st')) :
    st'.leaf.gc_space_used = st.leaf.gc_space_used := by
  unfold remove at h
  split at h
  · simp only [Exec.ret.injEq, Prod.mk.injEq] at h
    rw [← h.2.2]
  · split at h
    · simp only [Exec.ret.injEq, Prod.mk.injEq] at h
      rw [← h.2.2]
    · simp only at h
      repeat' split at h
      all_goals first
        | (simp only [Exec.ret.injEq, Prod.mk.injEq] at h
           rw [← h.2.2]
           done)
        | (simp only [Exec.ret.injEq, Prod.mk.injEq] at h
           rw [← h.2.2]
           rfl)
        | simp at h

/-- The unsigned subtraction of `todo`: the difference when the counter covers
the consumed space of the slot, and 2^32 more than the (negative) difference
when it does not. -/
theorem gcSpaceAfterRemoval_eq (env : Env) (leaf : Leaf) (slot : Slot)
    (hg : leaf.gc_space_used < U32) (hs : env.getKVConsumedSpace slot < U32) :
    gcSpaceAfterRemoval env leaf slot =
      if env.getKVConsumedSpace slot ≤ leaf.gc_space_used then
        leaf.gc_space_used - env.getKVConsumedSpace slot
      else leaf.gc_space_used + U32 - env.getKVConsumedSpace slot := by
  unfold gcSpaceAfterRemoval
  rw [Nat.mod_eq_of_lt hg, Nat.mod_eq_of_lt hs]
  split
  · rename_i h
    have e : leaf.gc_space_used + (U32 - env.getKVConsumedSpace slot)
        = (leaf.gc_space_used - env.getKVConsumedSpace slot) + U32 := by omega
    rw [e, Nat.add_mod_right]
    exact Nat.mod_eq_of_lt (by omega)
  · rename_i h
    have e : leaf.gc_space_used + (U32 - env.getKVConsumedSpace slot)
        = leaf.gc_space_used + U32 - env.getKVConsumedSpace slot := by omega
    rw [e]
    exact Nat.mod_eq_of_lt (by omega)

/-- What a returning `todo` leaves in `gc_space_used`: the counter as it was
when no slot is removed, and the result of the unsigned subtraction of the
consumed space of the removed slot otherwise, on both paths. -/
theorem todo_gc_space_used (env : Env) (st st' : State) (point_todo : TODOPoint)
    (version_worker_id version_tts : Nat)
    (h : todo env st point_todo version_worker_id version_tts = Exec.ret st') :
    (st'.leaf.slots = st.leaf.slots ∧ st'.leaf.gc_space_used = st.leaf.gc_space_used) ∨
    ∃ i slot, st.leaf.slots[i]? = some slot ∧ st'.leaf.slots = st.leaf.slots.eraseIdx i ∧
      st'.leaf.gc_space_used = gcSpaceAfterRemoval env st.leaf slot := by
  unfold todo at h
  split at h
  · unfold todoFastPath at h
    split at h
    · simp at h
    · rename_i slot hslot
      simp only at h
      repeat' split at h
      all_goals first
        | (simp at h
           done)
        | (simp only [Exec.ret.injEq] at h
           subst h
           first
             | exact Or.inl ⟨rfl, rfl⟩
             | exact Or.inr ⟨_, slot, hslot, rfl, rfl⟩)
  · unfold todoKeyedPath at h
    split at h
    · simp only [Exec.ret.injEq] at h
      subst h
      exact Or.inl ⟨rfl, rfl⟩
    · rename_i cur slot hseek
      simp only at h
      repeat' split at h
      all_goals
        simp only [Exec.ret.injEq] at h
        subst h
        first
          | exact Or.inl ⟨rfl, rfl⟩
          | exact Or.inr ⟨cur, slot, (seekExact_some hseek).1, rfl, rfl⟩

/-- C21 (the code at the failing input). Starting from the empty leaf
(`gc_space_used` = 0), worker 1 in transaction 7 inserts key [5, 0] with value
[1, 2] and removes it; both return OK, the remove stages the TODO entry for the
tombstone, and `gc_space_used` is still 0 while the slot of the tombstone
consumes 34 bytes. `todo` for the staged entry (keyed path) removes the
tombstone, and its subtraction wraps below zero: `gc_space_used` is 2^32 - 34
afterwards. -/
theorem todo_gc_space_used_wraps :
    emptyState.leaf.slots = [] ∧ emptyState.leaf.gc_space_used = 0 ∧
    tombstoneInsert exampleEnv = Exec.ret (OP_RESULT.OK,
      workerAfter (tombstoneInsert exampleEnv) exampleWorker,
      stateAfter (tombstoneInsert exampleEnv) emptyState) ∧
    tombstoneRemove exampleEnv = Exec.ret (OP_RESULT.OK,
      workerAfter (tombstoneRemove exampleEnv) exampleWorker,
      stateAfter (tombstoneRemove exampleEnv) emptyState) ∧
    (workerAfter (tombstoneRemove exampleEnv) exampleWorker).todo = [tombstoneTODO] ∧
    (stateAfter (tombstoneRemove exampleEnv) emptyState).leaf.slots
      = [⟨[5, 0], removedPrimary exampleEnv exampleWorker (ChainedTuple 1 7 [1, 2]) 1⟩] ∧
    (stateAfter (tombstoneRemove exampleEnv) emptyState).leaf.gc_space_used = 0 ∧
    exampleEnv.getKVConsumedSpace
      ⟨[5, 0], removedPrimary exampleEnv exampleWorker (ChainedTuple 1 7 [1, 2]) 1⟩ = 34 ∧
    exampleEnv.FLAGS_vi_dangling_pointer = false ∧
    tombstoneCollect exampleEnv = Exec.ret (stateOf (tombstoneCollect exampleEnv) emptyState) ∧
    (stateOf (tombstoneCollect exampleEnv) emptyState).leaf.slots = [] ∧
    (stateOf (tombstoneCollect exampleEnv) emptyState).leaf.gc_space_used = 2 ^ 32 - 34 := by
  refine ⟨rfl, rfl, ?_, ?_, ?_, ?_, ?_, ?_, rfl, ?_, ?_, ?_⟩ <;> decide

/-- The same run with the dangling-pointer switch on: `todo` takes the fast
path (the recorded latch version is that of the page) and its subtraction
wraps in the same way. -/
theorem todo_fast_path_gc_space_used_wraps :
    emptyState.leaf.slots = [] ∧ emptyState.leaf.gc_space_used = 0 ∧
    tombstoneInsert danglingEnv = Exec.ret (OP_RESULT.OK,
      workerAfter (tombstoneInsert danglingEnv) exampleWorker,
      stateAfter (tombstoneInsert danglingEnv) emptyState) ∧
    tombstoneRemove danglingEnv = Exec.ret (OP_RESULT.OK,
      workerAfter (tombstoneRemove danglingEnv) exampleWorker,
      stateAfter (tombstoneRemove danglingEnv) emptyState) ∧
    (workerAfter (tombstoneRemove danglingEnv) exampleWorker).todo = [tombstoneTODO] ∧
    (stateAfter (tombstoneRemove danglingEnv) emptyState).leaf.slots
      = [⟨[5, 0], removedPrimary danglingEnv exampleWorker (ChainedTuple 1 7 [1, 2]) 1⟩] ∧
    (stateAfter (tombstoneRemove danglingEnv) emptyState).leaf.gc_space_used = 0 ∧
    danglingEnv.getKVConsumedSpace
      ⟨[5, 0], removedPrimary danglingEnv exampleWorker (ChainedTuple 1 7 [1, 2]) 1⟩ = 34 ∧
    danglingEnv.FLAGS_vi_dangling_pointer = true ∧
    tombstoneTODO.dangling_pointer.latch_version_should_be
      = (stateAfter (tombstoneRemove danglingEnv) emptyState).leaf.latch_version ∧
    tombstoneCollect danglingEnv = Exec.ret (stateOf (tombstoneCollect danglingEnv) emptyState) ∧
    (stateOf (tombstoneCollect danglingEnv) emptyState).leaf.slots = [] ∧
    (stateOf (tombstoneCollect danglingEnv) emptyState).leaf.gc_space_used = 2 ^ 32 - 34 := by
  refine ⟨rfl, rfl, ?_, ?_, ?_, ?_, ?_, ?_, rfl, ?_, ?_, ?_, ?_⟩ <;> decide

end BTreeVI
